import Mathlib

/-!
Shallow embedding of the extent-allocator repository (src/tree.rs and
src/allocator.rs) and proofs about its claimed properties.

Modelling conventions:
* `u64` and `usize` values are modelled as `Nat` (no arithmetic in the code
  can overflow below 2^64 on the inputs the structures admit, and all
  subtractions the code performs are guarded to be non-negative).
* Node ids are `Nat`; the `u8` sentinel `NULL_NODE = 255` is kept verbatim.
* The Rust `Vec` used as a stack (`free_nodes`) is modelled as a `List` whose
  head is the top of the stack (the end of the `Vec`), so `pop` takes the
  head and `push` conses.
* `Arc<Mutex<Extent>>` sharing is modelled with an extent pool
  (`Tree.extents : List Extent`); an extent reference is an index into the
  pool.  Split reuses the left child's index exactly as the Rust code reuses
  the extent object, and allocator contexts store pool indices.
* Recursive Rust functions whose recursion is not structural are given a
  fuel parameter; the public wrappers pass enough fuel that the model agrees
  with the Rust code on every state the proofs consider.
-/

namespace ExtentAlloc

/-- Sentinel node id, `NULL_NODE` in src/tree.rs. -/
def NULL_NODE : Nat := 255

/-- An extent `{ begin, end, cursor }` (src/tree.rs).  The Rust field `end`
is a Lean keyword, so it is written `end_`. -/
structure Extent where
  begin : Nat
  end_ : Nat
  cursor : Nat
deriving Repr, DecidableEq

/-- A tree node: internal `{holders, nr_free_blocks, cut, left, right}` or
leaf `{extent, holders}`; the leaf's extent is an index into the pool. -/
inductive Node where
  | internal (holders : Nat) (nr_free_blocks : Nat) (cut : Nat) (left right : Nat)
  | leaf (extent : Nat) (holders : Nat)
deriving Repr, DecidableEq

/-- `Node::default()` in src/tree.rs. -/
def Node.default_ : Node := .internal 0 0 0 NULL_NODE NULL_NODE

/-- `Node::nr_holders`. -/
def Node.nr_holders : Node → Nat
  | .internal h _ _ _ _ => h
  | .leaf _ h => h

/-- The BSP tree (src/tree.rs), together with the extent pool that models
the `Arc<Mutex<Extent>>` heap. -/
structure Tree where
  nr_blocks : Nat
  nodes : List Node
  free_nodes : List Nat
  root : Nat
  extents : List Extent
deriving Repr, DecidableEq

/-- Dereference an extent index (a lock/read of the shared extent). -/
def Tree.readExtent (t : Tree) (e : Nat) : Extent :=
  t.extents.getD e ⟨0, 0, 0⟩

/-- Overwrite the shared extent behind index `e`. -/
def Tree.setExtent (t : Tree) (e : Nat) (x : Extent) : Tree :=
  { t with extents := t.extents.set e x }

/-- `Tree::read_node`. -/
def Tree.read_node (t : Tree) (i : Nat) : Node :=
  t.nodes.getD i Node.default_

/-- `Tree::write_node`. -/
def Tree.write_node (t : Tree) (i : Nat) (n : Node) : Tree :=
  { t with nodes := t.nodes.set i n }

/-- `Node::nr_free_blocks`; needs the pool to read a leaf's extent. -/
def Tree.node_free_blocks (t : Tree) : Node → Nat
  | .internal _ f _ _ _ => f
  | .leaf e _ => (t.readExtent e).end_ - (t.readExtent e).cursor

/-- `Tree::alloc_node` (`free_nodes.pop()`). -/
def Tree.alloc_node (t : Tree) : Tree × Option Nat :=
  match t.free_nodes with
  | [] => (t, none)
  | j :: rest => ({ t with free_nodes := rest }, some j)

/-- `Tree::free_node` (`free_nodes.push(node)`). -/
def Tree.free_node (t : Tree) (i : Nat) : Tree :=
  { t with free_nodes := i :: t.free_nodes }

/-- `Tree::new`: all slots free, then one slot is popped and becomes a leaf
root covering `[0, nr_blocks)` with cursor `0` (extent pool index 0). -/
def Tree.new (nr_blocks nr_nodes : Nat) : Tree :=
  match (List.range nr_nodes).reverse with
  | [] =>
    { nr_blocks := nr_blocks, nodes := [], free_nodes := [],
      root := NULL_NODE, extents := [] }
  | r :: rest =>
    { nr_blocks := nr_blocks
      nodes := (List.replicate nr_nodes Node.default_).set r (.leaf 0 0)
      free_nodes := rest
      root := r
      extents := [⟨0, nr_blocks, 0⟩] }

/-- `Tree::split_leaf` (src/tree.rs lines 128-188).  Returns the updated
tree and the Rust `bool` result.  The `Internal` case panics in Rust and is
never reached; the model returns `false` there. -/
def Tree.split_leaf (t : Tree) (node_index : Nat) : Tree × Bool :=
  if t.free_nodes.length < 2 then (t, false)
  else
    match t.read_node node_index with
    | .internal _ _ _ _ _ => (t, false)
    | .leaf e h =>
      let ext := t.readExtent e
      if ext.end_ - ext.cursor ≤ 16 then (t, false)
      else
        match t.free_nodes with
        | lc :: rc :: rest =>
          let mid := ext.cursor + (ext.end_ - ext.cursor) / 2
          let t1 := { t.setExtent e { ext with end_ := mid } with free_nodes := rest }
          let t2 := t1.write_node lc (.leaf e h)
          let newE := t2.extents.length
          let t3 := { t2 with extents := t2.extents ++ [Extent.mk mid ext.end_ mid] }
          let t4 := t3.write_node rc (.leaf newE 0)
          (t4.write_node node_index (.internal h (ext.end_ - ext.cursor) mid lc rc), true)
        | _ => (t, false)

/-- `Tree::select_child`: pick the child with the larger
`nr_free_blocks / (holders + 1)` score, ties to the left. -/
def Tree.select_child (t : Tree) (left right : Nat) : Nat :=
  let left_node := t.read_node left
  let right_node := t.read_node right
  let left_score := t.node_free_blocks left_node / (left_node.nr_holders + 1)
  let right_score := t.node_free_blocks right_node / (right_node.nr_holders + 1)
  if left_score ≥ right_score then left else right

/-- The score of a node, `nr_free_blocks(c) / (holders(c) + 1)`, as
computed inline by `select_child`. -/
def Tree.score (t : Tree) (i : Nat) : Nat :=
  t.node_free_blocks (t.read_node i) / ((t.read_node i).nr_holders + 1)

/-- `Tree::borrow_` (src/tree.rs lines 213-273), with fuel.  The Rust
`(255, 255)` child pattern panics; the model returns `none` there. -/
def Tree.borrow_ (fuel : Nat) (t : Tree) (node_index : Nat) : Tree × Option Nat :=
  match fuel with
  | 0 => (t, none)
  | fuel + 1 =>
    if node_index = NULL_NODE then (t, none)
    else
      match t.read_node node_index with
      | .internal h f cut l r =>
        let res :=
          if l = NULL_NODE ∧ r = NULL_NODE then (t, none)
          else if l = NULL_NODE then Tree.borrow_ fuel t r
          else if r = NULL_NODE then Tree.borrow_ fuel t l
          else Tree.borrow_ fuel t (t.select_child l r)
        if res.2.isSome then
          (res.1.write_node node_index (.internal (h + 1) f cut l r), res.2)
        else res
      | .leaf e h =>
        if h > 0 then
          let sp := t.split_leaf node_index
          if sp.2 then Tree.borrow_ fuel sp.1 node_index
          else (t.write_node node_index (.leaf e (h + 1)), some e)
        else (t.write_node node_index (.leaf e (h + 1)), some e)

/-- `Tree::borrow`: borrow starting from the root.  The fuel is enough for
every well-formed tree (each node is visited at most twice on the borrow
path, see `borrow_isSome_of_good`). -/
def Tree.borrow (t : Tree) : Tree × Option Nat :=
  Tree.borrow_ (3 * t.nodes.length + 1) t t.root

/-- `Tree::nr_free`. -/
def Tree.nr_free (t : Tree) (i : Nat) : Nat :=
  if i = NULL_NODE then 0 else t.node_free_blocks (t.read_node i)

/-- The post-recursion part of `Tree::release_` at an internal node: if
both children are NULL free this node and return NULL; if exactly one is
NULL free this node and return the survivor; otherwise decrement the
holders, refresh `nr_free_blocks` and keep the node. -/
def Tree.collapse (t1 : Tree) (node_index h cut l' r' : Nat) : Tree × Nat :=
  if l' = NULL_NODE ∧ r' = NULL_NODE then (t1.free_node node_index, NULL_NODE)
  else if l' = NULL_NODE then (t1.free_node node_index, r')
  else if r' = NULL_NODE then (t1.free_node node_index, l')
  else
    (t1.write_node node_index
      (.internal (h - 1) (t1.nr_free l' + t1.nr_free r') cut l' r'), node_index)

/-- `Tree::release_` (src/tree.rs lines 293-363), with fuel: descend by
`block < cut`, free a drained leaf, collapse internal nodes whose children
were pruned, otherwise decrement holders and refresh `nr_free_blocks`.
Returns the updated tree and the replacement node id. -/
def Tree.release_ (fuel : Nat) (t : Tree) (block b e node_index : Nat) : Tree × Nat :=
  match fuel with
  | 0 => (t, node_index)
  | fuel + 1 =>
    if node_index = NULL_NODE then (t, node_index)
    else
      match t.read_node node_index with
      | .internal h _ cut l r =>
        if block < cut then
          let res := Tree.release_ fuel t block b cut l
          Tree.collapse res.1 node_index h cut res.2 r
        else
          let res := Tree.release_ fuel t block cut e r
          Tree.collapse res.1 node_index h cut l res.2
      | .leaf ext h =>
        let x := t.readExtent ext
        if x.cursor = x.end_ then (t.free_node node_index, NULL_NODE)
        else (t.write_node node_index (.leaf ext (h - 1)), node_index)

/-- `Tree::release`: look the leaf up by the extent's `begin` and install
the replacement root. -/
def Tree.release (t : Tree) (ext : Nat) : Tree :=
  let b := (t.readExtent ext).begin
  let res := Tree.release_ (t.nodes.length + 1) t b 0 t.nr_blocks t.root
  { res.1 with root := res.2 }

/-- Modelled from the spec: `Tree::resize` is absent from src (only its
caller `Allocator::resize` and the tree tests exist) and `Tree::reset` is
`todo!()` in src/tree.rs.  The spec (section 4.2.4) says both abandon the
current tree: return every node slot to the free list and install a fresh
single-leaf root covering `[0, nr_blocks)` (for `resize`, the new size). -/
def Tree.resize (t : Tree) (nr_blocks : Nat) : Tree :=
  match (List.range t.nodes.length).reverse with
  | [] =>
    { t with nr_blocks := nr_blocks, nodes := [], free_nodes := [], root := NULL_NODE }
  | r :: rest =>
    { nr_blocks := nr_blocks
      nodes := (List.replicate t.nodes.length Node.default_).set r (.leaf t.extents.length 0)
      free_nodes := rest
      root := r
      extents := t.extents ++ [⟨0, nr_blocks, 0⟩] }

/-- Modelled from the spec: `Tree::reset` is `todo!()` in src/tree.rs; the
spec treats it as `resize` with the current block count. -/
def Tree.reset (t : Tree) : Tree :=
  t.resize t.nr_blocks

/-! ### The allocator (src/allocator.rs)

`Arc<Mutex<AllocContext>>` values are modelled as indices into a context
heap `Allocator.ctxs`; the `Weak` back-pointer `prev` is an index too (a
context on a chain is always kept alive through the map/`next` ownership
chain, so `upgrade` never fails in the states the code can reach).  The
`BTreeMap` is modelled as an association list; only lookup, insert, remove
and iteration are used, and no behaviour of the code depends on the key
order beyond these. -/

/-- `AllocContext { extent, next, prev }`. -/
structure AllocContext where
  extent : Option Nat
  next : Option Nat
  prev : Option Nat
deriving Repr, DecidableEq

/-- `AllocContext::new()`. -/
def AllocContext.new : AllocContext := ⟨none, none, none⟩

/-- Find a key's value in the holders map. -/
def mapFind (m : List (Nat × Nat)) (k : Nat) : Option Nat :=
  (m.find? (fun p => p.1 = k)).map (fun p => p.2)

/-- Insert or replace a key's value in the holders map. -/
def mapSet (m : List (Nat × Nat)) (k v : Nat) : List (Nat × Nat) :=
  if (m.find? (fun p => p.1 = k)).isSome then
    m.map (fun p => if p.1 = k then (k, v) else p)
  else m ++ [(k, v)]

/-- Remove a key from the holders map. -/
def mapRemove (m : List (Nat × Nat)) (k : Nat) : List (Nat × Nat) :=
  m.filter (fun p => ¬ p.1 = k)

/-- `Allocator { extents, holders }` plus the context heap. -/
structure Allocator where
  extents : Tree
  holders : List (Nat × Nat)
  ctxs : List AllocContext
deriving Repr, DecidableEq

/-- Read a context (lock + read of the `Arc<Mutex<AllocContext>>`). -/
def Allocator.readCtx (s : Allocator) (i : Nat) : AllocContext :=
  s.ctxs.getD i AllocContext.new

/-- Overwrite a context. -/
def Allocator.writeCtx (s : Allocator) (i : Nat) (c : AllocContext) : Allocator :=
  { s with ctxs := s.ctxs.set i c }

/-- `Allocator::new`. -/
def Allocator.new (nr_blocks nr_nodes : Nat) : Allocator :=
  { extents := Tree.new nr_blocks nr_nodes, holders := [], ctxs := [] }

/-- `Allocator::get_context`: a fresh empty context. -/
def Allocator.get_context (s : Allocator) : Allocator × Nat :=
  ({ s with ctxs := s.ctxs ++ [AllocContext.new] }, s.ctxs.length)

/-- `Allocator::add_holder`: insert `c` at the head of the chain keyed by
`extent_begin`; the previous head (if any) becomes `c`'s `next` and gets a
`prev` back-link to `c`. -/
def Allocator.add_holder (s : Allocator) (extent_begin c : Nat) : Allocator :=
  match mapFind s.holders extent_begin with
  | some h =>
    let s1 := s.writeCtx c { s.readCtx c with next := some h }
    let s2 := s1.writeCtx h { s1.readCtx h with prev := some c }
    { s2 with holders := mapSet s2.holders extent_begin c }
  | none => { s with holders := mapSet s.holders extent_begin c }

/-- `Allocator::remove_holder`: take `c`'s `prev`/`next` and unlink it,
updating the neighbours and, when `c` was a head, the map. -/
def Allocator.remove_holder (s : Allocator) (extent_begin c : Nat) : Allocator :=
  let ctx := s.readCtx c
  let s0 := s.writeCtx c { ctx with prev := none, next := none }
  match ctx.prev, ctx.next with
  | none, none => { s0 with holders := mapRemove s0.holders extent_begin }
  | none, some nx =>
    if (mapFind s0.holders extent_begin).isSome then
      let s1 := s0.writeCtx nx { s0.readCtx nx with prev := none }
      { s1 with holders := mapSet s1.holders extent_begin nx }
    else s0
  | some p, nxOpt =>
    let s1 := s0.writeCtx p { s0.readCtx p with next := nxOpt }
    match nxOpt with
    | some nx => s1.writeCtx nx { s1.readCtx nx with prev := some p }
    | none => s1

/-- `Allocator::put_context`: if the context holds an extent, take it,
unlink the context from its holder chain and release the extent. -/
def Allocator.put_context (s : Allocator) (c : Nat) : Allocator :=
  match (s.readCtx c).extent with
  | some e =>
    let s0 := s.writeCtx c { s.readCtx c with extent := none }
    let eb := (s0.extents.readExtent e).begin
    let s1 := s0.remove_holder eb c
    { s1 with extents := s1.extents.release e }
  | none => s

/-- One step of `reset_chained_contexts`: clear `extent` and `prev`, take
`next` and continue down the chain.  The fuel `|ctxs| + 1` used by the
callers always suffices: the walk takes each visited context's `next`, so a
revisit stops immediately, exactly as the Rust loop does. -/
def resetChain (s : Allocator) (fuel : Nat) (i : Nat) : Allocator :=
  match fuel with
  | 0 => s
  | fuel + 1 =>
    let c := s.readCtx i
    let s1 := s.writeCtx i AllocContext.new
    match c.next with
    | some nx => resetChain s1 fuel nx
    | none => s1

/-- `Allocator::reset_contexts`: remove the chain keyed by `extent_begin`
from the map and reset every context on it. -/
def Allocator.reset_contexts (s : Allocator) (extent_begin : Nat) : Allocator :=
  match mapFind s.holders extent_begin with
  | some h => resetChain { s with holders := mapRemove s.holders extent_begin } (s.ctxs.length + 1) h
  | none => s

/-- Iteration part of `Allocator::reset_all_contexts`. -/
def resetChains (s : Allocator) : List (Nat × Nat) → Allocator
  | [] => s
  | (_, h) :: rest => resetChains (resetChain s (s.ctxs.length + 1) h) rest

/-- `Allocator::reset_all_contexts`: swap the map out and reset every
chain. -/
def Allocator.reset_all_contexts (s : Allocator) : Allocator :=
  resetChains { s with holders := [] } s.holders

/-- `Allocator::reset_and_release`: clone the context's extent, reset the
chain keyed by its `begin` and release it back to the tree.  The Rust code
unwraps the extent; it is never called with an empty one, and the model
returns the state unchanged in that unreachable case. -/
def Allocator.reset_and_release (s : Allocator) (c : Nat) : Allocator :=
  match (s.readCtx c).extent with
  | none => s
  | some e =>
    let eb := (s.extents.readExtent e).begin
    let s1 := s.reset_contexts eb
    { s1 with extents := s1.extents.release e }

/-- The head of `Allocator::alloc`'s loop body: make sure the context holds
an extent, borrowing one from the tree (and registering the holder) when it
does not.  Returns `none` when the tree is out of space. -/
def Allocator.ensure_extent (s : Allocator) (c : Nat) : Allocator × Option Nat :=
  match (s.readCtx c).extent with
  | some e => (s, some e)
  | none =>
    let br := s.extents.borrow
    let s1 := { s with extents := br.1 }
    match br.2 with
    | none => (s1, none)
    | some e =>
      let s2 := s1.writeCtx c { s1.readCtx c with extent := some e }
      let eb := (s2.extents.readExtent e).begin
      (s2.add_holder eb c, some e)

/-- `Allocator::alloc` (src/allocator.rs lines 71-115), with fuel bounding
the number of loop iterations.  Each iteration: ensure an extent (out of
space gives `Ok(None)`), consult the oracle on `(cursor, end)`; on
`Ok(Some(b))` advance the cursor and, when the extent is now exhausted,
invalidate all its holders and release it; on `Ok(None)` drain the cursor,
invalidate, release and loop; on `Err(e)` propagate untouched. -/
def Allocator.alloc {ε : Type} (oracle : Nat → Nat → Except ε (Option Nat)) :
    Nat → Allocator → Nat → Allocator × Except ε (Option Nat)
  | 0, s, _ => (s, Except.ok none)
  | fuel + 1, s, c =>
    match Allocator.ensure_extent s c with
    | (s1, none) => (s1, Except.ok none)
    | (s1, some e) =>
      let x := s1.extents.readExtent e
      match oracle x.cursor x.end_ with
      | Except.error err => (s1, Except.error err)
      | Except.ok (some b) =>
        let s2 := { s1 with extents := s1.extents.setExtent e { x with cursor := b + 1 } }
        if b + 1 = x.end_ then (s2.reset_and_release c, Except.ok (some b))
        else (s2, Except.ok (some b))
      | Except.ok none =>
        let s2 := { s1 with extents := s1.extents.setExtent e { x with cursor := x.end_ } }
        Allocator.alloc oracle fuel (s2.reset_and_release c) c

/-- `Allocator::reset`: invalidate every holder context, then reset the
tree. -/
def Allocator.reset (s : Allocator) : Allocator :=
  let s1 := s.reset_all_contexts
  { s1 with extents := s1.extents.reset }

/-- `Allocator::resize`: invalidate every holder context, then resize the
tree. -/
def Allocator.resize (s : Allocator) (nr_blocks : Nat) : Allocator :=
  let s1 := s.reset_all_contexts
  { s1 with extents := s1.extents.resize nr_blocks }

/-! ### Concrete scenario states

The seed scenario S3 of the spec (`nr_blocks = 1024`, `nr_nodes = 3`:
borrow twice, drain and release the left child only, borrow again), and the
shared drained leaf scenario (`nr_blocks = 10`, so the second borrow cannot
split and shares the single leaf). -/

/-- S3: the fresh tree. -/
def S3_tree0 : Tree := Tree.new 1024 3

/-- S3: after the first borrow (returns extent 0, `(0, 1024)`). -/
def S3_tree1 : Tree := (S3_tree0.borrow).1

/-- S3: after the second borrow (split; extents `(0,512)` and `(512,1024)`). -/
def S3_tree2 : Tree := (S3_tree1.borrow).1

/-- S3: the left extent drained (`cursor := end`), as in the repo's
`reuse_node` test. -/
def S3_drained : Tree :=
  S3_tree2.setExtent 0 { S3_tree2.readExtent 0 with cursor := (S3_tree2.readExtent 0).end_ }

/-- S3: the left extent released. -/
def S3_released : Tree := S3_drained.release 0

/-- S3: the next borrow after the release. -/
def S3_next : Tree × Option Nat := S3_released.borrow

/-- S3: the extent object returned by the next borrow. -/
def S3_extent : Extent := S3_next.1.readExtent (S3_next.2.getD 999)

/-- Shared-leaf scenario: fresh tree over 10 blocks with 3 node slots. -/
def ShL_tree0 : Tree := Tree.new 10 3

/-- Shared-leaf scenario: after the first borrow. -/
def ShL_tree1 : Tree := (ShL_tree0.borrow).1

/-- Shared-leaf scenario: after the second borrow; the leaf is too small to
split (`10 ≤ MIN_SPLIT`), so the borrow is shared and `holders = 2`. -/
def ShL_shared : Tree := (ShL_tree1.borrow).1

/-- Shared-leaf scenario: the shared extent drained (`cursor := end`). -/
def ShL_drained : Tree :=
  ShL_shared.setExtent 0 { ShL_shared.readExtent 0 with cursor := (ShL_shared.readExtent 0).end_ }

/-- Witness oracle: first-fit on a fully free range. -/
def WOracle : Nat → Nat → Except Unit (Option Nat) :=
  fun cur en => if cur < en then Except.ok (some cur) else Except.ok none

/-- Witness oracle that always fails. -/
def WOrErr : Nat → Nat → Except Nat (Option Nat) := fun _ _ => Except.error 42

/-- Witness allocator: 4 blocks, 1 node slot, one context (id 0). -/
def WA0 : Allocator := ((Allocator.new 4 1).get_context).1

/-- Witness allocator after one allocation (block 0; context 0 holds
extent 0 with cursor 1). -/
def WA1 : Allocator := (Allocator.alloc WOracle 3 WA0 0).1

/-- Witness allocator after allocating all four blocks: the tree is empty
(`root = NULL_NODE`) and the context was invalidated. -/
def WA4 : Allocator :=
  (Allocator.alloc WOracle 3 (Allocator.alloc WOracle 3
    (Allocator.alloc WOracle 3 WA1 0).1 0).1 0).1


/-- The extent index of every leaf in the node pool is a valid index into
the extent pool. -/
def TreeIdsOK (t : Tree) : Prop :=
  ∀ i e h, t.read_node i = Node.leaf e h → e < t.extents.length

/-! ### Holder-chain walks and the operation language -/

/-- Walk a holder chain from `i`, following `next` pointers, with fuel. -/
def chainWalk (s : Allocator) : Nat → Nat → List Nat
  | 0, _ => []
  | fuel + 1, i =>
    i :: (match (s.readCtx i).next with
          | some nx => chainWalk s fuel nx
          | none => [])

/-- The walks of all chains registered in the holders map. -/
def Allocator.chainWalks (s : Allocator) : List (List Nat) :=
  s.holders.map (fun p => chainWalk s (s.ctxs.length + 1) p.2)

/-- The chains are sane: no context appears twice, within a chain or
across chains, so every walk terminates and the chains are disjoint. -/
def Allocator.ChainsSane (s : Allocator) : Prop :=
  ((s.chainWalks).flatten).Nodup

/-- Every context holding an extent sits on some registered holder
chain. -/
def Allocator.HoldersComplete (s : Allocator) : Prop :=
  ∀ j, j < s.ctxs.length → ((s.readCtx j).extent).isSome = true →
    ∃ p ∈ s.holders, j ∈ chainWalk s (s.ctxs.length + 1) p.2


/-- Consecutive contexts of a chain are doubly linked and the last one has
no successor. -/
def Linked (s : Allocator) : List Nat → Prop
  | [] => True
  | [i] => (s.readCtx i).next = none
  | i :: j :: rest => (s.readCtx i).next = some j ∧ (s.readCtx j).prev = some i ∧
      Linked s (j :: rest)

instance (s : Allocator) : Decidable (s.ChainsSane) := by
  unfold Allocator.ChainsSane
  infer_instance

instance (s : Allocator) : Decidable (s.HoldersComplete) := by
  unfold Allocator.HoldersComplete
  infer_instance

/-- Chain shape of one holders-map entry: a non-empty list of the contexts
on the chain, headed by the entry's value, whose head has no back-link,
whose members are consecutively linked by `next`/`prev`, and every member
of which holds an extent whose `begin` is the entry's key. -/
def ChainOK (s : Allocator) (p : Nat × Nat) (ch : List Nat) : Prop :=
  ch ≠ [] ∧ p.2 = ch.headD 0 ∧ (s.readCtx (ch.headD 0)).prev = none ∧
    Linked s ch ∧
    ∀ i ∈ ch, ∃ e, (s.readCtx i).extent = some e ∧
      (s.extents.readExtent e).begin = p.1

/-- Representation invariant of the holders map: `chains` lists, entry by
entry, the contexts sitting on each doubly-linked holder chain; no context
appears twice, members are exactly the extent-holding contexts, contexts
off the chains carry no links, and extent references point into the
pool. -/
structure ChainRep (s : Allocator) (chains : List (List Nat)) : Prop where
  pairs : List.Forall₂ (ChainOK s) s.holders chains
  nodupJ : (chains.flatten).Nodup
  bounds : ∀ i ∈ chains.flatten, i < s.ctxs.length
  complete : ∀ i, i < s.ctxs.length → ((s.readCtx i).extent).isSome = true →
    i ∈ chains.flatten
  keysNodup : (s.holders.map Prod.fst).Nodup
  nonMember : ∀ i, i ∉ chains.flatten →
    (s.readCtx i).prev = none ∧ (s.readCtx i).next = none
  extBound : ∀ i e, (s.readCtx i).extent = some e → e < s.extents.extents.length

/-- The chain-integrity property claimed by the spec: `next` links are
answered by `prev` back-links and every chain head has no back-link. -/
def ChainIntegrity (s : Allocator) : Prop :=
  (∀ i j : Nat, (s.readCtx i).next = some j → (s.readCtx j).prev = some i)
  ∧ (∀ p ∈ s.holders, (s.readCtx p.2).prev = none)

/-- The allocator invariant: well-formed leaf extent references plus a
chain representation of the holders map. -/
def AllocInv (s : Allocator) : Prop :=
  TreeIdsOK s.extents ∧ ∃ chains, ChainRep s chains

/-- The allocator operations of the public surface.  `put_context` and
`alloc` only act on context handles that exist, as in the Rust API where a
context handle is always one returned by `get_context`. -/
inductive Op (ε : Type) where
  | get_context
  | put_context (c : Nat)
  | alloc (c : Nat) (fuel : Nat) (oracle : Nat → Nat → Except ε (Option Nat))
  | reset
  | resize (n : Nat)

/-- Apply one operation. -/
def applyOp {ε : Type} (s : Allocator) : Op ε → Allocator
  | .get_context => (s.get_context).1
  | .put_context c => if c < s.ctxs.length then s.put_context c else s
  | .alloc c fuel oracle =>
    if c < s.ctxs.length then (Allocator.alloc oracle fuel s c).1 else s
  | .reset => s.reset
  | .resize n => s.resize n

/-- Apply a sequence of operations. -/
def applyOps {ε : Type} (s : Allocator) : List (Op ε) → Allocator
  | [] => s
  | op :: ops => applyOps (applyOp s op) ops

/-! ### Well-formedness of a borrowable subtree -/

/-- Borrow-safety of the subtree rooted at `i`, with depth bound `d`: every
node on it is a live slot (not `NULL_NODE`, inside the pool, not on the
free list `free`) and every internal node has at least one non-null child
(the code asserts a node with two NULL children is impossible). -/
inductive Good (t : Tree) (free : List Nat) : Nat → Nat → Prop where
  | leaf (i e h d : Nat) : i ≠ NULL_NODE → i < t.nodes.length → i ∉ free →
      t.read_node i = .leaf e h → Good t free i d
  | internalLeft (i h f cut l d : Nat) : i ≠ NULL_NODE → i < t.nodes.length →
      i ∉ free → t.read_node i = .internal h f cut l NULL_NODE →
      Good t free l d → Good t free i (d + 1)
  | internalRight (i h f cut r d : Nat) : i ≠ NULL_NODE → i < t.nodes.length →
      i ∉ free → t.read_node i = .internal h f cut NULL_NODE r →
      Good t free r d → Good t free i (d + 1)
  | internalBoth (i h f cut l r d : Nat) : i ≠ NULL_NODE → i < t.nodes.length →
      i ∉ free → t.read_node i = .internal h f cut l r →
      l ≠ NULL_NODE → r ≠ NULL_NODE →
      Good t free l d → Good t free r d → Good t free i (d + 1)

/-- A well-formed tree: a `u8`-sized pool, a duplicate-free in-range free
list, and a borrow-safe root whose depth is bounded by the pool size. -/
def GoodTree (t : Tree) : Prop :=
  t.nodes.length ≤ 255 ∧ t.free_nodes.Nodup ∧
    (∀ j ∈ t.free_nodes, j < t.nodes.length) ∧
    ∃ d, d ≤ t.nodes.length ∧ Good t t.free_nodes t.root d

/-! ### Basic read/write lemmas -/

theorem read_node_write_node_self (t : Tree) (i : Nat) (n : Node)
    (h : i < t.nodes.length) : (t.write_node i n).read_node i = n := by
  simp [Tree.read_node, Tree.write_node, List.getD_eq_getElem?_getD,
    List.getElem?_set_self', List.getElem?_eq_getElem h]

theorem read_node_write_node_ne (t : Tree) (i j : Nat) (n : Node)
    (h : j ≠ i) : (t.write_node i n).read_node j = t.read_node j := by
  simp [Tree.read_node, Tree.write_node, List.getD_eq_getElem?_getD,
    List.getElem?_set_ne (Ne.symm h)]

theorem readExtent_setExtent_self (t : Tree) (e : Nat) (x : Extent)
    (h : e < t.extents.length) : (t.setExtent e x).readExtent e = x := by
  simp [Tree.readExtent, Tree.setExtent, List.getD_eq_getElem?_getD,
    List.getElem?_set_self', List.getElem?_eq_getElem h]

theorem readExtent_setExtent_ne (t : Tree) (e e' : Nat) (x : Extent)
    (h : e' ≠ e) : (t.setExtent e x).readExtent e' = t.readExtent e' := by
  simp [Tree.readExtent, Tree.setExtent, List.getD_eq_getElem?_getD,
    List.getElem?_set_ne (Ne.symm h)]

theorem read_node_leaf_lt (t : Tree) (i e h : Nat)
    (hnode : t.read_node i = .leaf e h) : i < t.nodes.length := by
  by_contra hge
  rw [Tree.read_node, List.getD_eq_getElem?_getD, List.getElem?_eq_none (by omega)] at hnode
  simp [Node.default_] at hnode

/-! ### Characterization of `split_leaf` -/

theorem split_leaf_of_small (t : Tree) (i e h : Nat)
    (hnode : t.read_node i = .leaf e h)
    (hsmall : (t.readExtent e).end_ - (t.readExtent e).cursor ≤ 16) :
    t.split_leaf i = (t, false) := by
  unfold Tree.split_leaf
  split
  · rfl
  · rw [hnode]
    simp only [if_pos hsmall]

theorem split_leaf_of_nospace (t : Tree) (i : Nat)
    (hfree : t.free_nodes.length < 2) :
    t.split_leaf i = (t, false) := by
  unfold Tree.split_leaf
  simp only [if_pos hfree]

theorem split_leaf_result (t : Tree) (i e h lc rc : Nat) (rest : List Nat)
    (hnode : t.read_node i = .leaf e h)
    (hfree : t.free_nodes = lc :: rc :: rest)
    (hbig : 16 < (t.readExtent e).end_ - (t.readExtent e).cursor) :
    t.split_leaf i =
      (let ext := t.readExtent e
       let mid := ext.cursor + (ext.end_ - ext.cursor) / 2
       ({ nr_blocks := t.nr_blocks
          nodes := ((t.nodes.set lc (.leaf e h)).set rc
              (.leaf t.extents.length 0)).set i
              (.internal h (ext.end_ - ext.cursor) mid lc rc)
          free_nodes := rest
          root := t.root
          extents := (t.extents.set e { ext with end_ := mid }) ++
            [Extent.mk mid ext.end_ mid] }, true)) := by
  have hlen : ¬ t.free_nodes.length < 2 := by rw [hfree]; simp
  simp only [Tree.split_leaf, hlen, if_false, hnode, hfree]
  simp only [Tree.setExtent, Tree.write_node, List.length_set]
  rw [if_neg (show ¬ ((t.readExtent e).end_ - (t.readExtent e).cursor ≤ 16) from by omega),
    if_neg (show ¬ ((lc :: rc :: rest).length < 2) from by simp)]

/-! ### Claim C4 -/

/-- Claim C4: `split_leaf` on a leaf succeeds iff at least two node slots
are free and the leaf's free capacity is strictly greater than 16; on
success (with `mid = cursor + (end - cursor) / 2`) the original slot
becomes an internal node with `cut = mid`, the original holders and
`nr_free_blocks = end - cursor`, the left child is a leaf over the original
extent object narrowed in place to `mid` keeping the original holders, and
the right child is a leaf over a brand-new extent
`{begin := mid, end := original end, cursor := mid}` with no holders; on
failure the tree is unchanged. -/
theorem split_leaf_spec (t : Tree) (i e h : Nat)
    (hnode : t.read_node i = .leaf e h) :
    ((t.split_leaf i).2 = true ↔
        2 ≤ t.free_nodes.length ∧
          16 < (t.readExtent e).end_ - (t.readExtent e).cursor)
    ∧ ((t.split_leaf i).2 = false → (t.split_leaf i).1 = t)
    ∧ (∀ lc rc : Nat, ∀ rest : List Nat, t.free_nodes = lc :: rc :: rest →
        16 < (t.readExtent e).end_ - (t.readExtent e).cursor →
        e < t.extents.length → lc ≠ rc → lc ≠ i → rc ≠ i →
        ((t.split_leaf i).2 = true
          ∧ (t.split_leaf i).1.read_node i =
              .internal h ((t.readExtent e).end_ - (t.readExtent e).cursor)
                ((t.readExtent e).cursor +
                  ((t.readExtent e).end_ - (t.readExtent e).cursor) / 2) lc rc
          ∧ ((lc < t.nodes.length → (t.split_leaf i).1.read_node lc = .leaf e h)
          ∧ (t.split_leaf i).1.readExtent e =
              { t.readExtent e with
                end_ := (t.readExtent e).cursor +
                  ((t.readExtent e).end_ - (t.readExtent e).cursor) / 2 }
          ∧ (rc < t.nodes.length →
              (t.split_leaf i).1.read_node rc = .leaf t.extents.length 0)
          ∧ (t.split_leaf i).1.readExtent t.extents.length =
              ⟨(t.readExtent e).cursor +
                  ((t.readExtent e).end_ - (t.readExtent e).cursor) / 2,
                (t.readExtent e).end_,
                (t.readExtent e).cursor +
                  ((t.readExtent e).end_ - (t.readExtent e).cursor) / 2⟩
          ∧ (t.split_leaf i).1.free_nodes = rest))) := by
  have hi : i < t.nodes.length := read_node_leaf_lt t i e h hnode
  refine ⟨?_, ?_, ?_⟩
  · constructor
    · intro htrue
      by_cases hlen : t.free_nodes.length < 2
      · rw [split_leaf_of_nospace t i hlen] at htrue; simp at htrue
      · by_cases hsmall : (t.readExtent e).end_ - (t.readExtent e).cursor ≤ 16
        · rw [split_leaf_of_small t i e h hnode hsmall] at htrue; simp at htrue
        · exact ⟨by omega, by omega⟩
    · rintro ⟨hlen, hbig⟩
      obtain ⟨lc, rc, rest, hfree⟩ : ∃ lc rc rest, t.free_nodes = lc :: rc :: rest := by
        match hf : t.free_nodes with
        | [] => rw [hf] at hlen; simp at hlen
        | [a] => rw [hf] at hlen; simp at hlen
        | a :: b :: l => exact ⟨a, b, l, rfl⟩
      rw [split_leaf_result t i e h lc rc rest hnode hfree hbig]
  · intro hfalse
    by_cases hlen : t.free_nodes.length < 2
    · rw [split_leaf_of_nospace t i hlen]
    · by_cases hsmall : (t.readExtent e).end_ - (t.readExtent e).cursor ≤ 16
      · rw [split_leaf_of_small t i e h hnode hsmall]
      · obtain ⟨lc, rc, rest, hfree⟩ : ∃ lc rc rest, t.free_nodes = lc :: rc :: rest := by
          match hf : t.free_nodes with
          | [] => rw [hf] at hlen; simp at hlen
          | [a] => rw [hf] at hlen; simp at hlen
          | a :: b :: l => exact ⟨a, b, l, rfl⟩
        rw [split_leaf_result t i e h lc rc rest hnode hfree (by omega)] at hfalse
        simp at hfalse
  · intro lc rc rest hfree hbig he hlcrc hlci hrci
    rw [split_leaf_result t i e h lc rc rest hnode hfree hbig]
    refine ⟨rfl, ?_, ?_, ?_, ?_, ?_, rfl⟩
    · show Tree.read_node _ i = _
      simp [Tree.read_node, List.getD_eq_getElem?_getD,
        List.getElem?_set_self', List.getElem?_eq_getElem
          (by simp [List.length_set]; exact hi : i < (((t.nodes.set lc _).set rc _).length))]
    · intro hlc
      show Tree.read_node _ lc = _
      simp only [Tree.read_node, List.getD_eq_getElem?_getD]
      rw [List.getElem?_set_ne (Ne.symm hlci), List.getElem?_set_ne (Ne.symm hlcrc)]
      simp [List.getElem?_set_self', List.getElem?_eq_getElem hlc]
    · show Tree.readExtent _ e = _
      simp only [Tree.readExtent, List.getD_eq_getElem?_getD]
      rw [List.getElem?_append_left (by simp [List.length_set]; exact he)]
      simp [List.getElem?_set_self', List.getElem?_eq_getElem he]
    · intro hrc
      show Tree.read_node _ rc = _
      simp only [Tree.read_node, List.getD_eq_getElem?_getD]
      rw [List.getElem?_set_ne (Ne.symm hrci),
        List.getElem?_set_eq_of_lt _ (by simpa using hrc)]
      rfl
    · show Tree.readExtent _ t.extents.length = _
      simp only [Tree.readExtent, List.getD_eq_getElem?_getD]
      rw [List.getElem?_append_right (by simp [List.length_set])]
      simp [List.length_set]

/-- Claim C4 witness: the characterization applied to the concrete tree
after the first borrow of the S3 scenario (a 1024-block leaf with two free
node slots). -/
theorem split_leaf_spec_witness :
    (S3_tree1.split_leaf 2).2 = true ∧ (S3_tree1.split_leaf 2).1.free_nodes = [] :=
  ⟨((split_leaf_spec S3_tree1 2 0 1 (by decide)).1).mpr (by decide),
    ((split_leaf_spec S3_tree1 2 0 1 (by decide)).2.2 1 0 [] (by decide)
      (by decide) (by decide) (by decide) (by decide) (by decide)).2.2.2.2.2.2⟩

end ExtentAlloc

namespace ExtentAlloc

/-! ### Claim C5 (spec seed scenario S3) -/

/-- Claim C5 counterexample: in the S3 scenario the next borrow after
releasing the drained left child does *not* return the extent `(512, 768)`;
the extent object it hands out has `begin = 768`.  (It is the previously
shared extent `(512, 1024)` that gets narrowed to `(512, 768)` by the
split.)  This matches the repo's own `reuse_node` test. -/
theorem S3_borrow_not_512_768 :
    S3_released.free_nodes.length = 2 ∧ S3_extent.begin = 768 ∧
      ¬ (S3_extent.begin = 512 ∧ S3_extent.end_ = 768) := by
  decide

/-- Claim C5 (amended): after two borrows, draining and releasing the left
child of the S3 tree, two node slots are free and the next borrow succeeds
with an extent inside the remaining right subtree `[512, 1024)` — namely
the fresh extent `(768, 1024)` created by another split, while the
previously shared extent is narrowed in place to `(512, 768)`. -/
theorem S3_node_reuse :
    S3_released.free_nodes.length = 2 ∧
      (S3_next.2).isSome ∧
      S3_extent = ⟨768, 1024, 768⟩ ∧
      512 ≤ S3_extent.begin ∧ S3_extent.end_ ≤ 1024 ∧
      S3_next.1.readExtent 1 = ⟨512, 768, 512⟩ := by
  decide

/-! ### Claim C1 (release of a drained leaf) -/

/-- Claim C1: evaluation of `Tree::release` at the failing input.  The
single leaf is shared (`holders = 2`) and drained (`cursor = end`); the
claim (and the spec's section 4.2.3) says such a leaf must *not* be freed
because another holder remains, but the code frees it: the root becomes
`NULL_NODE` and all three node slots are back on the free list, while the
second holder still references the extent. -/
theorem release_frees_shared_drained_leaf :
    ((ShL_tree1.borrow).2 = some 0) ∧
      (ShL_drained.read_node ShL_drained.root).nr_holders = 2 ∧
      (ShL_drained.readExtent 0).cursor = (ShL_drained.readExtent 0).end_ ∧
      (ShL_drained.release 0).root = NULL_NODE ∧
      (ShL_drained.release 0).free_nodes.length = 3 := by
  decide

end ExtentAlloc

namespace ExtentAlloc

/-! ### One-step unfolding of `borrow_` -/

theorem borrow_step_null (fuel : Nat) (t : Tree) :
    Tree.borrow_ (fuel + 1) t NULL_NODE = (t, none) := by
  simp [Tree.borrow_]

theorem borrow_step_internal (fuel : Nat) (t : Tree) (i h f cut l r : Nat)
    (hi : i ≠ NULL_NODE) (hnode : t.read_node i = .internal h f cut l r)
    (hl : l ≠ NULL_NODE) (hr : r ≠ NULL_NODE) :
    Tree.borrow_ (fuel + 1) t i =
      (let res := Tree.borrow_ fuel t (t.select_child l r)
       if res.2.isSome then
         (res.1.write_node i (.internal (h + 1) f cut l r), res.2)
       else res) := by
  conv_lhs => rw [Tree.borrow_]
  rw [if_neg hi]
  simp only [hnode]
  rw [if_neg (show ¬ (l = NULL_NODE ∧ r = NULL_NODE) from fun hc => hl hc.1),
    if_neg hl, if_neg hr]

theorem borrow_step_internal_left (fuel : Nat) (t : Tree) (i h f cut l : Nat)
    (hi : i ≠ NULL_NODE) (hnode : t.read_node i = .internal h f cut l NULL_NODE)
    (hl : l ≠ NULL_NODE) :
    Tree.borrow_ (fuel + 1) t i =
      (let res := Tree.borrow_ fuel t l
       if res.2.isSome then
         (res.1.write_node i (.internal (h + 1) f cut l NULL_NODE), res.2)
       else res) := by
  conv_lhs => rw [Tree.borrow_]
  rw [if_neg hi]
  simp only [hnode, and_true, true_and, if_neg hl, if_true]

theorem borrow_step_internal_right (fuel : Nat) (t : Tree) (i h f cut r : Nat)
    (hi : i ≠ NULL_NODE) (hnode : t.read_node i = .internal h f cut NULL_NODE r)
    (hr : r ≠ NULL_NODE) :
    Tree.borrow_ (fuel + 1) t i =
      (let res := Tree.borrow_ fuel t r
       if res.2.isSome then
         (res.1.write_node i (.internal (h + 1) f cut NULL_NODE r), res.2)
       else res) := by
  conv_lhs => rw [Tree.borrow_]
  rw [if_neg hi]
  simp only [hnode, and_true, true_and, if_neg hr, if_true]

theorem borrow_step_leaf_zero (fuel : Nat) (t : Tree) (i e : Nat)
    (hi : i ≠ NULL_NODE) (hnode : t.read_node i = .leaf e 0) :
    Tree.borrow_ (fuel + 1) t i = (t.write_node i (.leaf e 1), some e) := by
  conv_lhs => rw [Tree.borrow_]
  rw [if_neg hi, hnode]
  simp

theorem borrow_step_leaf_pos (fuel : Nat) (t : Tree) (i e h : Nat)
    (hi : i ≠ NULL_NODE) (hnode : t.read_node i = .leaf e (h + 1)) :
    Tree.borrow_ (fuel + 1) t i =
      (if (t.split_leaf i).2 = true then Tree.borrow_ fuel (t.split_leaf i).1 i
       else (t.write_node i (.leaf e (h + 2)), some e)) := by
  conv_lhs => rw [Tree.borrow_]
  rw [if_neg hi]
  simp only [hnode, gt_iff_lt, Nat.zero_lt_succ, if_true]

theorem select_child_eq (t : Tree) (l r : Nat) :
    t.select_child l r = if t.score r ≤ t.score l then l else r := rfl

/-! ### Claim C3 -/

/-- Claim C3: at an internal node with two non-null children `borrow_`
recurses into the child maximizing `score = nr_free_blocks / (holders + 1)`
(ties to the left) and increments the node's holders exactly when the
recursion returns `Some`; at a leaf with no holders it increments the
holders and returns the extent; at a leaf with holders it attempts a split,
re-executing `borrow_` at the same node when the split succeeds and
otherwise sharing (increment holders, return the same extent). -/
theorem borrow_policy :
    (∀ (t : Tree) (l r : Nat),
        (t.select_child l r = l ∨ t.select_child l r = r)
        ∧ t.score (t.select_child l r) = max (t.score l) (t.score r)
        ∧ (t.score r ≤ t.score l → t.select_child l r = l)
        ∧ (t.score l < t.score r → t.select_child l r = r))
    ∧ (∀ (fuel : Nat) (t : Tree) (i h f cut l r : Nat), i ≠ NULL_NODE →
        t.read_node i = .internal h f cut l r → l ≠ NULL_NODE → r ≠ NULL_NODE →
        Tree.borrow_ (fuel + 1) t i =
          (let res := Tree.borrow_ fuel t (t.select_child l r)
           if res.2.isSome then
             (res.1.write_node i (.internal (h + 1) f cut l r), res.2)
           else res))
    ∧ (∀ (fuel : Nat) (t : Tree) (i e : Nat), i ≠ NULL_NODE →
        t.read_node i = .leaf e 0 →
        Tree.borrow_ (fuel + 1) t i = (t.write_node i (.leaf e 1), some e))
    ∧ (∀ (fuel : Nat) (t : Tree) (i e h : Nat), i ≠ NULL_NODE →
        t.read_node i = .leaf e (h + 1) →
        Tree.borrow_ (fuel + 1) t i =
          (if (t.split_leaf i).2 = true then Tree.borrow_ fuel (t.split_leaf i).1 i
           else (t.write_node i (.leaf e (h + 2)), some e))) := by
  refine ⟨?_, borrow_step_internal, borrow_step_leaf_zero, borrow_step_leaf_pos⟩
  intro t l r
  rw [select_child_eq]
  by_cases hs : t.score r ≤ t.score l
  · rw [if_pos hs]
    exact ⟨Or.inl rfl, (Nat.max_eq_left hs).symm, fun _ => rfl,
      fun hlt => absurd hs (by omega)⟩
  · rw [if_neg hs]
    exact ⟨Or.inr rfl, (Nat.max_eq_right (by omega)).symm, fun hle => absurd hle hs,
      fun _ => rfl⟩

/-- Claim C3 witness: the leaf-with-no-holders case applied to the fresh S3
tree, and the internal case applied to the split S3 tree. -/
theorem borrow_policy_witness :
    Tree.borrow_ 10 S3_tree0 2 = (S3_tree0.write_node 2 (.leaf 0 1), some 0) ∧
      S3_tree2.select_child 1 0 = 1 :=
  ⟨borrow_policy.2.2.1 9 S3_tree0 2 0 (by decide) (by decide),
   (borrow_policy.1 S3_tree2 1 0).2.2.1 (by decide)⟩

end ExtentAlloc

namespace ExtentAlloc

/-! ### Borrow succeeds on every well-formed non-empty tree -/

theorem good_ne_null {t : Tree} {free : List Nat} {i d : Nat}
    (h : Good t free i d) : i ≠ NULL_NODE := by
  cases h <;> assumption

theorem select_child_or (t : Tree) (l r : Nat) :
    t.select_child l r = l ∨ t.select_child l r = r := by
  rw [select_child_eq]
  split
  · exact Or.inl rfl
  · exact Or.inr rfl

theorem split_leaf_true_shape (t : Tree) (i e h : Nat)
    (hnode : t.read_node i = .leaf e h)
    (htrue : (t.split_leaf i).2 = true) :
    ∃ lc rc rest, t.free_nodes = lc :: rc :: rest ∧
      16 < (t.readExtent e).end_ - (t.readExtent e).cursor := by
  by_cases hlen : t.free_nodes.length < 2
  · rw [split_leaf_of_nospace t i hlen] at htrue; simp at htrue
  · by_cases hsmall : (t.readExtent e).end_ - (t.readExtent e).cursor ≤ 16
    · rw [split_leaf_of_small t i e h hnode hsmall] at htrue; simp at htrue
    · match hf : t.free_nodes with
      | [] => rw [hf] at hlen; simp at hlen
      | [a] => rw [hf] at hlen; simp at hlen
      | a :: b :: l => exact ⟨a, b, l, rfl, by omega⟩

theorem length_le_of_nodup_lt (l : List Nat) (n : Nat) (hnd : l.Nodup)
    (hlt : ∀ x ∈ l, x < n) : l.length ≤ n := by
  classical
  have h1 : l.toFinset.card = l.length := List.toFinset_card_of_nodup hnd
  have h2 : l.toFinset ⊆ Finset.range n := fun x hx =>
    Finset.mem_range.mpr (hlt x (List.mem_toFinset.mp hx))
  have h3 := Finset.card_le_card h2
  rwa [h1, Finset.card_range] at h3

theorem borrow_isSome_of_good :
    ∀ (fuel : Nat) (t : Tree) (i d : Nat),
      t.nodes.length ≤ 255 → t.free_nodes.Nodup →
      (∀ j ∈ t.free_nodes, j < t.nodes.length) →
      Good t t.free_nodes i d →
      2 * t.free_nodes.length + d < fuel →
      ((Tree.borrow_ fuel t i).2).isSome = true := by
  intro fuel
  induction fuel with
  | zero => intro t i d _ _ _ _ hf; omega
  | succ fuel ih =>
    intro t i d h255 hnodup hbound hgood hf
    have h255' : NULL_NODE = 255 := rfl
    cases hgood with
    | leaf i0 e h d0 hj hjlen hjfree hnode =>
      match h with
      | 0 =>
        rw [borrow_step_leaf_zero fuel t i e hj hnode]
        rfl
      | h + 1 =>
        rw [borrow_step_leaf_pos fuel t i e h hj hnode]
        by_cases hsp : (t.split_leaf i).2 = true
        · rw [if_pos hsp]
          obtain ⟨lc, rc, rest, hfree, hbig⟩ :=
            split_leaf_true_shape t i e (h + 1) hnode hsp
          have hlcmem : lc ∈ t.free_nodes := by rw [hfree]; exact List.mem_cons_self _ _
          have hrcmem : rc ∈ t.free_nodes := by
            rw [hfree]; exact List.mem_cons_of_mem _ (List.mem_cons_self _ _)
          have hlclen : lc < t.nodes.length := hbound lc hlcmem
          have hrclen : rc < t.nodes.length := hbound rc hrcmem
          have hlci : lc ≠ i := fun hh => hjfree (hh ▸ hlcmem)
          have hrci : rc ≠ i := fun hh => hjfree (hh ▸ hrcmem)
          have hnd := hnodup
          rw [hfree] at hnd
          have hlcrc : lc ≠ rc := by
            intro hh
            exact (List.nodup_cons.mp hnd).1 (hh ▸ List.mem_cons_self _ _)
          have hlcrest : lc ∉ rest := fun hh =>
            (List.nodup_cons.mp hnd).1 (List.mem_cons_of_mem _ hh)
          have hrcrest : rc ∉ rest := fun hh =>
            (List.nodup_cons.mp (List.nodup_cons.mp hnd).2).1 hh
          have hirest : i ∉ rest := fun hh => by
            apply hjfree
            rw [hfree]
            exact List.mem_cons_of_mem _ (List.mem_cons_of_mem _ hh)
          rw [split_leaf_result t i e (h + 1) lc rc rest hnode hfree hbig]
          apply ih _ i 1
          · simp [h255]
          · exact (List.nodup_cons.mp (List.nodup_cons.mp hnd).2).2
          · intro j hjmem
            simp only [List.length_set]
            exact hbound j (by rw [hfree]; exact
              List.mem_cons_of_mem _ (List.mem_cons_of_mem _ hjmem))
          · apply Good.internalBoth i (h + 1)
              ((t.readExtent e).end_ - (t.readExtent e).cursor)
              ((t.readExtent e).cursor + ((t.readExtent e).end_ - (t.readExtent e).cursor) / 2)
              lc rc 0 hj (by simp [List.length_set]; exact hjlen) hirest
            · show Tree.read_node _ i = _
              simp only [Tree.read_node, List.getD_eq_getElem?_getD]
              rw [List.getElem?_set_eq_of_lt _ (by simp [List.length_set]; exact hjlen)]
              rfl
            · omega
            · omega
            · apply Good.leaf lc e (h + 1) 0 (by omega)
                (by simp [List.length_set]; exact hlclen) hlcrest
              show Tree.read_node _ lc = _
              simp only [Tree.read_node, List.getD_eq_getElem?_getD]
              rw [List.getElem?_set_ne (Ne.symm hlci), List.getElem?_set_ne (Ne.symm hlcrc),
                List.getElem?_set_eq_of_lt _ hlclen]
              rfl
            · apply Good.leaf rc t.extents.length 0 0 (by omega)
                (by simp [List.length_set]; exact hrclen) hrcrest
              show Tree.read_node _ rc = _
              simp only [Tree.read_node, List.getD_eq_getElem?_getD]
              rw [List.getElem?_set_ne (Ne.symm hrci),
                List.getElem?_set_eq_of_lt _ (by simp [List.length_set]; exact hrclen)]
              rfl
          · show 2 * rest.length + 1 < fuel
            rw [hfree] at hf
            simp only [List.length_cons] at hf
            omega
        · rw [if_neg hsp]
          rfl
    | internalLeft i0 h f cut l d0 hj hjlen hjfree hnode hgl =>
      rw [borrow_step_internal_left fuel t i h f cut l hj hnode (good_ne_null hgl)]
      have hsome := ih t l d0 h255 hnodup hbound hgl (by omega)
      simp only [hsome, if_true]
    | internalRight i0 h f cut r d0 hj hjlen hjfree hnode hgr =>
      rw [borrow_step_internal_right fuel t i h f cut r hj hnode (good_ne_null hgr)]
      have hsome := ih t r d0 h255 hnodup hbound hgr (by omega)
      simp only [hsome, if_true]
    | internalBoth i0 h f cut l r d0 hj hjlen hjfree hnode hl hr hgl hgr =>
      rw [borrow_step_internal fuel t i h f cut l r hj hnode hl hr]
      have hgsel : Good t t.free_nodes (t.select_child l r) d0 := by
        rcases select_child_or t l r with hh | hh
        · rw [hh]; exact hgl
        · rw [hh]; exact hgr
      have hsome := ih t (t.select_child l r) d0 h255 hnodup hbound hgsel (by omega)
      simp only [hsome, if_true]

/-! ### Claim C10 -/

/-- Claim C10: `borrow` returns `none` iff the root is the `NULL_NODE`
sentinel; on a well-formed tree with a live root it returns some extent —
and it never inspects a leaf's remaining capacity first: a leaf root whose
extent has `cursor = end` (zero free capacity) is still handed out. -/
theorem borrow_none_iff_null_root (t : Tree)
    (hg : t.root ≠ NULL_NODE → GoodTree t) :
    ((t.borrow).2 = none ↔ t.root = NULL_NODE)
    ∧ (∀ e h : Nat, t.root ≠ NULL_NODE → t.read_node t.root = .leaf e h →
        (t.readExtent e).cursor = (t.readExtent e).end_ →
        (t.borrow).2 = some e) := by
  constructor
  · constructor
    · intro hnone
      by_contra hroot
      obtain ⟨h255, hnodup, hbound, d, hd, hgood⟩ := hg hroot
      have hlen : t.free_nodes.length ≤ t.nodes.length :=
        length_le_of_nodup_lt _ _ hnodup hbound
      have hsome := borrow_isSome_of_good (3 * t.nodes.length + 1) t t.root d
        h255 hnodup hbound hgood (by omega)
      have hthis : (t.borrow).2.isSome = true := hsome
      rw [hnone] at hthis
      simp at hthis
    · intro hroot
      show (Tree.borrow_ (3 * t.nodes.length + 1) t t.root).2 = none
      rw [hroot, borrow_step_null]
  · intro e h hroot hnode hfull
    show (Tree.borrow_ (3 * t.nodes.length + 1) t t.root).2 = some e
    match h with
    | 0 => rw [borrow_step_leaf_zero _ t t.root e hroot hnode]
    | h + 1 =>
      rw [borrow_step_leaf_pos _ t t.root e h hroot hnode]
      rw [split_leaf_of_small t t.root e (h + 1) hnode (by omega)]
      simp

/-- Claim C10 witness: a drained shared leaf root is still handed out
(zero-capacity extent), and borrow on the fresh S3 tree is not `none`. -/
theorem borrow_none_iff_null_root_witness :
    (ShL_drained.borrow).2 = some 0 ∧ ¬ ((S3_tree0.borrow).2 = none) :=
  ⟨(borrow_none_iff_null_root ShL_drained
      (fun _ => ⟨by decide, by decide, by decide,
        ⟨0, by decide, Good.leaf 2 0 2 0 (by decide) (by decide) (by decide) (by decide)⟩⟩)).2
      0 2 (by decide) (by decide) (by decide),
   fun hnone => absurd ((borrow_none_iff_null_root S3_tree0
      (fun _ => ⟨by decide, by decide, by decide,
        ⟨0, by decide, Good.leaf 2 0 0 0 (by decide) (by decide) (by decide) (by decide)⟩⟩)).1.mp
      hnone) (by decide)⟩

end ExtentAlloc

namespace ExtentAlloc

/-! ### One-step unfolding of `ensure_extent` and `alloc` -/

theorem ensure_extent_of_some (s : Allocator) (c e : Nat)
    (h : (s.readCtx c).extent = some e) : s.ensure_extent c = (s, some e) := by
  simp only [Allocator.ensure_extent, h]

theorem ensure_extent_of_nospace (s : Allocator) (c : Nat)
    (h : (s.readCtx c).extent = none) (hb : (s.extents.borrow).2 = none) :
    s.ensure_extent c = ({ s with extents := (s.extents.borrow).1 }, none) := by
  simp only [Allocator.ensure_extent, h, hb]

theorem alloc_step_nospace {ε : Type} (oracle : Nat → Nat → Except ε (Option Nat))
    (fuel : Nat) (s s1 : Allocator) (c : Nat)
    (h : s.ensure_extent c = (s1, none)) :
    Allocator.alloc oracle (fuel + 1) s c = (s1, Except.ok none) := by
  conv_lhs => rw [Allocator.alloc]
  simp only [h]

theorem alloc_step_err {ε : Type} (oracle : Nat → Nat → Except ε (Option Nat))
    (fuel : Nat) (s s1 : Allocator) (c e : Nat) (err : ε)
    (h1 : s.ensure_extent c = (s1, some e))
    (h2 : oracle (s1.extents.readExtent e).cursor (s1.extents.readExtent e).end_ =
      Except.error err) :
    Allocator.alloc oracle (fuel + 1) s c = (s1, Except.error err) := by
  conv_lhs => rw [Allocator.alloc]
  simp only [h1, h2]

theorem alloc_step_some {ε : Type} (oracle : Nat → Nat → Except ε (Option Nat))
    (fuel : Nat) (s s1 : Allocator) (c e b : Nat)
    (h1 : s.ensure_extent c = (s1, some e))
    (h2 : oracle (s1.extents.readExtent e).cursor (s1.extents.readExtent e).end_ =
      Except.ok (some b)) :
    Allocator.alloc oracle (fuel + 1) s c =
      (if b + 1 = (s1.extents.readExtent e).end_ then
        (({ s1 with extents := (s1.extents.setExtent e
            (Extent.mk (s1.extents.readExtent e).begin
              (s1.extents.readExtent e).end_ (b + 1))) }).reset_and_release c,
          Except.ok (some b))
      else
        ({ s1 with extents := (s1.extents.setExtent e
            (Extent.mk (s1.extents.readExtent e).begin
              (s1.extents.readExtent e).end_ (b + 1))) }, Except.ok (some b))) := by
  conv_lhs => rw [Allocator.alloc]
  simp only [h1, h2]

theorem alloc_step_none {ε : Type} (oracle : Nat → Nat → Except ε (Option Nat))
    (fuel : Nat) (s s1 : Allocator) (c e : Nat)
    (h1 : s.ensure_extent c = (s1, some e))
    (h2 : oracle (s1.extents.readExtent e).cursor (s1.extents.readExtent e).end_ =
      Except.ok none) :
    Allocator.alloc oracle (fuel + 1) s c =
      Allocator.alloc oracle fuel
        (({ s1 with extents := (s1.extents.setExtent e
          (Extent.mk (s1.extents.readExtent e).begin
            (s1.extents.readExtent e).end_ (s1.extents.readExtent e).end_)) }
          ).reset_and_release c) c := by
  conv_lhs => rw [Allocator.alloc]
  simp only [h1, h2]

/-! ### Claim C8 -/

/-- Claim C8: when the context holds no extent and the tree's borrow
returns none, `alloc` returns `Ok(None)` — a value distinct at the type
level from every `Err` result; out of space is never signalled as an
error. -/
theorem alloc_out_of_space {ε : Type} (oracle : Nat → Nat → Except ε (Option Nat))
    (fuel : Nat) (s : Allocator) (c : Nat)
    (hc : (s.readCtx c).extent = none)
    (hb : (s.extents.borrow).2 = none) :
    (Allocator.alloc oracle (fuel + 1) s c).2 = Except.ok none
    ∧ (∀ err : ε, (Except.ok none : Except ε (Option Nat)) ≠ Except.error err) := by
  constructor
  · rw [alloc_step_nospace oracle fuel s _ c (ensure_extent_of_nospace s c hc hb)]
  · intro err h
    exact Except.noConfusion h

/-- Claim C8 witness: the drained 4-block allocator (`root = NULL_NODE`)
answers `Ok(None)`. -/
theorem alloc_out_of_space_witness :
    (Allocator.alloc WOracle 1 WA4 0).2 = Except.ok none :=
  (alloc_out_of_space WOracle 0 WA4 0 (by decide) (by decide)).1

/-! ### Claim C7 -/

/-- Claim C7: when the oracle consulted by `alloc` fails with `Err(e)`,
`alloc` returns exactly that error together with exactly the state the
allocator had at the moment of the oracle call: nothing is modified
afterwards, and when the context already held its extent the returned
state is the untouched pre-call state (extent retained, cursor unchanged,
tree and holders map untouched). -/
theorem alloc_oracle_error {ε : Type} (oracle : Nat → Nat → Except ε (Option Nat))
    (fuel : Nat) (s s1 : Allocator) (c e : Nat) (err : ε)
    (h1 : s.ensure_extent c = (s1, some e))
    (h2 : oracle (s1.extents.readExtent e).cursor (s1.extents.readExtent e).end_ =
      Except.error err) :
    Allocator.alloc oracle (fuel + 1) s c = (s1, Except.error err)
    ∧ ((s.readCtx c).extent = some e → s1 = s) := by
  refine ⟨alloc_step_err oracle fuel s s1 c e err h1 h2, ?_⟩
  intro hsome
  have h3 := (ensure_extent_of_some s c e hsome).symm.trans h1
  exact (congrArg Prod.fst h3).symm

/-- Claim C7 witness: a failing oracle on the 4-block allocator whose
context holds extent 0 returns `Err(42)` and the untouched state. -/
theorem alloc_oracle_error_witness :
    Allocator.alloc WOrErr 1 WA1 0 = (WA1, Except.error 42) ∧ WA1 = WA1 :=
  ⟨(alloc_oracle_error WOrErr 0 WA1 WA1 0 0 42
      (ensure_extent_of_some WA1 0 0 (by decide)) rfl).1,
   (alloc_oracle_error WOrErr 0 WA1 WA1 0 0 42
      (ensure_extent_of_some WA1 0 0 (by decide)) rfl).2 (by decide)⟩

end ExtentAlloc

namespace ExtentAlloc

/-! ### State-component preservation lemmas -/

theorem readCtx_set_holders (s : Allocator) (m : List (Nat × Nat)) (j : Nat) :
    ({ s with holders := m } : Allocator).readCtx j = s.readCtx j := rfl

theorem readCtx_set_tree (s : Allocator) (t : Tree) (j : Nat) :
    ({ s with extents := t } : Allocator).readCtx j = s.readCtx j := rfl

theorem collapse_extents (t1 : Tree) (i h cut l' r' : Nat) :
    (t1.collapse i h cut l' r').1.extents = t1.extents := by
  unfold Tree.collapse
  split
  · rfl
  split
  · rfl
  split
  · rfl
  · rfl

theorem release_extents_eq :
    ∀ (fuel : Nat) (t : Tree) (blk b e i : Nat),
      (Tree.release_ fuel t blk b e i).1.extents = t.extents := by
  intro fuel
  induction fuel with
  | zero => intros; rfl
  | succ fuel ih =>
    intro t blk b e i
    rw [Tree.release_]
    split
    · rfl
    split
    · split
      · rw [collapse_extents]
        exact ih t blk b _ _
      · rw [collapse_extents]
        exact ih t blk _ e _
    · dsimp only
      split
      · rfl
      · rfl

theorem release_pool_eq (t : Tree) (x : Nat) :
    (t.release x).extents = t.extents := by
  unfold Tree.release
  exact release_extents_eq _ t _ 0 t.nr_blocks t.root

theorem writeCtx_ctxs_length (s : Allocator) (i : Nat) (c : AllocContext) :
    (s.writeCtx i c).ctxs.length = s.ctxs.length := by
  simp [Allocator.writeCtx]

theorem readCtx_writeCtx (s : Allocator) (i j : Nat) (c : AllocContext) :
    (s.writeCtx i c).readCtx j =
      if j = i ∧ i < s.ctxs.length then c else s.readCtx j := by
  by_cases hji : j = i
  · subst hji
    by_cases hlt : j < s.ctxs.length
    · simp only [hlt, and_true, if_pos rfl]
      simp [Allocator.writeCtx, Allocator.readCtx, List.getD_eq_getElem?_getD,
        List.getElem?_set_eq_of_lt _ hlt]
    · simp only [hlt, and_false, if_false]
      rw [Allocator.writeCtx]
      have hset : s.ctxs.set j c = s.ctxs := List.set_eq_of_length_le (by omega)
      rw [hset]
  · simp only [hji, false_and, if_false]
    simp [Allocator.writeCtx, Allocator.readCtx, List.getD_eq_getElem?_getD,
      List.getElem?_set_ne (Ne.symm hji)]

theorem readCtx_writeCtx_clear (s : Allocator) (i j : Nat) :
    (s.writeCtx i AllocContext.new).readCtx j =
      if j = i then AllocContext.new else s.readCtx j := by
  rw [readCtx_writeCtx]
  by_cases hji : j = i
  · subst hji
    by_cases hlt : j < s.ctxs.length
    · simp [hlt]
    · simp only [hlt, and_false, if_false, if_pos rfl]
      rw [Allocator.readCtx, List.getD_eq_getElem?_getD, List.getElem?_eq_none (by omega)]
      rfl
  · simp [hji]

theorem writeCtx_link_extent (s : Allocator) (c j : Nat) (x : AllocContext)
    (hx : x.extent = (s.readCtx c).extent) :
    ((s.writeCtx c x).readCtx j).extent = (s.readCtx j).extent := by
  rw [readCtx_writeCtx]
  by_cases hz : j = c ∧ c < s.ctxs.length
  · rw [if_pos hz, hx, hz.1]
  · rw [if_neg hz]

theorem resetChain_extents :
    ∀ (fuel : Nat) (s : Allocator) (i : Nat),
      (resetChain s fuel i).extents = s.extents := by
  intro fuel
  induction fuel with
  | zero => intros; rfl
  | succ fuel ih =>
    intro s i
    rw [resetChain]
    cases hnx : (s.readCtx i).next with
    | none => simp only [hnx]; rfl
    | some nx =>
      simp only [hnx]
      rw [ih]
      rfl

theorem resetChain_holders :
    ∀ (fuel : Nat) (s : Allocator) (i : Nat),
      (resetChain s fuel i).holders = s.holders := by
  intro fuel
  induction fuel with
  | zero => intros; rfl
  | succ fuel ih =>
    intro s i
    rw [resetChain]
    cases hnx : (s.readCtx i).next with
    | none => simp only [hnx]; rfl
    | some nx =>
      simp only [hnx]
      rw [ih]
      rfl

theorem resetChain_ctxs_length :
    ∀ (fuel : Nat) (s : Allocator) (i : Nat),
      (resetChain s fuel i).ctxs.length = s.ctxs.length := by
  intro fuel
  induction fuel with
  | zero => intros; rfl
  | succ fuel ih =>
    intro s i
    rw [resetChain]
    cases hnx : (s.readCtx i).next with
    | none => simp only [hnx]; exact writeCtx_ctxs_length s i _
    | some nx =>
      simp only [hnx]
      rw [ih, writeCtx_ctxs_length]

theorem resetChain_readCtx_cases :
    ∀ (fuel : Nat) (s : Allocator) (i j : Nat),
      (resetChain s fuel i).readCtx j = s.readCtx j ∨
        (resetChain s fuel i).readCtx j = AllocContext.new := by
  intro fuel
  induction fuel with
  | zero => intro s i j; exact Or.inl rfl
  | succ fuel ih =>
    intro s i j
    rw [resetChain]
    cases hnx : (s.readCtx i).next with
    | none =>
      simp only [hnx]
      rw [readCtx_writeCtx_clear]
      by_cases hji : j = i
      · rw [if_pos hji]; exact Or.inr rfl
      · rw [if_neg hji]; exact Or.inl rfl
    | some nx =>
      simp only [hnx]
      rcases ih (s.writeCtx i AllocContext.new) nx j with h | h
      · rw [h, readCtx_writeCtx_clear]
        by_cases hji : j = i
        · rw [if_pos hji]; exact Or.inr rfl
        · rw [if_neg hji]; exact Or.inl rfl
      · exact Or.inr h

theorem reset_contexts_extents (s : Allocator) (eb : Nat) :
    (s.reset_contexts eb).extents = s.extents := by
  unfold Allocator.reset_contexts
  cases mapFind s.holders eb with
  | none => rfl
  | some h => exact resetChain_extents _ _ h

theorem reset_contexts_ctxs_length (s : Allocator) (eb : Nat) :
    (s.reset_contexts eb).ctxs.length = s.ctxs.length := by
  unfold Allocator.reset_contexts
  cases mapFind s.holders eb with
  | none => rfl
  | some h => exact resetChain_ctxs_length _ _ h

theorem reset_contexts_readCtx_cases (s : Allocator) (eb j : Nat) :
    (s.reset_contexts eb).readCtx j = s.readCtx j ∨
      (s.reset_contexts eb).readCtx j = AllocContext.new := by
  unfold Allocator.reset_contexts
  cases mapFind s.holders eb with
  | none => exact Or.inl rfl
  | some h => exact resetChain_readCtx_cases _ _ h j

theorem reset_and_release_pool (s : Allocator) (c : Nat) :
    (s.reset_and_release c).extents.extents = s.extents.extents := by
  unfold Allocator.reset_and_release
  cases (s.readCtx c).extent with
  | none => rfl
  | some e =>
    show ((s.reset_contexts _).extents.release e).extents = s.extents.extents
    rw [release_pool_eq, reset_contexts_extents]

theorem reset_and_release_ctxs_length (s : Allocator) (c : Nat) :
    (s.reset_and_release c).ctxs.length = s.ctxs.length := by
  unfold Allocator.reset_and_release
  cases (s.readCtx c).extent with
  | none => rfl
  | some e =>
    show (s.reset_contexts _).ctxs.length = s.ctxs.length
    exact reset_contexts_ctxs_length s _

theorem reset_and_release_readCtx_cases (s : Allocator) (c j : Nat) :
    (s.reset_and_release c).readCtx j = s.readCtx j ∨
      (s.reset_and_release c).readCtx j = AllocContext.new := by
  unfold Allocator.reset_and_release
  cases (s.readCtx c).extent with
  | none => exact Or.inl rfl
  | some e =>
    show ((s.reset_contexts _).readCtx j = s.readCtx j ∨ _)
    exact reset_contexts_readCtx_cases _ _ j

theorem add_holder_readCtx_extent (s : Allocator) (eb c j : Nat) :
    ((s.add_holder eb c).readCtx j).extent = (s.readCtx j).extent := by
  unfold Allocator.add_holder
  cases mapFind s.holders eb with
  | none => rfl
  | some h =>
    simp only [readCtx_set_holders]
    have h1 := writeCtx_link_extent (s.writeCtx c { s.readCtx c with next := some h }) h j
      { (s.writeCtx c { s.readCtx c with next := some h }).readCtx h with prev := some c } rfl
    have h2 := writeCtx_link_extent s c j { s.readCtx c with next := some h } rfl
    rw [h1, h2]

theorem add_holder_ctxs_length (s : Allocator) (eb c : Nat) :
    (s.add_holder eb c).ctxs.length = s.ctxs.length := by
  unfold Allocator.add_holder
  cases mapFind s.holders eb with
  | none => rfl
  | some h =>
    show ((s.writeCtx c _).writeCtx h _).ctxs.length = s.ctxs.length
    rw [writeCtx_ctxs_length, writeCtx_ctxs_length]

theorem add_holder_extents (s : Allocator) (eb c : Nat) :
    (s.add_holder eb c).extents = s.extents := by
  unfold Allocator.add_holder
  cases mapFind s.holders eb with
  | none => rfl
  | some h => rfl

end ExtentAlloc

namespace ExtentAlloc

/-! ### Cursor tracking through a successful `alloc` -/

theorem readExtent_congr (t1 t2 : Tree) (e : Nat) (h : t1.extents = t2.extents) :
    t1.readExtent e = t2.readExtent e := by
  simp [Tree.readExtent, h]

theorem ensure_extent_post (s s1 : Allocator) (c e : Nat) (hc : c < s.ctxs.length)
    (h : s.ensure_extent c = (s1, some e)) :
    (s1.readCtx c).extent = some e ∧ s1.ctxs.length = s.ctxs.length := by
  cases hext : (s.readCtx c).extent with
  | some e' =>
    rw [ensure_extent_of_some s c e' hext] at h
    have hs : s1 = s := (congrArg Prod.fst h).symm
    have he2 : (some e' : Option Nat) = some e := congrArg Prod.snd h
    subst hs
    refine ⟨?_, rfl⟩
    rw [hext]
    exact he2
  | none =>
    simp only [Allocator.ensure_extent, hext] at h
    cases hbr : (s.extents.borrow).2 with
    | none =>
      rw [hbr] at h
      exact absurd (congrArg Prod.snd h) (by simp)
    | some e0 =>
      rw [hbr] at h
      have hs : s1 = _ := (congrArg Prod.fst h).symm
      have he2 : (some e0 : Option Nat) = some e := congrArg Prod.snd h
      have he3 : e0 = e := by simpa using he2
      subst he3
      subst hs
      constructor
      · rw [add_holder_readCtx_extent, readCtx_writeCtx]
        rw [if_pos ⟨rfl, show c < ({ s with extents := (s.extents.borrow).1 }
            : Allocator).ctxs.length from hc⟩]
      · rw [add_holder_ctxs_length, writeCtx_ctxs_length]

theorem alloc_success_cursor {ε : Type} (oracle : Nat → Nat → Except ε (Option Nat)) :
    ∀ (fuel : Nat) (s s' : Allocator) (c b : Nat),
      c < s.ctxs.length →
      Allocator.alloc oracle fuel s c = (s', Except.ok (some b)) →
      ∀ e, (s'.readCtx c).extent = some e → e < s'.extents.extents.length →
        (s'.extents.readExtent e).cursor = b + 1 := by
  intro fuel
  induction fuel with
  | zero =>
    intro s s' c b hc halloc e hext hebound
    simp only [Allocator.alloc] at halloc
    exact absurd (congrArg Prod.snd halloc) (by simp)
  | succ fuel ih =>
    intro s s' c b hc halloc e hext hebound
    cases hens0 : Allocator.ensure_extent s c with
    | mk s1 opt =>
      cases opt with
      | none =>
        rw [alloc_step_nospace oracle fuel s s1 c hens0] at halloc
        exact absurd (congrArg Prod.snd halloc) (by simp)
      | some e0 =>
        obtain ⟨hpost, hlen⟩ := ensure_extent_post s s1 c e0 hc hens0
        cases horc : oracle (s1.extents.readExtent e0).cursor
            (s1.extents.readExtent e0).end_ with
        | error err =>
          rw [alloc_step_err oracle fuel s s1 c e0 err hens0 horc] at halloc
          exact absurd (congrArg Prod.snd halloc) (by simp)
        | ok oopt =>
          cases oopt with
          | none =>
            rw [alloc_step_none oracle fuel s s1 c e0 hens0 horc] at halloc
            refine ih _ s' c b ?_ halloc e hext hebound
            rw [reset_and_release_ctxs_length]
            show c < s1.ctxs.length
            omega
          | some b0 =>
            rw [alloc_step_some oracle fuel s s1 c e0 b0 hens0 horc] at halloc
            by_cases hfull : b0 + 1 = (s1.extents.readExtent e0).end_
            · rw [if_pos hfull] at halloc
              have hs' : s' = _ := (congrArg Prod.fst halloc).symm
              have hb : b0 = b := by
                have hsnd := congrArg Prod.snd halloc
                simpa using hsnd
              subst hs'
              rw [← hb]
              rcases reset_and_release_readCtx_cases
                  ({ s1 with extents := (s1.extents.setExtent e0
                    (Extent.mk (s1.extents.readExtent e0).begin
                      (s1.extents.readExtent e0).end_ (b0 + 1))) }) c c with hcase | hcase
              · rw [hcase, readCtx_set_tree, hpost] at hext
                have he0 : e = e0 := by simpa using hext.symm
                subst he0
                have hpool := reset_and_release_pool
                  ({ s1 with extents := (s1.extents.setExtent e
                    (Extent.mk (s1.extents.readExtent e).begin
                      (s1.extents.readExtent e).end_ (b0 + 1))) }) c
                have hb2 : e < s1.extents.extents.length := by
                  rw [hpool] at hebound
                  simpa [Tree.setExtent] using hebound
                have hread := readExtent_congr
                  (({ s1 with extents := (s1.extents.setExtent e
                    (Extent.mk (s1.extents.readExtent e).begin
                      (s1.extents.readExtent e).end_ (b0 + 1))) }
                    : Allocator).reset_and_release c).extents
                  (s1.extents.setExtent e
                    (Extent.mk (s1.extents.readExtent e).begin
                      (s1.extents.readExtent e).end_ (b0 + 1)))
                  e hpool
                rw [hread, readExtent_setExtent_self _ _ _ hb2]
              · rw [hcase] at hext
                exact absurd hext (by simp [AllocContext.new])
            · rw [if_neg hfull] at halloc
              have hs' : s' = _ := (congrArg Prod.fst halloc).symm
              have hb : b0 = b := by
                have hsnd := congrArg Prod.snd halloc
                simpa using hsnd
              subst hs'
              dsimp only at hebound
              rw [← hb]
              rw [readCtx_set_tree, hpost] at hext
              have he0 : e = e0 := by simpa using hext.symm
              subst he0
              show ((s1.extents.setExtent e
                (Extent.mk (s1.extents.readExtent e).begin
                  (s1.extents.readExtent e).end_ (b0 + 1))).readExtent e).cursor = b0 + 1
              have hb2 : e < s1.extents.extents.length := by
                have hlen2 : ((s1.extents.setExtent e
                    (Extent.mk (s1.extents.readExtent e).begin
                      (s1.extents.readExtent e).end_ (b0 + 1))).extents.length)
                    = s1.extents.extents.length := by
                  show (s1.extents.extents.set e _).length = s1.extents.extents.length
                  simp
                omega
              rw [readExtent_setExtent_self _ _ _ hb2]

/-! ### Claim C6 -/

/-- Claim C6: per-context monotonicity.  If an `alloc` call for context `c`
returns `Ok(Some b1)` and afterwards the context still holds its extent `e`
(no invalidation happened between the calls), then a following `alloc`
call whose oracle grants a block `b2` on `e`'s range (the oracle returning
only in-range blocks, `cursor ≤ b2 < end`) returns `Ok(Some b2)` with
`b1 < b2`: successive blocks handed to the same context between two
invalidations strictly increase. -/
theorem alloc_per_context_monotonic {ε : Type}
    (oracle : Nat → Nat → Except ε (Option Nat))
    (hgood : ∀ cur en b, oracle cur en = Except.ok (some b) → cur ≤ b ∧ b < en)
    (fuel1 fuel2 : Nat) (s s1 : Allocator) (c b1 b2 e : Nat)
    (hc : c < s.ctxs.length)
    (h1 : Allocator.alloc oracle fuel1 s c = (s1, Except.ok (some b1)))
    (hkeep : (s1.readCtx c).extent = some e)
    (hebound : e < s1.extents.extents.length)
    (h2 : oracle (s1.extents.readExtent e).cursor (s1.extents.readExtent e).end_ =
      Except.ok (some b2)) :
    (Allocator.alloc oracle (fuel2 + 1) s1 c).2 = Except.ok (some b2) ∧ b1 < b2 := by
  have hcur := alloc_success_cursor oracle fuel1 s s1 c b1 hc h1 e hkeep hebound
  have hens2 : s1.ensure_extent c = (s1, some e) := ensure_extent_of_some s1 c e hkeep
  have hstep := alloc_step_some oracle fuel2 s1 s1 c e b2 hens2 h2
  constructor
  · rw [hstep]
    split
    · rfl
    · rfl
  · have hrange := hgood _ _ b2 h2
    omega

/-- Claim C6 witness: two consecutive allocations through the same context
on the 4-block allocator return 0 then 1. -/
theorem alloc_per_context_monotonic_witness :
    (Allocator.alloc WOracle 1 WA1 0).2 = Except.ok (some 1) ∧ 0 < 1 :=
  alloc_per_context_monotonic WOracle
    (fun cur en b h => by
      unfold WOracle at h
      split at h
      · have hb : cur = b := by simpa using h
        subst hb
        exact ⟨Nat.le_refl _, by assumption⟩
      · simp at h)
    3 0 WA0 WA1 0 0 1 0 (by decide) rfl (by decide) (by decide) rfl

end ExtentAlloc

namespace ExtentAlloc

/-! ### Chain walks and chain resets -/

theorem mem_chainWalk_tail (s : Allocator) (fuel i nx j : Nat)
    (hnx : (s.readCtx i).next = some nx) (hj : j ∈ chainWalk s fuel nx) :
    j ∈ chainWalk s (fuel + 1) i := by
  rw [chainWalk]
  simp only [hnx]
  exact List.mem_cons_of_mem _ hj

theorem self_mem_chainWalk (s : Allocator) (fuel i : Nat) :
    i ∈ chainWalk s (fuel + 1) i := by
  rw [chainWalk]
  exact List.mem_cons_self _ _

theorem chainWalk_congr :
    ∀ (fuel : Nat) (s s' : Allocator) (i : Nat),
      (∀ j ∈ chainWalk s fuel i, s'.readCtx j = s.readCtx j) →
      chainWalk s' fuel i = chainWalk s fuel i := by
  intro fuel
  induction fuel with
  | zero => intros; rfl
  | succ fuel ih =>
    intro s s' i hagree
    have hi : s'.readCtx i = s.readCtx i := hagree i (self_mem_chainWalk s fuel i)
    rw [chainWalk, chainWalk, hi]
    cases hnx : (s.readCtx i).next with
    | none => rfl
    | some nx =>
      simp only []
      congr 1
      exact ih s s' nx (fun j hj => hagree j (mem_chainWalk_tail s fuel i nx j hnx hj))

theorem resetChain_clear :
    ∀ (fuel : Nat) (s : Allocator) (i : Nat),
      (chainWalk s fuel i).Nodup →
      ∀ j, (resetChain s fuel i).readCtx j =
        if j ∈ chainWalk s fuel i then AllocContext.new else s.readCtx j := by
  intro fuel
  induction fuel with
  | zero =>
    intro s i _ j
    show s.readCtx j = if j ∈ ([] : List Nat) then AllocContext.new else s.readCtx j
    simp
  | succ fuel ih =>
    intro s i hnd j
    rw [resetChain]
    cases hnx : (s.readCtx i).next with
    | none =>
      simp only [hnx]
      rw [readCtx_writeCtx_clear]
      have hwalk : chainWalk s (fuel + 1) i = [i] := by
        rw [chainWalk]; simp [hnx]
      rw [hwalk]
      by_cases hji : j = i
      · simp [hji]
      · simp [hji]
    | some nx =>
      simp only [hnx]
      have hwalk : chainWalk s (fuel + 1) i = i :: chainWalk s fuel nx := by
        rw [chainWalk]; simp [hnx]
      rw [hwalk] at hnd ⊢
      have hinem : i ∉ chainWalk s fuel nx := (List.nodup_cons.mp hnd).1
      have hndtail : (chainWalk s fuel nx).Nodup := (List.nodup_cons.mp hnd).2
      have hws1 : chainWalk (s.writeCtx i AllocContext.new) fuel nx =
          chainWalk s fuel nx := by
        apply chainWalk_congr
        intro j' hj'
        rw [readCtx_writeCtx_clear]
        rw [if_neg (show ¬ j' = i by intro hh; subst hh; exact hinem hj')]
      have hrc := ih (s.writeCtx i AllocContext.new) nx
        (by rw [hws1]; exact hndtail) j
      rw [hws1] at hrc
      rw [hrc]
      by_cases hjmem : j ∈ chainWalk s fuel nx
      · rw [if_pos hjmem, if_pos (List.mem_cons_of_mem _ hjmem)]
      · rw [if_neg hjmem, readCtx_writeCtx_clear]
        by_cases hji : j = i
        · rw [if_pos hji, if_pos (by rw [hji]; exact List.mem_cons_self _ _)]
        · rw [if_neg hji, if_neg (by
            intro hmem
            rcases List.mem_cons.mp hmem with hh | hh
            · exact hji hh
            · exact hjmem hh)]

theorem resetChains_holders :
    ∀ (entries : List (Nat × Nat)) (s : Allocator),
      (resetChains s entries).holders = s.holders := by
  intro entries
  induction entries with
  | nil => intro s; rfl
  | cons p rest ih =>
    intro s
    obtain ⟨k, h⟩ := p
    rw [resetChains, ih, resetChain_holders]

theorem resetChains_extents :
    ∀ (entries : List (Nat × Nat)) (s : Allocator),
      (resetChains s entries).extents = s.extents := by
  intro entries
  induction entries with
  | nil => intro s; rfl
  | cons p rest ih =>
    intro s
    obtain ⟨k, h⟩ := p
    rw [resetChains, ih, resetChain_extents]

theorem resetChains_ctxs_length :
    ∀ (entries : List (Nat × Nat)) (s : Allocator),
      (resetChains s entries).ctxs.length = s.ctxs.length := by
  intro entries
  induction entries with
  | nil => intro s; rfl
  | cons p rest ih =>
    intro s
    obtain ⟨k, h⟩ := p
    rw [resetChains, ih, resetChain_ctxs_length]

theorem resetChains_clear :
    ∀ (entries : List (Nat × Nat)) (s : Allocator),
      ((entries.map (fun p => chainWalk s (s.ctxs.length + 1) p.2)).flatten).Nodup →
      ∀ j, (resetChains s entries).readCtx j =
        if j ∈ (entries.map (fun p => chainWalk s (s.ctxs.length + 1) p.2)).flatten
        then AllocContext.new else s.readCtx j := by
  intro entries
  induction entries with
  | nil =>
    intro s _ j
    show s.readCtx j = if j ∈ ([] : List (List Nat)).flatten then _ else s.readCtx j
    simp
  | cons p rest ih =>
    intro s hnd j
    obtain ⟨k, h⟩ := p
    rw [resetChains]
    simp only [List.map_cons, List.flatten_cons] at hnd ⊢
    obtain ⟨hnd1, hnd2, hdisj⟩ := List.nodup_append.mp hnd
    have h1 := resetChain_clear (s.ctxs.length + 1) s h hnd1
    have hlen := resetChain_ctxs_length (s.ctxs.length + 1) s h
    have hmapeq : rest.map (fun p =>
        chainWalk (resetChain s (s.ctxs.length + 1) h)
          ((resetChain s (s.ctxs.length + 1) h).ctxs.length + 1) p.2) =
        rest.map (fun p => chainWalk s (s.ctxs.length + 1) p.2) := by
      apply List.map_congr_left
      intro q hq
      rw [hlen]
      apply chainWalk_congr
      intro j' hj'
      rw [h1 j']
      rw [if_neg (fun hmem1 => (hdisj hmem1 (by
        exact List.mem_flatten.mpr ⟨chainWalk s (s.ctxs.length + 1) q.2,
          List.mem_map_of_mem _ hq, hj'⟩)))]
    have hih := ih (resetChain s (s.ctxs.length + 1) h) (by rw [hmapeq]; exact hnd2) j
    rw [hmapeq] at hih
    rw [hih]
    by_cases hjrest : j ∈ (rest.map (fun p => chainWalk s (s.ctxs.length + 1) p.2)).flatten
    · rw [if_pos hjrest, if_pos (List.mem_append.mpr (Or.inr hjrest))]
    · rw [if_neg hjrest, h1 j]
      by_cases hj1 : j ∈ chainWalk s (s.ctxs.length + 1) h
      · rw [if_pos hj1, if_pos (List.mem_append.mpr (Or.inl hj1))]
      · rw [if_neg hj1, if_neg (by
          intro hmem
          rcases List.mem_append.mp hmem with hh | hh
          · exact hj1 hh
          · exact hjrest hh)]

theorem reset_all_contexts_clear (s : Allocator) (hsane : s.ChainsSane) (j : Nat) :
    (s.reset_all_contexts).readCtx j =
      if j ∈ (s.chainWalks).flatten then AllocContext.new else s.readCtx j := by
  unfold Allocator.reset_all_contexts
  have hwalks : s.holders.map (fun p =>
      chainWalk ({ s with holders := [] } : Allocator)
        (({ s with holders := [] } : Allocator).ctxs.length + 1) p.2) =
      s.holders.map (fun p => chainWalk s (s.ctxs.length + 1) p.2) := by
    apply List.map_congr_left
    intro q _
    exact chainWalk_congr _ s _ q.2 (fun _ _ => rfl)
  have hh := resetChains_clear s.holders ({ s with holders := [] } : Allocator)
    (by rw [hwalks]; exact hsane) j
  rw [hwalks] at hh
  rw [hh]
  rfl

theorem reset_all_contexts_holders (s : Allocator) :
    (s.reset_all_contexts).holders = [] := by
  unfold Allocator.reset_all_contexts
  rw [resetChains_holders]

theorem reset_all_contexts_extents (s : Allocator) :
    (s.reset_all_contexts).extents = s.extents := by
  unfold Allocator.reset_all_contexts
  rw [resetChains_extents]

end ExtentAlloc

namespace ExtentAlloc

/-! ### The spec-modelled tree resize/reset -/

theorem tree_resize_spec (t : Tree) (N : Nat) (hn : 1 ≤ t.nodes.length)
    (h255 : t.nodes.length ≤ 255) :
    (t.resize N).root = t.nodes.length - 1
    ∧ (t.resize N).read_node (t.nodes.length - 1) = .leaf t.extents.length 0
    ∧ (t.resize N).readExtent t.extents.length = ⟨0, N, 0⟩
    ∧ (t.resize N).free_nodes = (List.range (t.nodes.length - 1)).reverse
    ∧ (t.resize N).nr_blocks = N
    ∧ ((t.resize N).borrow).2 = some t.extents.length := by
  obtain ⟨m, hm⟩ : ∃ m, t.nodes.length = m + 1 := ⟨t.nodes.length - 1, by omega⟩
  have hrev : (List.range (m + 1)).reverse = m :: (List.range m).reverse := by
    rw [List.range_succ, List.reverse_append]
    rfl
  have hres : t.resize N =
      { nr_blocks := N
        nodes := (List.replicate (m + 1) Node.default_).set m (.leaf t.extents.length 0)
        free_nodes := (List.range m).reverse
        root := m
        extents := t.extents ++ [⟨0, N, 0⟩] } := by
    unfold Tree.resize
    rw [hm, hrev]
  have hmlen : m < (List.replicate (m + 1) Node.default_).length := by
    simp
  have hnode : (t.resize N).read_node m = .leaf t.extents.length 0 := by
    rw [hres]
    show Tree.read_node _ m = _
    simp only [Tree.read_node, List.getD_eq_getElem?_getD]
    rw [List.getElem?_set_eq_of_lt _ hmlen]
    rfl
  refine ⟨by rw [hres, hm]; simp, ?_, ?_, by rw [hres, hm]; simp, by rw [hres], ?_⟩
  · rw [hm]
    simpa using hnode
  · rw [hres]
    show Tree.readExtent _ t.extents.length = _
    simp only [Tree.readExtent, List.getD_eq_getElem?_getD]
    rw [List.getElem?_append_right (Nat.le_refl _)]
    simp
  · have hroot : (t.resize N).root = m := by rw [hres]
    have hlen2 : (t.resize N).nodes.length = m + 1 := by rw [hres]; simp
    have hfuel : 3 * (t.resize N).nodes.length + 1 = (3 * (m + 1)) + 1 := by
      rw [hlen2]
    show (Tree.borrow_ (3 * (t.resize N).nodes.length + 1) (t.resize N)
      ((t.resize N).root)).2 = some t.extents.length
    rw [hroot, hfuel]
    rw [borrow_step_leaf_zero (3 * (m + 1)) (t.resize N) m t.extents.length
      (by have h5 : NULL_NODE = 255 := rfl; omega) hnode]

/-! ### Claim C2 -/

/-- Claim C2: after `reset()` (and after `resize(N)`) every context that
previously held an extent has `extent = none`, the holders map is empty,
and the tree has been rebuilt as a single fresh leaf root covering
`[0, nr_blocks)` (for resize, `[0, N)`) with cursor `0`, every other node
slot being back on the free list; the next borrow succeeds against this
fresh tree.  The tree part is modelled from the spec because `Tree::reset`
is `todo!()` and `Tree::resize` is absent from src. -/
theorem allocator_reset_resize_complete (s : Allocator) (N : Nat)
    (hsane : s.ChainsSane) (hcomp : s.HoldersComplete)
    (hn : 1 ≤ s.extents.nodes.length) (h255 : s.extents.nodes.length ≤ 255) :
    ((∀ j, ((s.reset).readCtx j).extent = none)
      ∧ (s.reset).holders = []
      ∧ (s.reset).extents.root = s.extents.nodes.length - 1
      ∧ (s.reset).extents.read_node (s.extents.nodes.length - 1) =
          .leaf s.extents.extents.length 0
      ∧ (s.reset).extents.readExtent s.extents.extents.length =
          ⟨0, s.extents.nr_blocks, 0⟩
      ∧ (s.reset).extents.free_nodes = (List.range (s.extents.nodes.length - 1)).reverse
      ∧ ((s.reset).extents.borrow).2 = some s.extents.extents.length)
    ∧ ((∀ j, ((s.resize N).readCtx j).extent = none)
      ∧ (s.resize N).holders = []
      ∧ (s.resize N).extents.root = s.extents.nodes.length - 1
      ∧ (s.resize N).extents.read_node (s.extents.nodes.length - 1) =
          .leaf s.extents.extents.length 0
      ∧ (s.resize N).extents.readExtent s.extents.extents.length = ⟨0, N, 0⟩
      ∧ (s.resize N).extents.free_nodes =
          (List.range (s.extents.nodes.length - 1)).reverse
      ∧ (s.resize N).extents.nr_blocks = N
      ∧ ((s.resize N).extents.borrow).2 = some s.extents.extents.length) := by
  have hclear : ∀ j, ((s.reset_all_contexts).readCtx j).extent = none := by
    intro j
    rw [reset_all_contexts_clear s hsane j]
    by_cases hmem : j ∈ (s.chainWalks).flatten
    · rw [if_pos hmem]
      rfl
    · rw [if_neg hmem]
      by_cases hj : j < s.ctxs.length
      · cases hext : (s.readCtx j).extent with
        | none => rfl
        | some e =>
          exfalso
          obtain ⟨p, hp, hmem'⟩ := hcomp j hj (by rw [hext]; rfl)
          exact hmem (List.mem_flatten.mpr
            ⟨chainWalk s (s.ctxs.length + 1) p.2, List.mem_map_of_mem _ hp, hmem'⟩)
      · rw [Allocator.readCtx, List.getD_eq_getElem?_getD,
          List.getElem?_eq_none (by omega)]
        rfl
  have hextents := reset_all_contexts_extents s
  have htree := tree_resize_spec s.extents s.extents.nr_blocks hn h255
  have htreeN := tree_resize_spec s.extents N hn h255
  constructor
  · refine ⟨fun j => hclear j, ?_, ?_, ?_, ?_, ?_, ?_⟩
    · show (s.reset_all_contexts).holders = []
      exact reset_all_contexts_holders s
    · show ((s.reset_all_contexts).extents.reset).root = _
      rw [hextents]
      exact htree.1
    · show ((s.reset_all_contexts).extents.reset).read_node _ = _
      rw [hextents]
      exact htree.2.1
    · show ((s.reset_all_contexts).extents.reset).readExtent _ = _
      rw [hextents]
      exact htree.2.2.1
    · show ((s.reset_all_contexts).extents.reset).free_nodes = _
      rw [hextents]
      exact htree.2.2.2.1
    · show (((s.reset_all_contexts).extents.reset).borrow).2 = _
      rw [hextents]
      exact htree.2.2.2.2.2
  · refine ⟨fun j => hclear j, ?_, ?_, ?_, ?_, ?_, ?_, ?_⟩
    · show (s.reset_all_contexts).holders = []
      exact reset_all_contexts_holders s
    · show ((s.reset_all_contexts).extents.resize N).root = _
      rw [hextents]
      exact htreeN.1
    · show ((s.reset_all_contexts).extents.resize N).read_node _ = _
      rw [hextents]
      exact htreeN.2.1
    · show ((s.reset_all_contexts).extents.resize N).readExtent _ = _
      rw [hextents]
      exact htreeN.2.2.1
    · show ((s.reset_all_contexts).extents.resize N).free_nodes = _
      rw [hextents]
      exact htreeN.2.2.2.1
    · show ((s.reset_all_contexts).extents.resize N).nr_blocks = _
      rw [hextents]
      exact htreeN.2.2.2.2.1
    · show (((s.reset_all_contexts).extents.resize N).borrow).2 = _
      rw [hextents]
      exact htreeN.2.2.2.2.2

/-- Claim C2 witness: resetting the 4-block allocator whose single context
holds an extent clears the context, empties the holders map and rebuilds a
borrowable single-leaf tree. -/
theorem allocator_reset_resize_complete_witness :
    ((WA1.reset).readCtx 0).extent = none ∧ (WA1.reset).holders = [] ∧
      ((WA1.reset).extents.borrow).2 = some 1 :=
  ⟨(allocator_reset_resize_complete WA1 9 (by decide) (by decide)
      (by decide) (by decide)).1.1 0,
   (allocator_reset_resize_complete WA1 9 (by decide) (by decide)
      (by decide) (by decide)).1.2.1,
   (allocator_reset_resize_complete WA1 9 (by decide) (by decide)
      (by decide) (by decide)).1.2.2.2.2.2.2⟩

end ExtentAlloc

namespace ExtentAlloc

/-! ### Helper lemmas for chains, pairings and the assoc-list map -/

theorem headD_mem {l : List Nat} (h : l ≠ []) : l.headD 0 ∈ l := by
  cases l with
  | nil => exact absurd rfl h
  | cons x xs => exact List.mem_cons_self _ _

theorem forall2_mem_left {α β : Type} {R : α → β → Prop} :
    ∀ {l1 : List α} {l2 : List β}, List.Forall₂ R l1 l2 →
      ∀ a ∈ l1, ∃ b ∈ l2, R a b := by
  intro l1 l2 h
  induction h with
  | nil => intro a ha; exact absurd ha (List.not_mem_nil a)
  | cons hR _ ih =>
    intro a ha
    rcases List.mem_cons.mp ha with hh | hh
    · exact ⟨_, List.mem_cons_self _ _, hh ▸ hR⟩
    · obtain ⟨b, hb, hRb⟩ := ih a hh
      exact ⟨b, List.mem_cons_of_mem _ hb, hRb⟩

theorem forall2_flatten_mem {α : Type} {R : α → List Nat → Prop} :
    ∀ {l1 : List α} {l2 : List (List Nat)}, List.Forall₂ R l1 l2 →
      ∀ i ∈ l2.flatten, ∃ a ∈ l1, ∃ b ∈ l2, R a b ∧ i ∈ b := by
  intro l1 l2 h
  induction h with
  | nil => intro i hi; simp at hi
  | cons hR _ ih =>
    intro i hi
    rw [List.flatten_cons] at hi
    rcases List.mem_append.mp hi with hh | hh
    · exact ⟨_, List.mem_cons_self _ _, _, List.mem_cons_self _ _, hR, hh⟩
    · obtain ⟨a, ha, b, hb, hRb, hib⟩ := ih i hh
      exact ⟨a, List.mem_cons_of_mem _ ha, b, List.mem_cons_of_mem _ hb, hRb, hib⟩

theorem forall2_append_decomp {α β : Type} {R : α → β → Prop} :
    ∀ (h1 : List α) (p : α) (h2 : List α) (l : List β),
      List.Forall₂ R (h1 ++ p :: h2) l →
      ∃ c1 ch c2, l = c1 ++ ch :: c2 ∧ List.Forall₂ R h1 c1 ∧ R p ch ∧
        List.Forall₂ R h2 c2 := by
  intro h1
  induction h1 with
  | nil =>
    intro p h2 l hf
    cases hf with
    | cons hR htail => exact ⟨[], _, _, rfl, List.Forall₂.nil, hR, htail⟩
  | cons q h1' ih =>
    intro p h2 l hf
    cases hf with
    | cons hR htail =>
      obtain ⟨c1, ch, c2, hl, hf1, hfp, hf2⟩ := ih p h2 _ htail
      exact ⟨_ :: c1, ch, c2, by rw [hl]; simp, List.Forall₂.cons hR hf1, hfp, hf2⟩

theorem linked_next_prev (s : Allocator) :
    ∀ (l : List Nat), Linked s l → ∀ i ∈ l, ∀ j,
      (s.readCtx i).next = some j → (s.readCtx j).prev = some i := by
  intro l
  induction l with
  | nil => intro _ i hi; exact absurd hi (List.not_mem_nil i)
  | cons x xs ih =>
    intro hl i hi j hnext
    cases xs with
    | nil =>
      rcases List.mem_cons.mp hi with hh | hh
      · subst hh
        rw [show Linked s [i] = ((s.readCtx i).next = none) from rfl] at hl
        rw [hl] at hnext
        exact absurd hnext (by simp)
      · exact absurd hh (List.not_mem_nil i)
    | cons y ys =>
      obtain ⟨hxy, hyx, htail⟩ :=
        (show Linked s (x :: y :: ys) = _ from rfl) ▸ hl
      rcases List.mem_cons.mp hi with hh | hh
      · subst hh
        rw [hxy] at hnext
        have : y = j := by simpa using hnext
        subst this
        exact hyx
      · exact ih htail i hh j hnext

theorem linked_tail_congr (s s' : Allocator) :
    ∀ (x : Nat) (l : List Nat),
      (∀ j ∈ x :: l, (s'.readCtx j).next = (s.readCtx j).next) →
      (∀ j ∈ l, (s'.readCtx j).prev = (s.readCtx j).prev) →
      Linked s (x :: l) → Linked s' (x :: l) := by
  intro x l
  induction l generalizing x with
  | nil =>
    intro hnext _ hl
    show (s'.readCtx x).next = none
    rw [hnext x (List.mem_cons_self _ _)]
    exact hl
  | cons y ys ih =>
    intro hnext hprev hl
    obtain ⟨hxy, hyx, htail⟩ := hl
    refine ⟨?_, ?_, ?_⟩
    · rw [hnext x (List.mem_cons_self _ _)]; exact hxy
    · rw [hprev y (List.mem_cons_self _ _)]; exact hyx
    · exact ih y (fun j hj => hnext j (List.mem_cons_of_mem _ hj))
        (fun j hj => hprev j (List.mem_cons_of_mem _ hj)) htail

theorem linked_congr (s s' : Allocator) :
    ∀ (l : List Nat), (∀ j ∈ l, s'.readCtx j = s.readCtx j) →
      Linked s l → Linked s' l := by
  intro l hagree hl
  cases l with
  | nil => trivial
  | cons x xs =>
    exact linked_tail_congr s s' x xs (fun j hj => by rw [hagree j hj])
      (fun j hj => by rw [hagree j (List.mem_cons_of_mem _ hj)]) hl

theorem ChainOK_congr (s s' : Allocator) (p : Nat × Nat) (ch : List Nat)
    (hctx : ∀ j ∈ ch, s'.readCtx j = s.readCtx j)
    (hbeg : ∀ e, (s'.extents.readExtent e).begin = (s.extents.readExtent e).begin)
    (h : ChainOK s p ch) : ChainOK s' p ch := by
  obtain ⟨hne, hhead, hprev, hlink, hmem⟩ := h
  refine ⟨hne, hhead, ?_, linked_congr s s' ch hctx hlink, ?_⟩
  · rw [hctx _ (headD_mem hne)]; exact hprev
  · intro i hi
    obtain ⟨e, he1, he2⟩ := hmem i hi
    exact ⟨e, by rw [hctx i hi]; exact he1, by rw [hbeg]; exact he2⟩

theorem chainWalk_of_linked (s : Allocator) :
    ∀ (ch : List Nat) (fuel : Nat), Linked s ch →
      ch.length ≤ fuel →
      ∀ i, ch.headD 0 = i → ch ≠ [] → chainWalk s fuel i = ch := by
  intro ch
  induction ch with
  | nil => intro fuel _ _ i _ hne; exact absurd rfl hne
  | cons x xs ih =>
    intro fuel hl hlen i hhead _
    have hx : x = i := hhead
    subst hx
    obtain ⟨fuel, rfl⟩ : ∃ f, fuel = f + 1 := by
      cases fuel with
      | zero => simp at hlen
      | succ f => exact ⟨f, rfl⟩
    rw [chainWalk]
    cases xs with
    | nil =>
      have hnone : (s.readCtx x).next = none := hl
      simp [hnone]
    | cons y ys =>
      obtain ⟨hxy, _, htail⟩ := hl
      simp only [hxy]
      congr 1
      exact ih fuel htail (by simpa using Nat.le_of_succ_le_succ hlen) y rfl
        (by simp)

theorem mapFind_eq_none (m : List (Nat × Nat)) (k : Nat)
    (h : ∀ p ∈ m, p.1 ≠ k) : mapFind m k = none := by
  unfold mapFind
  rw [List.find?_eq_none.mpr]
  · rfl
  · intro p hp
    simp [h p hp]

theorem mapFind_some_decomp (m : List (Nat × Nat)) (k v : Nat)
    (h : mapFind m k = some v) :
    ∃ h1 h2, m = h1 ++ (k, v) :: h2 ∧ ∀ p ∈ h1, p.1 ≠ k := by
  induction m with
  | nil => simp [mapFind] at h
  | cons q rest ih =>
    by_cases hq : q.1 = k
    · have : q.2 = v := by
        unfold mapFind at h
        rw [List.find?_cons_of_pos _ (by simp [hq])] at h
        simpa using h
      exact ⟨[], rest, by
        obtain ⟨q1, q2⟩ := q
        simp at hq this
        rw [hq, this]
        rfl, by simp⟩
    · unfold mapFind at h
      rw [List.find?_cons_of_neg _ (by simp [hq])] at h
      obtain ⟨h1, h2, hm, hkeys⟩ := ih h
      refine ⟨q :: h1, h2, by rw [hm]; simp, ?_⟩
      intro p hp
      rcases List.mem_cons.mp hp with hh | hh
      · rw [hh]; exact hq
      · exact hkeys p hh

theorem mapFind_append_cons (h1 : List (Nat × Nat)) (k v : Nat)
    (h2 : List (Nat × Nat)) (hk : ∀ p ∈ h1, p.1 ≠ k) :
    mapFind (h1 ++ (k, v) :: h2) k = some v := by
  induction h1 with
  | nil => simp [mapFind]
  | cons q rest ih =>
    unfold mapFind
    rw [List.cons_append, List.find?_cons_of_neg _
      (by simp [hk q (List.mem_cons_self _ _)])]
    exact ih (fun p hp => hk p (List.mem_cons_of_mem _ hp))

theorem mapRemove_append (h1 : List (Nat × Nat)) (k v : Nat)
    (h2 : List (Nat × Nat)) (hk1 : ∀ p ∈ h1, p.1 ≠ k)
    (hk2 : ∀ p ∈ h2, p.1 ≠ k) :
    mapRemove (h1 ++ (k, v) :: h2) k = h1 ++ h2 := by
  unfold mapRemove
  rw [List.filter_append, List.filter_cons_of_neg (by simp)]
  rw [List.filter_eq_self.mpr (fun p hp => by simp [hk1 p hp]),
    List.filter_eq_self.mpr (fun p hp => by simp [hk2 p hp])]

theorem mapSet_append (h1 : List (Nat × Nat)) (k v v' : Nat)
    (h2 : List (Nat × Nat)) (hk1 : ∀ p ∈ h1, p.1 ≠ k)
    (hk2 : ∀ p ∈ h2, p.1 ≠ k) :
    mapSet (h1 ++ (k, v) :: h2) k v' = h1 ++ (k, v') :: h2 := by
  unfold mapSet
  rw [if_pos (by
    have h3 := mapFind_append_cons h1 k v h2 hk1
    unfold mapFind at h3
    cases hf : List.find? (fun p => decide (p.1 = k)) (h1 ++ (k, v) :: h2) with
    | none => rw [hf] at h3; simp at h3
    | some q => rfl)]
  rw [List.map_append, List.map_cons]
  rw [List.map_congr_left (g := id) (fun p hp => by
    show (if p.1 = k then (k, v') else p) = p
    rw [if_neg (hk1 p hp)]), List.map_id]
  rw [List.map_congr_left (g := id) (fun p hp => by
    show (if p.1 = k then (k, v') else p) = p
    rw [if_neg (hk2 p hp)]), List.map_id]
  rw [if_pos rfl]

theorem mapSet_absent (m : List (Nat × Nat)) (k v : Nat)
    (hk : ∀ p ∈ m, p.1 ≠ k) : mapSet m k v = m ++ [(k, v)] := by
  have hnone : List.find? (fun p => decide (p.1 = k)) m = none :=
    List.find?_eq_none.mpr (fun p hp => by simp [hk p hp])
  unfold mapSet
  rw [if_neg (by rw [hnone]; simp)]

end ExtentAlloc

namespace ExtentAlloc

/-! ### Context-heap bounds, pushed contexts and more map facts -/

theorem readCtx_oob (s : Allocator) (j : Nat) (h : s.ctxs.length ≤ j) :
    s.readCtx j = AllocContext.new := by
  rw [Allocator.readCtx, List.getD_eq_getElem?_getD, List.getElem?_eq_none h]
  rfl

theorem readCtx_push (s : Allocator) (j : Nat) :
    ({ s with ctxs := s.ctxs ++ [AllocContext.new] } : Allocator).readCtx j =
      if j = s.ctxs.length then AllocContext.new else s.readCtx j := by
  show (s.ctxs ++ [AllocContext.new]).getD j AllocContext.new = _
  by_cases hj : j < s.ctxs.length
  · rw [if_neg (by omega), List.getD_eq_getElem?_getD, List.getElem?_append,
      if_pos hj, Allocator.readCtx, List.getD_eq_getElem?_getD]
  · rw [List.getD_eq_getElem?_getD, List.getElem?_append_right (by omega)]
    by_cases he : j = s.ctxs.length
    · simp [he]
    · rw [if_neg he, List.getElem?_eq_none (by simp; omega),
        readCtx_oob s j (by omega)]
      rfl

theorem mapFind_none_keys (m : List (Nat × Nat)) (k : Nat)
    (h : mapFind m k = none) : ∀ p ∈ m, p.1 ≠ k := by
  intro p hp
  unfold mapFind at h
  cases hf : List.find? (fun p => decide (p.1 = k)) m with
  | none =>
    have := List.find?_eq_none.mp hf p hp
    simpa using this
  | some q => rw [hf] at h; simp at h

theorem keys_ne_of_nodup (h1 : List (Nat × Nat)) (k v : Nat) (h2 : List (Nat × Nat))
    (hnd : ((h1 ++ (k, v) :: h2).map Prod.fst).Nodup) :
    (∀ p ∈ h1, p.1 ≠ k) ∧ ∀ p ∈ h2, p.1 ≠ k := by
  rw [List.map_append, List.map_cons, List.nodup_append] at hnd
  obtain ⟨hnd1, hnd2, hdisj⟩ := hnd
  constructor
  · intro p hp hpk
    have hm : p.1 ∈ List.map Prod.fst h1 := List.mem_map_of_mem Prod.fst hp
    rw [hpk] at hm
    exact hdisj hm (List.mem_cons_self _ _)
  · intro p hp hpk
    have hm : p.1 ∈ List.map Prod.fst h2 := List.mem_map_of_mem Prod.fst hp
    rw [hpk] at hm
    exact (List.nodup_cons.mp hnd2).1 hm

theorem forall2_append_decomp_right {α β : Type} {R : α → β → Prop} :
    ∀ (c1 : List β) (l : List α) (ch : β) (c2 : List β),
      List.Forall₂ R l (c1 ++ ch :: c2) →
      ∃ h1 p h2, l = h1 ++ p :: h2 ∧ List.Forall₂ R h1 c1 ∧ R p ch ∧
        List.Forall₂ R h2 c2 := by
  intro c1
  induction c1 with
  | nil =>
    intro l ch c2 hf
    cases hf with
    | cons hR htail => exact ⟨[], _, _, rfl, List.Forall₂.nil, hR, htail⟩
  | cons q c1' ih =>
    intro l ch c2 hf
    cases hf with
    | cons hR htail =>
      obtain ⟨h1, p, h2, hl, hf1, hfp, hf2⟩ := ih _ ch c2 htail
      exact ⟨_ :: h1, p, h2, by rw [hl]; simp, List.Forall₂.cons hR hf1, hfp, hf2⟩

theorem exists_concat {α : Type} (l : List α) (h : l ≠ []) :
    ∃ L b, l = L ++ [b] := by
  rcases List.eq_nil_or_concat l with h0 | ⟨L, b, hlb⟩
  · exact absurd h0 h
  · exact ⟨L, b, by rw [hlb, List.concat_eq_append]⟩

theorem nodup_middle_remove {x y : List Nat} {c : Nat} (h : (x ++ c :: y).Nodup) :
    (x ++ y).Nodup :=
  h.sublist ((List.sublist_cons_self c y).append_left x)

theorem nodup_of_mem_flatten {l : List (List Nat)} {ch : List Nat}
    (h : l.flatten.Nodup) (hm : ch ∈ l) : ch.Nodup :=
  h.sublist (List.sublist_flatten_of_mem hm)

theorem headD_append {l1 l2 : List Nat} (a : Nat) (h : l1 ≠ []) :
    (l1 ++ l2).headD a = l1.headD a := by
  cases l1 with
  | nil => exact absurd rfl h
  | cons x xs => rfl

theorem ChainOK_congr_lt (s s' : Allocator) (p : Nat × Nat) (ch : List Nat)
    (hctx : ∀ j ∈ ch, s'.readCtx j = s.readCtx j)
    (hbeg : ∀ e, e < s.extents.extents.length →
      (s'.extents.readExtent e).begin = (s.extents.readExtent e).begin)
    (hbound : ∀ j ∈ ch, ∀ e, (s.readCtx j).extent = some e →
      e < s.extents.extents.length)
    (h : ChainOK s p ch) : ChainOK s' p ch := by
  obtain ⟨hne, hhead, hprev, hlink, hmem⟩ := h
  refine ⟨hne, hhead, ?_, linked_congr s s' ch hctx hlink, ?_⟩
  · rw [hctx _ (headD_mem hne)]; exact hprev
  · intro i hi
    obtain ⟨e, he1, he2⟩ := hmem i hi
    exact ⟨e, by rw [hctx i hi]; exact he1,
      by rw [hbeg e (hbound i hi e he1)]; exact he2⟩

/-! ### Splicing a context out of a linked chain -/

theorem linked_tail (s : Allocator) (a : Nat) (l : List Nat)
    (h : Linked s (a :: l)) (hne : l ≠ []) : Linked s l := by
  cases l with
  | nil => exact absurd rfl hne
  | cons b l' => exact h.2.2

theorem linked_next_at (s : Allocator) :
    ∀ (u : List Nat) (c : Nat) (w : List Nat), Linked s (u ++ c :: w) →
      (s.readCtx c).next = w.head? := by
  intro u
  induction u with
  | nil =>
    intro c w h
    cases w with
    | nil => exact h
    | cons nx w' => exact h.1
  | cons a u' ih =>
    intro c w h
    exact ih c w (linked_tail s a (u' ++ c :: w) h (by simp))

theorem linked_prev_at (s : Allocator) :
    ∀ (u : List Nat) (p c : Nat) (w : List Nat),
      Linked s ((u ++ [p]) ++ c :: w) → (s.readCtx c).prev = some p := by
  intro u
  induction u with
  | nil =>
    intro p c w h
    exact h.2.1
  | cons a u' ih =>
    intro p c w h
    exact ih p c w (linked_tail s a ((u' ++ [p]) ++ c :: w) h (by simp))

theorem linked_splice (s s' : Allocator) (p c : Nat) :
    ∀ (u w : List Nat),
      Linked s ((u ++ [p]) ++ c :: w) →
      (s'.readCtx p).next = w.head? →
      (s'.readCtx p).prev = (s.readCtx p).prev →
      (∀ j ∈ u, s'.readCtx j = s.readCtx j) →
      (∀ j ∈ w, (s'.readCtx j).next = (s.readCtx j).next) →
      (∀ j ∈ w.tail, (s'.readCtx j).prev = (s.readCtx j).prev) →
      (∀ nx, w.head? = some nx → (s'.readCtx nx).prev = some p) →
      Linked s' ((u ++ [p]) ++ w) := by
  intro u
  induction u with
  | nil =>
    intro w hl hpn hpp hu hwn hwp hnx
    cases w with
    | nil => exact hpn
    | cons nx w' =>
      refine ⟨hpn, hnx nx rfl, ?_⟩
      have h1 : Linked s (c :: nx :: w') :=
        linked_tail s p (c :: nx :: w') hl (by simp)
      have h2 : Linked s (nx :: w') :=
        linked_tail s c (nx :: w') h1 (by simp)
      exact linked_tail_congr s s' nx w' (fun j hj => hwn j hj)
        (fun j hj => hwp j hj) h2
  | cons a u' ih =>
    intro w hl hpn hpp hu hwn hwp hnx
    have ha : s'.readCtx a = s.readCtx a := hu a (List.mem_cons_self _ _)
    have htl : Linked s ((u' ++ [p]) ++ c :: w) :=
      linked_tail s a ((u' ++ [p]) ++ c :: w) hl (by simp)
    have hrest : Linked s' ((u' ++ [p]) ++ w) :=
      ih w htl hpn hpp (fun j hj => hu j (List.mem_cons_of_mem _ hj)) hwn hwp hnx
    cases u' with
    | nil =>
      refine ⟨?_, ?_, hrest⟩
      · rw [ha]; exact hl.1
      · rw [hpp]; exact hl.2.1
    | cons b u'' =>
      refine ⟨?_, ?_, hrest⟩
      · rw [ha]; exact hl.1
      · rw [hu b (List.mem_cons_of_mem _ (List.mem_cons_self _ _))]; exact hl.2.1

end ExtentAlloc

namespace ExtentAlloc

/-! ### Leaf extent references through the tree operations -/

theorem getD_set_cases {α : Type} (l : List α) (i j : Nat) (x d : α) :
    (l.set i x).getD j d = x ∨ (l.set i x).getD j d = l.getD j d := by
  by_cases hji : j = i
  · subst hji
    by_cases hlt : j < l.length
    · exact Or.inl (by
        rw [List.getD_eq_getElem?_getD, List.getElem?_set_eq_of_lt _ hlt]
        rfl)
    · exact Or.inr (by rw [List.set_eq_of_length_le (by omega)])
  · exact Or.inr (by
      rw [List.getD_eq_getElem?_getD, List.getElem?_set_ne (Ne.symm hji),
        ← List.getD_eq_getElem?_getD])

theorem getD_append_lt {α : Type} (l1 l2 : List α) (n : Nat) (d : α)
    (h : n < l1.length) : (l1 ++ l2).getD n d = l1.getD n d := by
  rw [List.getD_eq_getElem?_getD, List.getElem?_append_left h,
    ← List.getD_eq_getElem?_getD]

theorem getD_replicate_set (n r j : Nat) (x d : Node) :
    ((List.replicate n d).set r x).getD j d =
      if j = r ∧ r < n then x else d := by
  by_cases hj : j = r ∧ r < n
  · obtain ⟨hj1, hj2⟩ := hj
    subst hj1
    rw [if_pos ⟨rfl, hj2⟩, List.getD_eq_getElem?_getD,
      List.getElem?_set_eq_of_lt _ (by simpa using hj2)]
    rfl
  · rw [if_neg hj]
    rcases Decidable.em (j = r) with hjr | hjr
    · subst hjr
      have hn : ¬ j < n := fun hlt => hj ⟨rfl, hlt⟩
      rw [List.set_eq_of_length_le (by simpa using Nat.le_of_not_lt hn),
        List.getD_eq_getElem?_getD,
        List.getElem?_eq_none (by simpa using Nat.le_of_not_lt hn)]
      rfl
    · rw [List.getD_eq_getElem?_getD, List.getElem?_set_ne (Ne.symm hjr)]
      rcases Nat.lt_or_ge j n with hlt | hge
      · rw [List.getElem?_eq_getElem (by simpa using hlt)]
        simp
      · rw [List.getElem?_eq_none (by simpa using hge)]
        rfl

theorem treeIdsOK_congr (t1 t2 : Tree) (hn : t2.nodes = t1.nodes)
    (he : t2.extents = t1.extents) (h : TreeIdsOK t1) : TreeIdsOK t2 := by
  intro i e hh hread
  rw [he]
  apply h i e hh
  have hrr : t1.read_node i = t2.read_node i := by
    rw [Tree.read_node, Tree.read_node, hn]
  rw [hrr, hread]

theorem treeIdsOK_write_node (t : Tree) (i : Nat) (n : Node) (ht : TreeIdsOK t)
    (hn : ∀ e h, n = Node.leaf e h → e < t.extents.length) :
    TreeIdsOK (t.write_node i n) := by
  intro j e h hread
  show e < t.extents.length
  by_cases hji : j = i
  · subst hji
    by_cases hlt : j < t.nodes.length
    · rw [read_node_write_node_self t j n hlt] at hread
      exact hn e h hread
    · have hset : (t.write_node j n).nodes = t.nodes := by
        show t.nodes.set j n = t.nodes
        exact List.set_eq_of_length_le (by omega)
      rw [Tree.read_node, hset, ← Tree.read_node] at hread
      exact ht j e h hread
  · rw [read_node_write_node_ne t i j n hji] at hread
    exact ht j e h hread

theorem treeIdsOK_new (nb nn : Nat) : TreeIdsOK (Tree.new nb nn) := by
  intro j e h hread
  rw [Tree.new] at hread ⊢
  cases hr : (List.range nn).reverse with
  | nil =>
    simp only [hr] at hread
    rw [Tree.read_node] at hread
    simp [Node.default_] at hread
  | cons r rest =>
    simp only [hr] at hread ⊢
    rw [Tree.read_node] at hread
    dsimp only at hread ⊢
    rw [getD_replicate_set] at hread
    by_cases hc : j = r ∧ r < nn
    · rw [if_pos hc] at hread
      injection hread with h1 h2
      simp [← h1]
    · rw [if_neg hc] at hread
      exact absurd hread (by simp [Node.default_])

theorem treeIdsOK_resize (t : Tree) (N : Nat) : TreeIdsOK (t.resize N) := by
  intro j e h hread
  rw [Tree.resize] at hread ⊢
  cases hr : (List.range t.nodes.length).reverse with
  | nil =>
    simp only [hr] at hread
    rw [Tree.read_node] at hread
    simp [Node.default_] at hread
  | cons r rest =>
    simp only [hr] at hread ⊢
    rw [Tree.read_node] at hread
    dsimp only at hread ⊢
    rw [getD_replicate_set] at hread
    by_cases hc : j = r ∧ r < t.nodes.length
    · rw [if_pos hc] at hread
      injection hread with h1 h2
      rw [List.length_append, ← h1]
      simp
    · rw [if_neg hc] at hread
      exact absurd hread (by simp [Node.default_])

theorem split_leaf_of_internal (t : Tree) (i h f cut l r : Nat)
    (hnode : t.read_node i = .internal h f cut l r) :
    t.split_leaf i = (t, false) := by
  unfold Tree.split_leaf
  split
  · rfl
  · rw [hnode]

theorem split_leaf_pool (t : Tree) (i : Nat) (ht : TreeIdsOK t) :
    TreeIdsOK (t.split_leaf i).1 ∧
      t.extents.length ≤ (t.split_leaf i).1.extents.length ∧
      ∀ e', e' < t.extents.length →
        ((t.split_leaf i).1.readExtent e').begin = (t.readExtent e').begin := by
  by_cases hlen : t.free_nodes.length < 2
  · rw [split_leaf_of_nospace t i hlen]
    exact ⟨ht, le_refl _, fun _ _ => rfl⟩
  cases hnode : t.read_node i with
  | internal h f cut l r =>
    rw [split_leaf_of_internal t i h f cut l r hnode]
    exact ⟨ht, le_refl _, fun _ _ => rfl⟩
  | leaf e h =>
    by_cases hsmall : (t.readExtent e).end_ - (t.readExtent e).cursor ≤ 16
    · rw [split_leaf_of_small t i e h hnode hsmall]
      exact ⟨ht, le_refl _, fun _ _ => rfl⟩
    · obtain ⟨lc, rc, rest, hfree⟩ : ∃ lc rc rest, t.free_nodes = lc :: rc :: rest := by
        match hf : t.free_nodes with
        | [] => rw [hf] at hlen; simp at hlen
        | [a] => rw [hf] at hlen; simp at hlen
        | a :: b :: l => exact ⟨a, b, l, rfl⟩
      rw [split_leaf_result t i e h lc rc rest hnode hfree (by omega)]
      have he : e < t.extents.length := ht i e h hnode
      refine ⟨?_, ?_, ?_⟩
      · intro j e' h' hread
        show e' < ((t.extents.set e _) ++ [_]).length
        rw [List.length_append, List.length_set]
        rw [Tree.read_node] at hread
        dsimp only at hread
        rcases getD_set_cases ((t.nodes.set lc (.leaf e h)).set rc
            (.leaf t.extents.length 0)) i j _ Node.default_ with hc | hc
        · rw [hc] at hread
          exact absurd hread (by simp)
        · rw [hc] at hread
          rcases getD_set_cases (t.nodes.set lc (.leaf e h)) rc j
              (Node.leaf t.extents.length 0) Node.default_ with hc2 | hc2
          · rw [hc2] at hread
            injection hread with h1 h2
            simp [← h1]
          · rw [hc2] at hread
            rcases getD_set_cases t.nodes lc j (Node.leaf e h) Node.default_ with hc3 | hc3
            · rw [hc3] at hread
              injection hread with h1 h2
              rw [← h1]
              simp
              omega
            · rw [hc3, ← Tree.read_node] at hread
              have := ht j e' h' hread
              simp
              omega
      · show t.extents.length ≤ ((t.extents.set e _) ++ [_]).length
        rw [List.length_append, List.length_set]
        simp
      · intro e' he'
        show (((t.extents.set e _) ++ [_]).getD e' ⟨0, 0, 0⟩).begin = _
        rw [getD_append_lt _ _ e' _ (by rw [List.length_set]; exact he')]
        by_cases hee : e' = e
        · subst hee
          rw [List.getD_eq_getElem?_getD, List.getElem?_set_eq_of_lt _ he']
          rfl
        · rw [List.getD_eq_getElem?_getD, List.getElem?_set_ne (Ne.symm hee),
            ← List.getD_eq_getElem?_getD]
          rfl

end ExtentAlloc

namespace ExtentAlloc

/-! ### The extent pool through `borrow` and `release` -/

theorem borrow_step_internal_nullnull (fuel : Nat) (t : Tree) (i h f cut : Nat)
    (hi : i ≠ NULL_NODE)
    (hnode : t.read_node i = .internal h f cut NULL_NODE NULL_NODE) :
    Tree.borrow_ (fuel + 1) t i = (t, none) := by
  conv_lhs => rw [Tree.borrow_]
  rw [if_neg hi]
  simp [hnode]

theorem borrow_pool_compose (t : Tree) (i : Nat) (n : Node)
    (res : Tree × Option Nat)
    (hres : TreeIdsOK res.1 ∧ t.extents.length ≤ res.1.extents.length ∧
      (∀ e', e' < t.extents.length →
        (res.1.readExtent e').begin = (t.readExtent e').begin) ∧
      (∀ e, res.2 = some e → e < res.1.extents.length))
    (hn : ∀ e h, n = Node.leaf e h → e < res.1.extents.length) :
    TreeIdsOK (if res.2.isSome then (res.1.write_node i n, res.2) else res).1 ∧
      t.extents.length ≤
        (if res.2.isSome then (res.1.write_node i n, res.2) else res).1.extents.length ∧
      (∀ e', e' < t.extents.length →
        ((if res.2.isSome then (res.1.write_node i n, res.2) else res).1.readExtent
            e').begin = (t.readExtent e').begin) ∧
      (∀ e, (if res.2.isSome then (res.1.write_node i n, res.2) else res).2 = some e →
        e < (if res.2.isSome then (res.1.write_node i n, res.2)
              else res).1.extents.length) := by
  obtain ⟨h1, h2, h3, h4⟩ := hres
  by_cases hs : res.2.isSome = true
  · simp only [hs, if_true]
    exact ⟨treeIdsOK_write_node res.1 i n h1 hn, h2, h3, h4⟩
  · simp only [hs, if_false]
    exact ⟨h1, h2, h3, h4⟩

theorem borrow_pool :
    ∀ (fuel : Nat) (t : Tree) (i : Nat), TreeIdsOK t →
      TreeIdsOK (Tree.borrow_ fuel t i).1 ∧
        t.extents.length ≤ (Tree.borrow_ fuel t i).1.extents.length ∧
        (∀ e', e' < t.extents.length →
          ((Tree.borrow_ fuel t i).1.readExtent e').begin =
            (t.readExtent e').begin) ∧
        (∀ e, (Tree.borrow_ fuel t i).2 = some e →
          e < (Tree.borrow_ fuel t i).1.extents.length) := by
  intro fuel
  induction fuel with
  | zero =>
    intro t i ht
    exact ⟨ht, le_refl _, fun _ _ => rfl, fun e he => by simp [Tree.borrow_] at he⟩
  | succ fuel ih =>
    intro t i ht
    by_cases hnull : i = NULL_NODE
    · subst hnull
      rw [borrow_step_null]
      exact ⟨ht, le_refl _, fun _ _ => rfl, fun e he => by simp at he⟩
    cases hnode : t.read_node i with
    | leaf e h =>
      cases h with
      | zero =>
        rw [borrow_step_leaf_zero fuel t i e hnull hnode]
        refine ⟨treeIdsOK_write_node t i _ ht ?_, le_refl _, fun _ _ => rfl, ?_⟩
        · intro e1 h1 heq
          injection heq with he1 hh1
          rw [← he1]
          exact ht i e 0 hnode
        · intro e1 he1
          have he : e = e1 := by simpa using he1
          rw [← he]
          show e < t.extents.length
          exact ht i e 0 hnode
      | succ h' =>
        rw [borrow_step_leaf_pos fuel t i e h' hnull hnode]
        by_cases hsp : (t.split_leaf i).2 = true
        · rw [if_pos hsp]
          obtain ⟨hts, hle, hbeg⟩ := split_leaf_pool t i ht
          obtain ⟨ih1, ih2, ih3, ih4⟩ := ih (t.split_leaf i).1 i hts
          refine ⟨ih1, le_trans hle ih2, ?_, ih4⟩
          intro e' he'
          rw [ih3 e' (lt_of_lt_of_le he' hle), hbeg e' he']
        · rw [if_neg hsp]
          refine ⟨treeIdsOK_write_node t i _ ht ?_, le_refl _, fun _ _ => rfl, ?_⟩
          · intro e1 h1 heq
            injection heq with he1 hh1
            rw [← he1]
            exact ht i e (h' + 1) hnode
          · intro e1 he1
            have he : e = e1 := by simpa using he1
            rw [← he]
            show e < t.extents.length
            exact ht i e (h' + 1) hnode
    | internal h f cut l r =>
      by_cases hl : l = NULL_NODE
      · by_cases hr : r = NULL_NODE
        · subst hl; subst hr
          rw [borrow_step_internal_nullnull fuel t i h f cut hnull hnode]
          exact ⟨ht, le_refl _, fun _ _ => rfl, fun e he => by simp at he⟩
        · subst hl
          rw [borrow_step_internal_right fuel t i h f cut r hnull hnode hr]
          exact borrow_pool_compose t i _ _ (ih t r ht)
            (fun e1 h1 heq => absurd heq (by simp))
      · by_cases hr : r = NULL_NODE
        · subst hr
          rw [borrow_step_internal_left fuel t i h f cut l hnull hnode hl]
          exact borrow_pool_compose t i _ _ (ih t l ht)
            (fun e1 h1 heq => absurd heq (by simp))
        · rw [borrow_step_internal fuel t i h f cut l r hnull hnode hl hr]
          exact borrow_pool_compose t i _ _ (ih t (t.select_child l r) ht)
            (fun e1 h1 heq => absurd heq (by simp))

theorem borrow_tree_pool (t : Tree) (ht : TreeIdsOK t) :
    TreeIdsOK (t.borrow).1 ∧
      t.extents.length ≤ (t.borrow).1.extents.length ∧
      (∀ e', e' < t.extents.length →
        ((t.borrow).1.readExtent e').begin = (t.readExtent e').begin) ∧
      ∀ e, (t.borrow).2 = some e → e < (t.borrow).1.extents.length := by
  rw [Tree.borrow]
  exact borrow_pool (3 * t.nodes.length + 1) t t.root ht

theorem collapse_ids (t1 : Tree) (i h cut lp rp : Nat) (ht : TreeIdsOK t1) :
    TreeIdsOK (t1.collapse i h cut lp rp).1 := by
  unfold Tree.collapse
  split
  · exact treeIdsOK_congr t1 _ rfl rfl ht
  split
  · exact treeIdsOK_congr t1 _ rfl rfl ht
  split
  · exact treeIdsOK_congr t1 _ rfl rfl ht
  · exact treeIdsOK_write_node t1 i _ ht (fun e1 h1 heq => absurd heq (by simp))

theorem release_ids :
    ∀ (fuel : Nat) (t : Tree) (blk b e i : Nat), TreeIdsOK t →
      TreeIdsOK (Tree.release_ fuel t blk b e i).1 := by
  intro fuel
  induction fuel with
  | zero => intro t _ _ _ _ ht; exact ht
  | succ fuel ih =>
    intro t blk b e i ht
    rw [Tree.release_]
    by_cases hi : i = NULL_NODE
    · rw [if_pos hi]; exact ht
    rw [if_neg hi]
    cases hnode : t.read_node i with
    | internal h0 f0 cut l r =>
      simp only [hnode]
      by_cases hblk : blk < cut
      · rw [if_pos hblk]
        exact collapse_ids _ i h0 cut _ r (ih t blk b cut l ht)
      · rw [if_neg hblk]
        exact collapse_ids _ i h0 cut l _ (ih t blk cut e r ht)
    | leaf ext h0 =>
      simp only [hnode]
      by_cases hcur : (t.readExtent ext).cursor = (t.readExtent ext).end_
      · rw [if_pos hcur]
        exact treeIdsOK_congr t _ rfl rfl ht
      · rw [if_neg hcur]
        exact treeIdsOK_write_node t i _ ht (fun e1 h1 heq => by
          injection heq with he1 hh1
          rw [← he1]
          exact ht i ext h0 hnode)

theorem release_tree_ids (t : Tree) (x : Nat) (ht : TreeIdsOK t) :
    TreeIdsOK (t.release x) := by
  unfold Tree.release
  exact treeIdsOK_congr
    (Tree.release_ (t.nodes.length + 1) t (t.readExtent x).begin 0 t.nr_blocks t.root).1
    _ rfl rfl
    (release_ids (t.nodes.length + 1) t (t.readExtent x).begin 0 t.nr_blocks t.root ht)

end ExtentAlloc

namespace ExtentAlloc

/-! ### A chain representation determines the registered walks -/

theorem forall2_imp_mem {α β : Type} {R S : α → β → Prop} :
    ∀ {l1 : List α} {l2 : List β}, List.Forall₂ R l1 l2 →
      (∀ a ∈ l1, ∀ b ∈ l2, R a b → S a b) → List.Forall₂ S l1 l2 := by
  intro l1 l2 h
  induction h with
  | nil => intro _; exact List.Forall₂.nil
  | cons hR htail ih =>
    intro himp
    exact List.Forall₂.cons
      (himp _ (List.mem_cons_self _ _) _ (List.mem_cons_self _ _) hR)
      (ih (fun a ha b hb hr =>
        himp a (List.mem_cons_of_mem _ ha) b (List.mem_cons_of_mem _ hb) hr))

theorem forall2_chainwalk_map (s : Allocator) (len : Nat) :
    ∀ (hold : List (Nat × Nat)) (chains : List (List Nat)),
      List.Forall₂ (ChainOK s) hold chains →
      (∀ ch ∈ chains, ch.Nodup) →
      (∀ ch ∈ chains, ∀ i ∈ ch, i < len) →
      hold.map (fun p => chainWalk s (len + 1) p.2) = chains := by
  intro hold
  induction hold with
  | nil =>
    intro chains hf _ _
    cases hf
    rfl
  | cons p rest ih =>
    intro chains hf hnd hbd
    cases hf with
    | @cons _ ch _ l2 hR htail =>
      rw [List.map_cons]
      have hchnd := hnd ch (List.mem_cons_self _ _)
      have hchbd := hbd ch (List.mem_cons_self _ _)
      obtain ⟨hne, hhead, hprev, hlink, hmem⟩ := hR
      rw [chainWalk_of_linked s ch (len + 1) hlink
        (by have := length_le_of_nodup_lt ch len hchnd hchbd; omega) p.2
        hhead.symm hne]
      rw [ih l2 htail (fun c hm => hnd c (List.mem_cons_of_mem _ hm))
        (fun c hm => hbd c (List.mem_cons_of_mem _ hm))]

theorem chainRep_walks (s : Allocator) (chains : List (List Nat))
    (hr : ChainRep s chains) : s.chainWalks = chains := by
  unfold Allocator.chainWalks
  exact forall2_chainwalk_map s s.ctxs.length s.holders chains hr.pairs
    (fun ch hm => nodup_of_mem_flatten hr.nodupJ hm)
    (fun ch hm i hi => hr.bounds i (List.mem_flatten.mpr ⟨ch, hm, hi⟩))

theorem chainRep_sane (s : Allocator) (chains : List (List Nat))
    (hr : ChainRep s chains) : s.ChainsSane := by
  unfold Allocator.ChainsSane
  rw [chainRep_walks s chains hr]
  exact hr.nodupJ

theorem chainRep_integrity (s : Allocator) (chains : List (List Nat))
    (hr : ChainRep s chains) : ChainIntegrity s := by
  constructor
  · intro i j hnext
    by_cases hmem : i ∈ chains.flatten
    · obtain ⟨p, hp, ch, hch, hok, hich⟩ := forall2_flatten_mem hr.pairs i hmem
      exact linked_next_prev s ch hok.2.2.2.1 i hich j hnext
    · rw [(hr.nonMember i hmem).2] at hnext
      exact absurd hnext (by simp)
  · intro p hp
    obtain ⟨ch, hch, hok⟩ := forall2_mem_left hr.pairs p hp
    obtain ⟨hne, hhead, hprev, _, _⟩ := hok
    rw [hhead]
    exact hprev

/-! ### The invariant through `new`, `get_context`, `reset` and `resize` -/

theorem chainRep_empty_of_cleared (s' : Allocator)
    (hh : s'.holders = [])
    (hall : ∀ j, (s'.readCtx j).extent = none ∧ (s'.readCtx j).prev = none ∧
      (s'.readCtx j).next = none) :
    ChainRep s' [] := by
  refine ⟨?_, ?_, ?_, ?_, ?_, ?_, ?_⟩
  · rw [hh]; exact List.Forall₂.nil
  · simp
  · intro i hi; simp at hi
  · intro i hlt hext
    rw [(hall i).1] at hext
    simp at hext
  · rw [hh]; simp
  · intro i _
    exact ⟨(hall i).2.1, (hall i).2.2⟩
  · intro i e hext
    rw [(hall i).1] at hext
    exact absurd hext (by simp)

theorem allocInv_new (nb nn : Nat) : AllocInv (Allocator.new nb nn) := by
  refine ⟨treeIdsOK_new nb nn, [], chainRep_empty_of_cleared _ rfl ?_⟩
  intro j
  rw [readCtx_oob _ j (by simp [Allocator.new])]
  exact ⟨rfl, rfl, rfl⟩

theorem allocInv_get_context (s : Allocator) (h : AllocInv s) :
    AllocInv (s.get_context).1 := by
  obtain ⟨hids, chains, hr⟩ := h
  have hread : ∀ j, ((s.get_context).1).readCtx j =
      if j = s.ctxs.length then AllocContext.new else s.readCtx j :=
    fun j => readCtx_push s j
  have hlen : ((s.get_context).1).ctxs.length = s.ctxs.length + 1 := by
    show (s.ctxs ++ [AllocContext.new]).length = _
    simp
  refine ⟨hids, chains, ?_, hr.nodupJ, ?_, ?_, hr.keysNodup, ?_, ?_⟩
  · refine forall2_imp_mem hr.pairs (fun p hp ch hch hok => ?_)
    refine ChainOK_congr s _ p ch (fun j hj => ?_) (fun e => rfl) hok
    rw [hread j, if_neg (by
      have := hr.bounds j (List.mem_flatten.mpr ⟨ch, hch, hj⟩)
      omega)]
  · intro i hi
    rw [hlen]
    have := hr.bounds i hi
    omega
  · intro i hlt hext
    rw [hread i] at hext
    by_cases hie : i = s.ctxs.length
    · rw [if_pos hie] at hext
      simp [AllocContext.new] at hext
    · rw [if_neg hie] at hext
      exact hr.complete i (by rw [hlen] at hlt; omega) hext
  · intro i hmem
    rw [hread i]
    by_cases hie : i = s.ctxs.length
    · rw [if_pos hie]
      exact ⟨rfl, rfl⟩
    · rw [if_neg hie]
      exact hr.nonMember i hmem
  · intro i e hext
    rw [hread i] at hext
    by_cases hie : i = s.ctxs.length
    · rw [if_pos hie] at hext
      exact absurd hext (by simp [AllocContext.new])
    · rw [if_neg hie] at hext
      exact hr.extBound i e hext

theorem allocInv_reset_all (s : Allocator) (chains : List (List Nat))
    (hr : ChainRep s chains) (j : Nat) :
    ((s.reset_all_contexts).readCtx j).extent = none ∧
      ((s.reset_all_contexts).readCtx j).prev = none ∧
      ((s.reset_all_contexts).readCtx j).next = none := by
  have hclear := reset_all_contexts_clear s (chainRep_sane s chains hr) j
  rw [chainRep_walks s chains hr] at hclear
  by_cases hmem : j ∈ chains.flatten
  · rw [hclear, if_pos hmem]
    exact ⟨rfl, rfl, rfl⟩
  · rw [hclear, if_neg hmem]
    by_cases hlt : j < s.ctxs.length
    · refine ⟨?_, (hr.nonMember j hmem).1, (hr.nonMember j hmem).2⟩
      cases hext : (s.readCtx j).extent with
      | none => rfl
      | some e => exact absurd (hr.complete j hlt (by rw [hext]; rfl)) hmem
    · rw [readCtx_oob s j (by omega)]
      exact ⟨rfl, rfl, rfl⟩

theorem allocInv_reset (s : Allocator) (h : AllocInv s) : AllocInv (s.reset) := by
  obtain ⟨hids, chains, hr⟩ := h
  refine ⟨?_, [], chainRep_empty_of_cleared _ ?_ ?_⟩
  · show TreeIdsOK ((s.reset_all_contexts).extents.resize
      (s.reset_all_contexts).extents.nr_blocks)
    exact treeIdsOK_resize _ _
  · exact reset_all_contexts_holders s
  · intro j
    exact allocInv_reset_all s chains hr j

theorem allocInv_resize (s : Allocator) (N : Nat) (h : AllocInv s) :
    AllocInv (s.resize N) := by
  obtain ⟨hids, chains, hr⟩ := h
  refine ⟨?_, [], chainRep_empty_of_cleared _ ?_ ?_⟩
  · show TreeIdsOK ((s.reset_all_contexts).extents.resize N)
    exact treeIdsOK_resize _ _
  · exact reset_all_contexts_holders s
  · intro j
    exact allocInv_reset_all s chains hr j

end ExtentAlloc

namespace ExtentAlloc

/-! ### One-step forms of `remove_holder` and `put_context` -/

theorem remove_holder_none_none (s : Allocator) (eb c : Nat)
    (hp : (s.readCtx c).prev = none) (hn : (s.readCtx c).next = none) :
    s.remove_holder eb c =
      { s.writeCtx c { s.readCtx c with prev := none, next := none } with
        holders := mapRemove s.holders eb } := by
  unfold Allocator.remove_holder
  simp only [hp, hn]
  rfl

theorem remove_holder_none_some (s : Allocator) (eb c nx : Nat)
    (hp : (s.readCtx c).prev = none) (hn : (s.readCtx c).next = some nx)
    (hfind : (mapFind s.holders eb).isSome = true) :
    s.remove_holder eb c =
      (let s0 := s.writeCtx c { s.readCtx c with prev := none, next := none }
       let s1 := s0.writeCtx nx { s0.readCtx nx with prev := none }
       { s1 with holders := mapSet s.holders eb nx }) := by
  unfold Allocator.remove_holder
  simp only [hp, hn]
  rw [if_pos (show (mapFind (s.writeCtx c _).holders eb).isSome = true from hfind)]
  rfl

theorem remove_holder_some (s : Allocator) (eb c pp : Nat) (nxOpt : Option Nat)
    (hp : (s.readCtx c).prev = some pp) (hn : (s.readCtx c).next = nxOpt) :
    s.remove_holder eb c =
      (let s0 := s.writeCtx c { s.readCtx c with prev := none, next := none }
       let s1 := s0.writeCtx pp { s0.readCtx pp with next := nxOpt }
       match nxOpt with
       | some nx => s1.writeCtx nx { s1.readCtx nx with prev := some pp }
       | none => s1) := by
  unfold Allocator.remove_holder
  simp only [hp, hn]
  cases nxOpt <;> rfl

theorem put_context_some (s : Allocator) (c e : Nat)
    (hext : (s.readCtx c).extent = some e) :
    s.put_context c =
      (let s0 := s.writeCtx c { s.readCtx c with extent := none }
       let eb := (s0.extents.readExtent e).begin
       let s1 := s0.remove_holder eb c
       { s1 with extents := s1.extents.release e }) := by
  unfold Allocator.put_context
  simp only [hext]

theorem put_context_none (s : Allocator) (c : Nat)
    (hext : (s.readCtx c).extent = none) : s.put_context c = s := by
  unfold Allocator.put_context
  simp only [hext]

end ExtentAlloc

namespace ExtentAlloc

/-! ### Surgery on the chain list: dropping one context or one chain -/

theorem forall2_append {α β : Type} {R : α → β → Prop} :
    ∀ {l1 : List α} {l2 : List β} {l3 : List α} {l4 : List β},
      List.Forall₂ R l1 l2 → List.Forall₂ R l3 l4 →
      List.Forall₂ R (l1 ++ l3) (l2 ++ l4) := by
  intro l1 l2 l3 l4 h1 h2
  induction h1 with
  | nil => exact h2
  | cons hR _ ih => exact List.Forall₂.cons hR ih

theorem sublist_flatten_middle {C1 C2 : List (List Nat)} {ch chp : List Nat}
    (hsub : List.Sublist chp ch) :
    List.Sublist (C1 ++ chp :: C2).flatten (C1 ++ ch :: C2).flatten := by
  rw [List.flatten_append, List.flatten_append, List.flatten_cons, List.flatten_cons]
  exact List.Sublist.append_left (List.Sublist.append_right hsub C2.flatten) C1.flatten

theorem mem_flatten_middle_iff (C1 C2 : List (List Nat)) (ch : List Nat) (j : Nat) :
    j ∈ (C1 ++ ch :: C2).flatten ↔ j ∈ C1.flatten ∨ j ∈ ch ∨ j ∈ C2.flatten := by
  simp [List.flatten_append, List.flatten_cons, List.mem_append]

theorem nodup_three_disjoint {x mid y : List Nat} (hnd : (x ++ (mid ++ y)).Nodup) :
    ∀ j, (j ∈ x ∨ j ∈ y) → ∀ c ∈ mid, j ≠ c := by
  intro j hj c hc hjc
  subst hjc
  rcases hj with hj | hj
  · exact (List.nodup_append.mp hnd).2.2 hj (List.mem_append.mpr (Or.inl hc))
  · exact (List.nodup_append.mp (List.nodup_append.mp hnd).2.1).2.2 hc hj

theorem flatten_middle_nodup {C1 C2 : List (List Nat)} {ch : List Nat}
    (hnd : (C1 ++ ch :: C2).flatten.Nodup) :
    (C1.flatten ++ (ch ++ C2.flatten)).Nodup := by
  rw [List.flatten_append, List.flatten_cons] at hnd
  exact hnd

theorem chainRep_remove_mid (s sp : Allocator)
    (C1 C2 : List (List Nat)) (H1 H2 : List (Nat × Nat))
    (ch chp : List Nat) (p pp : Nat × Nat) (c : Nat)
    (hr : ChainRep s (C1 ++ ch :: C2))
    (hhold : s.holders = H1 ++ p :: H2)
    (hf1 : List.Forall₂ (ChainOK s) H1 C1)
    (hf2 : List.Forall₂ (ChainOK s) H2 C2)
    (hsub : List.Sublist chp ch)
    (hchm : ∀ j ∈ ch, j ∈ chp ∨ j = c)
    (hcch : c ∈ ch)
    (hcnot : c ∉ chp)
    (hlen : sp.ctxs.length = s.ctxs.length)
    (hpool : sp.extents.extents = s.extents.extents)
    (hothers : ∀ j, j ∈ C1.flatten ∨ j ∈ C2.flatten → sp.readCtx j = s.readCtx j)
    (hoff : ∀ j, j ∉ (C1 ++ ch :: C2).flatten → sp.readCtx j = s.readCtx j)
    (hcclear : (sp.readCtx c).extent = none ∧ (sp.readCtx c).prev = none ∧
      (sp.readCtx c).next = none)
    (hmemext : ∀ j ∈ chp, (sp.readCtx j).extent = (s.readCtx j).extent)
    (hokp : ChainOK sp pp chp)
    (hnew : sp.holders = H1 ++ pp :: H2)
    (hkey : pp.1 = p.1) :
    ChainRep sp (C1 ++ chp :: C2) := by
  have hbeg : ∀ e, (sp.extents.readExtent e).begin = (s.extents.readExtent e).begin :=
    fun e => by simp [Tree.readExtent, hpool]
  have hne_mid : ∀ j, (j ∈ C1.flatten ∨ j ∈ C2.flatten) → ∀ x ∈ ch, j ≠ x :=
    nodup_three_disjoint (flatten_middle_nodup hr.nodupJ)
  have hmemold : ∀ j, j ∈ (C1 ++ chp :: C2).flatten → j ∈ (C1 ++ ch :: C2).flatten :=
    fun j hj => List.Sublist.mem hj (sublist_flatten_middle hsub)
  have hcongr1 : List.Forall₂ (ChainOK sp) H1 C1 := by
    refine forall2_imp_mem hf1 (fun q hq chq hchq hok => ?_)
    refine ChainOK_congr s sp q chq (fun j hj => ?_) hbeg hok
    exact hothers j (Or.inl (List.mem_flatten.mpr ⟨chq, hchq, hj⟩))
  have hcongr2 : List.Forall₂ (ChainOK sp) H2 C2 := by
    refine forall2_imp_mem hf2 (fun q hq chq hchq hok => ?_)
    refine ChainOK_congr s sp q chq (fun j hj => ?_) hbeg hok
    exact hothers j (Or.inr (List.mem_flatten.mpr ⟨chq, hchq, hj⟩))
  refine ⟨?_, ?_, ?_, ?_, ?_, ?_, ?_⟩
  · rw [hnew]
    exact forall2_append hcongr1 (List.Forall₂.cons hokp hcongr2)
  · exact hr.nodupJ.sublist (sublist_flatten_middle hsub)
  · intro i hi
    rw [hlen]
    exact hr.bounds i (hmemold i hi)
  · intro i hlt hext
    by_cases hold : i ∈ (C1 ++ ch :: C2).flatten
    · rcases (mem_flatten_middle_iff C1 C2 ch i).mp hold with h1 | h1 | h1
      · exact (mem_flatten_middle_iff C1 C2 chp i).mpr (Or.inl h1)
      · rcases hchm i h1 with h2 | h2
        · exact (mem_flatten_middle_iff C1 C2 chp i).mpr (Or.inr (Or.inl h2))
        · rw [h2, hcclear.1] at hext
          simp at hext
      · exact (mem_flatten_middle_iff C1 C2 chp i).mpr (Or.inr (Or.inr h1))
    · rw [hoff i hold] at hext
      exact absurd (hr.complete i (by rw [hlen] at hlt; exact hlt) hext) hold
  · have hkeys : sp.holders.map Prod.fst = s.holders.map Prod.fst := by
      rw [hnew, hhold]
      simp [hkey]
    rw [hkeys]
    exact hr.keysNodup
  · intro i hmem
    by_cases hic : i = c
    · rw [hic]
      exact ⟨hcclear.2.1, hcclear.2.2⟩
    · have hioff : i ∉ (C1 ++ ch :: C2).flatten := by
        intro hold
        rcases (mem_flatten_middle_iff C1 C2 ch i).mp hold with h1 | h1 | h1
        · exact hmem ((mem_flatten_middle_iff C1 C2 chp i).mpr (Or.inl h1))
        · rcases hchm i h1 with h2 | h2
          · exact hmem ((mem_flatten_middle_iff C1 C2 chp i).mpr (Or.inr (Or.inl h2)))
          · exact hic h2
        · exact hmem ((mem_flatten_middle_iff C1 C2 chp i).mpr (Or.inr (Or.inr h1)))
      rw [hoff i hioff]
      exact hr.nonMember i hioff
  · intro i e hext
    rw [show sp.extents.extents.length = s.extents.extents.length from by rw [hpool]]
    by_cases hic : i = c
    · rw [hic, hcclear.1] at hext
      exact absurd hext (by simp)
    · by_cases hold : i ∈ (C1 ++ ch :: C2).flatten
      · rcases (mem_flatten_middle_iff C1 C2 ch i).mp hold with h1 | h1 | h1
        · rw [hothers i (Or.inl h1)] at hext
          exact hr.extBound i e hext
        · rcases hchm i h1 with h2 | h2
          · rw [hmemext i h2] at hext
            exact hr.extBound i e hext
          · exact absurd h2 hic
        · rw [hothers i (Or.inr h1)] at hext
          exact hr.extBound i e hext
      · rw [hoff i hold] at hext
        exact hr.extBound i e hext

theorem chainRep_remove_chain (s sp : Allocator)
    (C1 C2 : List (List Nat)) (H1 H2 : List (Nat × Nat)) (p : Nat × Nat) (c : Nat)
    (hr : ChainRep s (C1 ++ [c] :: C2))
    (hhold : s.holders = H1 ++ p :: H2)
    (hf1 : List.Forall₂ (ChainOK s) H1 C1)
    (hf2 : List.Forall₂ (ChainOK s) H2 C2)
    (hlen : sp.ctxs.length = s.ctxs.length)
    (hpool : sp.extents.extents = s.extents.extents)
    (hothers : ∀ j, j ∈ C1.flatten ∨ j ∈ C2.flatten → sp.readCtx j = s.readCtx j)
    (hoff : ∀ j, j ∉ (C1 ++ [c] :: C2).flatten → sp.readCtx j = s.readCtx j)
    (hcclear : (sp.readCtx c).extent = none ∧ (sp.readCtx c).prev = none ∧
      (sp.readCtx c).next = none)
    (hnew : sp.holders = H1 ++ H2) :
    ChainRep sp (C1 ++ C2) := by
  have hbeg : ∀ e, (sp.extents.readExtent e).begin = (s.extents.readExtent e).begin :=
    fun e => by simp [Tree.readExtent, hpool]
  have hmemold : ∀ j, j ∈ (C1 ++ C2).flatten → j ∈ (C1 ++ [c] :: C2).flatten := by
    intro j hj
    rw [List.flatten_append] at hj
    rcases List.mem_append.mp hj with h | h
    · exact (mem_flatten_middle_iff C1 C2 [c] j).mpr (Or.inl h)
    · exact (mem_flatten_middle_iff C1 C2 [c] j).mpr (Or.inr (Or.inr h))
  have hcongr1 : List.Forall₂ (ChainOK sp) H1 C1 := by
    refine forall2_imp_mem hf1 (fun q hq chq hchq hok => ?_)
    refine ChainOK_congr s sp q chq (fun j hj => ?_) hbeg hok
    exact hothers j (Or.inl (List.mem_flatten.mpr ⟨chq, hchq, hj⟩))
  have hcongr2 : List.Forall₂ (ChainOK sp) H2 C2 := by
    refine forall2_imp_mem hf2 (fun q hq chq hchq hok => ?_)
    refine ChainOK_congr s sp q chq (fun j hj => ?_) hbeg hok
    exact hothers j (Or.inr (List.mem_flatten.mpr ⟨chq, hchq, hj⟩))
  have hnodup : (C1 ++ C2).flatten.Nodup := by
    refine hr.nodupJ.sublist ?_
    rw [List.flatten_append, List.flatten_append, List.flatten_cons]
    exact List.Sublist.append_left (List.sublist_append_right _ _) C1.flatten
  refine ⟨?_, hnodup, ?_, ?_, ?_, ?_, ?_⟩
  · rw [hnew]
    exact forall2_append hcongr1 hcongr2
  · intro i hi
    rw [hlen]
    exact hr.bounds i (hmemold i hi)
  · intro i hlt hext
    by_cases hold : i ∈ (C1 ++ [c] :: C2).flatten
    · rcases (mem_flatten_middle_iff C1 C2 [c] i).mp hold with h1 | h1 | h1
      · rw [List.flatten_append]
        exact List.mem_append.mpr (Or.inl h1)
      · have hic : i = c := by simpa using h1
        rw [hic, hcclear.1] at hext
        simp at hext
      · rw [List.flatten_append]
        exact List.mem_append.mpr (Or.inr h1)
    · rw [hoff i hold] at hext
      exact absurd (hr.complete i (by rw [hlen] at hlt; exact hlt) hext) hold
  · have hkeys : sp.holders.map Prod.fst =
        (H1.map Prod.fst) ++ (H2.map Prod.fst) := by
      rw [hnew, List.map_append]
    rw [hkeys]
    have := hr.keysNodup
    rw [hhold, List.map_append, List.map_cons] at this
    exact nodup_middle_remove this
  · intro i hmem
    by_cases hic : i = c
    · rw [hic]
      exact ⟨hcclear.2.1, hcclear.2.2⟩
    · have hioff : i ∉ (C1 ++ [c] :: C2).flatten := by
        intro hold
        rcases (mem_flatten_middle_iff C1 C2 [c] i).mp hold with h1 | h1 | h1
        · exact hmem (by rw [List.flatten_append]; exact List.mem_append.mpr (Or.inl h1))
        · exact hic (by simpa using h1)
        · exact hmem (by rw [List.flatten_append]; exact List.mem_append.mpr (Or.inr h1))
      rw [hoff i hioff]
      exact hr.nonMember i hioff
  · intro i e hext
    rw [show sp.extents.extents.length = s.extents.extents.length from by rw [hpool]]
    by_cases hic : i = c
    · rw [hic, hcclear.1] at hext
      exact absurd hext (by simp)
    · by_cases hold : i ∈ (C1 ++ [c] :: C2).flatten
      · rcases (mem_flatten_middle_iff C1 C2 [c] i).mp hold with h1 | h1 | h1
        · rw [hothers i (Or.inl h1)] at hext
          exact hr.extBound i e hext
        · exact absurd (by simpa using h1) hic
        · rw [hothers i (Or.inr h1)] at hext
          exact hr.extBound i e hext
      · rw [hoff i hold] at hext
        exact hr.extBound i e hext

end ExtentAlloc

namespace ExtentAlloc

/-! ### The chain representation through `put_context`, case by case -/

theorem head?_mem (l : List Nat) (a : Nat) (h : l.head? = some a) : a ∈ l := by
  cases l with
  | nil => simp at h
  | cons x xs =>
    have hx : x = a := by simpa using h
    exact hx ▸ List.mem_cons_self x xs

theorem putChain_single (s G : Allocator) (c : Nat)
    (C1 C2 : List (List Nat)) (H1 H2 : List (Nat × Nat)) (p : Nat × Nat)
    (hr : ChainRep s (C1 ++ [c] :: C2))
    (hhold : s.holders = H1 ++ p :: H2)
    (hf1 : List.Forall₂ (ChainOK s) H1 C1)
    (hf2 : List.Forall₂ (ChainOK s) H2 C2)
    (hGlen : G.ctxs.length = s.ctxs.length)
    (hGpool : G.extents.extents = s.extents.extents)
    (hGread : ∀ j, G.readCtx j =
      if j = c then AllocContext.mk none none none else s.readCtx j)
    (hGhold : G.holders = mapRemove s.holders p.1) :
    ChainRep G (C1 ++ C2) := by
  have hndkeys : ((H1 ++ (p.1, p.2) :: H2).map Prod.fst).Nodup := by
    have hkn := hr.keysNodup
    rw [hhold] at hkn
    exact hkn
  obtain ⟨hk1, hk2⟩ := keys_ne_of_nodup H1 p.1 p.2 H2 hndkeys
  have hne_mid := nodup_three_disjoint (flatten_middle_nodup hr.nodupJ)
  refine chainRep_remove_chain s G C1 C2 H1 H2 p c hr hhold hf1 hf2 hGlen hGpool
    ?_ ?_ ?_ ?_
  · intro j hj
    rw [hGread j, if_neg (hne_mid j hj c (List.mem_cons_self _ _))]
  · intro j hj
    rw [hGread j, if_neg (fun hjc => hj (by
      rw [hjc]
      exact (mem_flatten_middle_iff C1 C2 [c] c).mpr
        (Or.inr (Or.inl (List.mem_cons_self _ _)))))]
  · rw [hGread c, if_pos rfl]
    exact ⟨rfl, rfl, rfl⟩
  · rw [hGhold, hhold]
    exact mapRemove_append H1 p.1 p.2 H2 hk1 hk2

theorem putChain_head (s G : Allocator) (c nx : Nat) (wp : List Nat)
    (C1 C2 : List (List Nat)) (H1 H2 : List (Nat × Nat)) (p : Nat × Nat)
    (hr : ChainRep s (C1 ++ (c :: nx :: wp) :: C2))
    (hhold : s.holders = H1 ++ p :: H2)
    (hf1 : List.Forall₂ (ChainOK s) H1 C1)
    (hf2 : List.Forall₂ (ChainOK s) H2 C2)
    (hok : ChainOK s p (c :: nx :: wp))
    (hGlen : G.ctxs.length = s.ctxs.length)
    (hGpool : G.extents.extents = s.extents.extents)
    (hGread : ∀ j, G.readCtx j =
      if j = nx then { s.readCtx nx with prev := none }
      else if j = c then AllocContext.mk none none none else s.readCtx j)
    (hGhold : G.holders = mapSet s.holders p.1 nx) :
    ChainRep G (C1 ++ (nx :: wp) :: C2) := by
  obtain ⟨hne, hhead, hprevh, hlink, hmem⟩ := hok
  have hchnd : (c :: nx :: wp).Nodup :=
    nodup_of_mem_flatten hr.nodupJ
      (List.mem_append.mpr (Or.inr (List.mem_cons_self _ _)))
  have hcw : c ∉ nx :: wp := (List.nodup_cons.mp hchnd).1
  have hcnx : ¬ c = nx := fun hh => hcw (hh ▸ List.mem_cons_self _ _)
  have hnxw : nx ∉ wp := (List.nodup_cons.mp (List.nodup_cons.mp hchnd).2).1
  have hndkeys : ((H1 ++ (p.1, p.2) :: H2).map Prod.fst).Nodup := by
    have hkn := hr.keysNodup
    rw [hhold] at hkn
    exact hkn
  obtain ⟨hk1, hk2⟩ := keys_ne_of_nodup H1 p.1 p.2 H2 hndkeys
  have hne_mid := nodup_three_disjoint (flatten_middle_nodup hr.nodupJ)
  have hokp : ChainOK G (p.1, nx) (nx :: wp) := by
    refine ⟨by simp, rfl, ?_, ?_, ?_⟩
    · show (G.readCtx ((nx :: wp).headD 0)).prev = none
      rw [show (nx :: wp).headD 0 = nx from rfl, hGread nx, if_pos rfl]
    · refine linked_tail_congr s G nx wp ?_ ?_
        (linked_tail s c (nx :: wp) hlink (by simp))
      · intro j hj
        rw [hGread j]
        by_cases hjnx : j = nx
        · rw [if_pos hjnx, hjnx]
        · rw [if_neg hjnx, if_neg (fun hjc : j = c => hcw (hjc ▸ hj))]
      · intro j hj
        rw [hGread j, if_neg (fun hh : j = nx => hnxw (hh ▸ hj)),
          if_neg (fun hh : j = c => hcw (hh ▸ List.mem_cons_of_mem _ hj))]
    · intro i hi
      obtain ⟨e1, he1, he2⟩ := hmem i (List.mem_cons_of_mem _ hi)
      refine ⟨e1, ?_, ?_⟩
      · rw [hGread i]
        by_cases hinx : i = nx
        · rw [if_pos hinx]
          show (s.readCtx nx).extent = some e1
          rw [← hinx]
          exact he1
        · rw [if_neg hinx, if_neg (fun hh : i = c => hcw (hh ▸ hi))]
          exact he1
      · rw [show (G.extents.readExtent e1).begin = (s.extents.readExtent e1).begin
          from by simp [Tree.readExtent, hGpool]]
        exact he2
  refine chainRep_remove_mid s G C1 C2 H1 H2 (c :: nx :: wp) (nx :: wp) p (p.1, nx) c
    hr hhold hf1 hf2 (List.sublist_cons_self c (nx :: wp)) ?_
    (List.mem_cons_self _ _) hcw hGlen hGpool ?_ ?_ ?_ ?_ hokp ?_ rfl
  · intro j hj
    rcases List.mem_cons.mp hj with h1 | h1
    · exact Or.inr h1
    · exact Or.inl h1
  · intro j hj
    rw [hGread j,
      if_neg (hne_mid j hj nx (List.mem_cons_of_mem _ (List.mem_cons_self _ _))),
      if_neg (hne_mid j hj c (List.mem_cons_self _ _))]
  · intro j hj
    have hjc : ¬ j = c := fun hh => hj (by
      rw [hh]
      exact (mem_flatten_middle_iff C1 C2 _ c).mpr
        (Or.inr (Or.inl (List.mem_cons_self _ _))))
    have hjnx : ¬ j = nx := fun hh => hj (by
      rw [hh]
      exact (mem_flatten_middle_iff C1 C2 _ nx).mpr (Or.inr (Or.inl
        (List.mem_cons_of_mem _ (List.mem_cons_self _ _)))))
    rw [hGread j, if_neg hjnx, if_neg hjc]
  · rw [hGread c, if_neg hcnx, if_pos rfl]
    exact ⟨rfl, rfl, rfl⟩
  · intro j hj
    rw [hGread j]
    by_cases hjnx : j = nx
    · rw [if_pos hjnx, hjnx]
    · rw [if_neg hjnx, if_neg (fun hh : j = c => hcw (hh ▸ hj))]
  · rw [hGhold, hhold]
    exact mapSet_append H1 p.1 p.2 nx H2 hk1 hk2

theorem putChain_mid (s G : Allocator) (c pprev : Nat) (u w : List Nat)
    (C1 C2 : List (List Nat)) (H1 H2 : List (Nat × Nat)) (p : Nat × Nat)
    (hr : ChainRep s (C1 ++ ((u ++ [pprev]) ++ c :: w) :: C2))
    (hhold : s.holders = H1 ++ p :: H2)
    (hf1 : List.Forall₂ (ChainOK s) H1 C1)
    (hf2 : List.Forall₂ (ChainOK s) H2 C2)
    (hok : ChainOK s p ((u ++ [pprev]) ++ c :: w))
    (hGlen : G.ctxs.length = s.ctxs.length)
    (hGpool : G.extents.extents = s.extents.extents)
    (hGread : ∀ j, G.readCtx j =
      if w.head? = some j then { s.readCtx j with prev := some pprev }
      else if j = pprev then { s.readCtx pprev with next := w.head? }
      else if j = c then AllocContext.mk none none none else s.readCtx j)
    (hGhold : G.holders = s.holders) :
    ChainRep G (C1 ++ ((u ++ [pprev]) ++ w) :: C2) := by
  obtain ⟨hne, hhead, hprevh, hlink, hmem⟩ := hok
  have hchnd : ((u ++ [pprev]) ++ c :: w).Nodup :=
    nodup_of_mem_flatten hr.nodupJ
      (List.mem_append.mpr (Or.inr (List.mem_cons_self _ _)))
  have hcmemch : c ∈ (u ++ [pprev]) ++ c :: w :=
    List.mem_append.mpr (Or.inr (List.mem_cons_self _ _))
  have hnd1 := List.nodup_append.mp hchnd
  have hppnc : ¬ pprev = c := fun hh =>
    hnd1.2.2 (List.mem_append.mpr (Or.inr (List.mem_cons_self _ _)))
      (by rw [hh]; exact List.mem_cons_self _ _)
  have hppnw : pprev ∉ w := fun hh =>
    hnd1.2.2 (List.mem_append.mpr (Or.inr (List.mem_cons_self _ _)))
      (List.mem_cons_of_mem _ hh)
  have hcnw : c ∉ w := (List.nodup_cons.mp hnd1.2.1).1
  have hwnd : w.Nodup := (List.nodup_cons.mp hnd1.2.1).2
  have hunotc : ∀ j ∈ u, ¬ j = c := fun j hj hh =>
    hnd1.2.2 (List.mem_append.mpr (Or.inl hj))
      (by rw [hh]; exact List.mem_cons_self _ _)
  have hunotw : ∀ j ∈ u, j ∉ w := fun j hj hh =>
    hnd1.2.2 (List.mem_append.mpr (Or.inl hj)) (List.mem_cons_of_mem _ hh)
  have hunotpp : ∀ j ∈ u, ¬ j = pprev := by
    intro j hj hh
    have hdis := (List.nodup_append.mp hnd1.1).2.2 hj
    rw [hh] at hdis
    exact hdis (List.mem_cons_self _ _)
  have hne2 : u ++ [pprev] ≠ [] := by simp
  have hGother : ∀ j, ¬ j = c → ¬ j = pprev → j ∉ w → G.readCtx j = s.readCtx j := by
    intro j h1 h2 h3
    rw [hGread j, if_neg (fun hh => h3 (head?_mem w j hh)), if_neg h2, if_neg h1]
  have hGpp : G.readCtx pprev = { s.readCtx pprev with next := w.head? } := by
    rw [hGread pprev, if_neg (fun hh => hppnw (head?_mem w pprev hh)), if_pos rfl]
  have hGc : G.readCtx c = AllocContext.mk none none none := by
    rw [hGread c, if_neg (fun hh => hcnw (head?_mem w c hh)),
      if_neg (fun hh => hppnc hh.symm), if_pos rfl]
  have hGext : ∀ j, ¬ j = c → (G.readCtx j).extent = (s.readCtx j).extent := by
    intro j h1
    rw [hGread j]
    by_cases hh : w.head? = some j
    · rw [if_pos hh]
    · rw [if_neg hh]
      by_cases h2 : j = pprev
      · rw [if_pos h2, h2]
      · rw [if_neg h2, if_neg h1]
  have hine_c : ∀ i ∈ (u ++ [pprev]) ++ w, ¬ i = c := by
    intro i hi hh
    subst hh
    rcases List.mem_append.mp hi with h1 | h1
    · rcases List.mem_append.mp h1 with h2 | h2
      · exact hunotc _ h2 rfl
      · exact hppnc (Eq.symm (by simpa using h2))
    · exact hcnw h1
  have hmem_sub : ∀ i ∈ (u ++ [pprev]) ++ w, i ∈ (u ++ [pprev]) ++ c :: w := by
    intro i hi
    rcases List.mem_append.mp hi with h1 | h1
    · exact List.mem_append.mpr (Or.inl h1)
    · exact List.mem_append.mpr (Or.inr (List.mem_cons_of_mem _ h1))
  have hprevh2 : (s.readCtx ((u ++ [pprev]).headD 0)).prev = none := by
    rw [headD_append 0 hne2] at hprevh
    exact hprevh
  have hGprev_agree : ∀ j ∈ u ++ [pprev], (G.readCtx j).prev = (s.readCtx j).prev := by
    intro j hj
    rcases List.mem_append.mp hj with hju | hjp
    · rw [hGother j (hunotc j hju) (hunotpp j hju) (hunotw j hju)]
    · have hjpp : j = pprev := by simpa using hjp
      rw [hjpp, hGpp]
  have hokp : ChainOK G p ((u ++ [pprev]) ++ w) := by
    refine ⟨by simp, ?_, ?_, ?_, ?_⟩
    · rw [headD_append 0 hne2]
      rw [headD_append 0 hne2] at hhead
      exact hhead
    · rw [headD_append 0 hne2]
      rw [hGprev_agree _ (headD_mem hne2)]
      exact hprevh2
    · refine linked_splice s G pprev c u w hlink ?_ ?_ ?_ ?_ ?_ ?_
      · rw [hGpp]
      · rw [hGpp]
      · intro j hj
        exact hGother j (hunotc j hj) (hunotpp j hj) (hunotw j hj)
      · intro j hj
        rw [hGread j]
        by_cases hh : w.head? = some j
        · rw [if_pos hh]
        · rw [if_neg hh, if_neg (fun h2 : j = pprev => hppnw (h2 ▸ hj)),
            if_neg (fun h2 : j = c => hcnw (h2 ▸ hj))]
      · intro j hj
        cases w with
        | nil => simp at hj
        | cons nx wp =>
          have hjin : j ∈ wp := hj
          rw [hGread j,
            if_neg (fun hh => (List.nodup_cons.mp hwnd).1
              (by rw [show nx = j from by simpa using hh]; exact hjin)),
            if_neg (fun h2 : j = pprev => hppnw (h2 ▸ (List.mem_cons_of_mem _ hjin))),
            if_neg (fun h2 : j = c => hcnw (h2 ▸ (List.mem_cons_of_mem _ hjin)))]
      · intro nx hnx
        rw [hGread nx, if_pos hnx]
    · intro i hi
      obtain ⟨e1, he1, he2⟩ := hmem i (hmem_sub i hi)
      refine ⟨e1, ?_, ?_⟩
      · rw [hGext i (hine_c i hi)]
        exact he1
      · rw [show (G.extents.readExtent e1).begin = (s.extents.readExtent e1).begin
          from by simp [Tree.readExtent, hGpool]]
        exact he2
  have hne_mid := nodup_three_disjoint (flatten_middle_nodup hr.nodupJ)
  refine chainRep_remove_mid s G C1 C2 H1 H2 ((u ++ [pprev]) ++ c :: w)
    ((u ++ [pprev]) ++ w) p p c hr hhold hf1 hf2
    (List.Sublist.append_left (List.sublist_cons_self c w) (u ++ [pprev])) ?_
    hcmemch (fun hh => hine_c c hh rfl) hGlen hGpool ?_ ?_ ?_ ?_ hokp ?_ rfl
  · intro j hj
    rcases List.mem_append.mp hj with h1 | h1
    · exact Or.inl (List.mem_append.mpr (Or.inl h1))
    · rcases List.mem_cons.mp h1 with h2 | h2
      · exact Or.inr h2
      · exact Or.inl (List.mem_append.mpr (Or.inr h2))
  · intro j hj
    refine hGother j (hne_mid j hj c hcmemch)
      (hne_mid j hj pprev (List.mem_append.mpr (Or.inl
        (List.mem_append.mpr (Or.inr (List.mem_cons_self _ _)))))) ?_
    intro hw
    exact hne_mid j hj j (List.mem_append.mpr (Or.inr (List.mem_cons_of_mem _ hw))) rfl
  · intro j hj
    have hjch : ∀ x, x ∈ (u ++ [pprev]) ++ c :: w → ¬ j = x := by
      intro x hx hjx
      exact hj ((mem_flatten_middle_iff C1 C2 _ j).mpr (Or.inr (Or.inl (hjx ▸ hx))))
    refine hGother j (hjch c hcmemch)
      (hjch pprev (List.mem_append.mpr (Or.inl
        (List.mem_append.mpr (Or.inr (List.mem_cons_self _ _)))))) ?_
    intro hw
    exact hjch j (List.mem_append.mpr (Or.inr (List.mem_cons_of_mem _ hw))) rfl
  · rw [hGc]
    exact ⟨rfl, rfl, rfl⟩
  · intro j hj
    exact hGext j (hine_c j hj)
  · rw [hGhold]
    exact hhold

end ExtentAlloc

namespace ExtentAlloc

/-! ### The invariant through `put_context` -/

theorem readCtx_writeCtx2 (s : Allocator) (c : Nat) (x y : AllocContext)
    (hc : c < s.ctxs.length) (j : Nat) :
    ((s.writeCtx c x).writeCtx c y).readCtx j =
      if j = c then y else s.readCtx j := by
  rw [readCtx_writeCtx, readCtx_writeCtx]
  by_cases hjc : j = c
  · rw [if_pos (And.intro hjc (by rw [writeCtx_ctxs_length]; exact hc)), if_pos hjc]
  · rw [if_neg (fun hh => hjc hh.1), if_neg (fun hh => hjc hh.1), if_neg hjc]

theorem allocInv_put_context (s : Allocator) (c : Nat) (hc : c < s.ctxs.length)
    (h : AllocInv s) : AllocInv (s.put_context c) := by
  obtain ⟨hids, chains, hr⟩ := h
  cases hext : (s.readCtx c).extent with
  | none =>
    rw [put_context_none s c hext]
    exact ⟨hids, chains, hr⟩
  | some e =>
    have hcmem : c ∈ chains.flatten := hr.complete c hc (by rw [hext]; rfl)
    obtain ⟨ch, hchmem, hcch⟩ := List.mem_flatten.mp hcmem
    obtain ⟨C1, C2, hchains⟩ := List.append_of_mem hchmem
    subst hchains
    obtain ⟨H1, p, H2, hhold, hf1, hok, hf2⟩ :=
      forall2_append_decomp_right C1 s.holders ch C2 hr.pairs
    have hokK := hok
    obtain ⟨hne, hhead, hprevh, hlink, hmem⟩ := hok
    obtain ⟨e0, he01, he02⟩ := hmem c hcch
    rw [hext] at he01
    have he0eq : e0 = e := (Option.some.inj he01).symm
    rw [he0eq] at he02
    have hchnd : ch.Nodup := nodup_of_mem_flatten hr.nodupJ hchmem
    have hndkeys : ((H1 ++ (p.1, p.2) :: H2).map Prod.fst).Nodup := by
      have hkn := hr.keysNodup
      rw [hhold] at hkn
      exact hkn
    have hk1 := (keys_ne_of_nodup H1 p.1 p.2 H2 hndkeys).1
    obtain ⟨u0, w, hch⟩ := List.append_of_mem hcch
    subst hch
    have hc0 : (s.writeCtx c { s.readCtx c with extent := none }).readCtx c = { s.readCtx c with extent := none } := by
      rw [readCtx_writeCtx, if_pos (And.intro rfl hc)]
    have hvc : ({ (s.writeCtx c { s.readCtx c with extent := none }).readCtx c with prev := none, next := none } : AllocContext) = AllocContext.mk none none none := by
      rw [hc0]
    have hW2len : ((s.writeCtx c { s.readCtx c with extent := none }).writeCtx c { (s.writeCtx c { s.readCtx c with extent := none }).readCtx c with prev := none, next := none }).ctxs.length = s.ctxs.length :=
      (writeCtx_ctxs_length (s.writeCtx c { s.readCtx c with extent := none }) c { (s.writeCtx c { s.readCtx c with extent := none }).readCtx c with prev := none, next := none }).trans
        (writeCtx_ctxs_length s c { s.readCtx c with extent := none })
    rw [put_context_some s c e hext]
    show AllocInv
      { (s.writeCtx c { s.readCtx c with extent := none }).remove_holder (((s.writeCtx c { s.readCtx c with extent := none }).extents.readExtent e).begin) c with
        extents := ((s.writeCtx c { s.readCtx c with extent := none }).remove_holder (((s.writeCtx c { s.readCtx c with extent := none }).extents.readExtent e).begin) c).extents.release e }
    cases u0 with
    | nil =>
      simp only [List.nil_append] at hr hokK hhead hprevh hlink hchnd hchmem hmem
      have hprevc : (s.readCtx c).prev = none := hprevh
      have hp0 : ((s.writeCtx c { s.readCtx c with extent := none }).readCtx c).prev = none := by
        rw [hc0]
        exact hprevc
      cases w with
      | nil =>
        have hnextc : (s.readCtx c).next = none := hlink
        have hn0 : ((s.writeCtx c { s.readCtx c with extent := none }).readCtx c).next = none := by
          rw [hc0]
          exact hnextc
        rw [remove_holder_none_none _ _ c hp0 hn0]
        refine ⟨release_tree_ids s.extents e hids, C1 ++ C2,
          putChain_single s _ c C1 C2 H1 H2 p hr hhold hf1 hf2 ?_ ?_ ?_ ?_⟩
        · exact hW2len
        · exact release_pool_eq s.extents e
        · intro j
          have h2 := readCtx_writeCtx2 s c { s.readCtx c with extent := none } { (s.writeCtx c { s.readCtx c with extent := none }).readCtx c with prev := none, next := none } hc j
          exact h2.trans (by rw [hvc])
        · exact congrArg (fun b => mapRemove s.holders b) he02
      | cons nx wp =>
        have hnextc : (s.readCtx c).next = some nx := hlink.1
        have hn0 : ((s.writeCtx c { s.readCtx c with extent := none }).readCtx c).next = some nx := by
          rw [hc0]
          exact hnextc
        have hfindS : (mapFind s.holders (((s.writeCtx c { s.readCtx c with extent := none }).extents.readExtent e).begin)).isSome
            = true := by
          rw [show ((s.writeCtx c { s.readCtx c with extent := none }).extents.readExtent e).begin = p.1 from he02, hhold,
            mapFind_append_cons H1 p.1 p.2 H2 hk1]
          rfl
        rw [remove_holder_none_some _ _ c nx hp0 hn0 hfindS]
        have hnxbd : nx < s.ctxs.length := hr.bounds nx
          ((mem_flatten_middle_iff C1 C2 _ nx).mpr (Or.inr (Or.inl
            (List.mem_cons_of_mem _ (List.mem_cons_self _ _)))))
        have hnxc : ¬ nx = c := by
          intro hh
          exact (List.nodup_cons.mp hchnd).1 (hh ▸ List.mem_cons_self nx wp)
        refine ⟨release_tree_ids s.extents e hids, C1 ++ (nx :: wp) :: C2,
          putChain_head s _ c nx wp C1 C2 H1 H2 p hr hhold hf1 hf2 hokK
            ?_ ?_ ?_ ?_⟩
        · exact (writeCtx_ctxs_length ((s.writeCtx c { s.readCtx c with extent := none }).writeCtx c { (s.writeCtx c { s.readCtx c with extent := none }).readCtx c with prev := none, next := none }) nx
            { ((s.writeCtx c { s.readCtx c with extent := none }).writeCtx c { (s.writeCtx c { s.readCtx c with extent := none }).readCtx c with prev := none, next := none }).readCtx nx with prev := none }).trans hW2len
        · exact release_pool_eq s.extents e
        · intro j
          have hl1 := readCtx_writeCtx ((s.writeCtx c { s.readCtx c with extent := none }).writeCtx c { (s.writeCtx c { s.readCtx c with extent := none }).readCtx c with prev := none, next := none }) nx j { ((s.writeCtx c { s.readCtx c with extent := none }).writeCtx c { (s.writeCtx c { s.readCtx c with extent := none }).readCtx c with prev := none, next := none }).readCtx nx with prev := none }
          have hlen2 : nx < ((s.writeCtx c { s.readCtx c with extent := none }).writeCtx c { (s.writeCtx c { s.readCtx c with extent := none }).readCtx c with prev := none, next := none }).ctxs.length := by
            rw [hW2len]
            exact hnxbd
          have hznx : ((s.writeCtx c { s.readCtx c with extent := none }).writeCtx c { (s.writeCtx c { s.readCtx c with extent := none }).readCtx c with prev := none, next := none }).readCtx nx = s.readCtx nx :=
            (readCtx_writeCtx2 s c { s.readCtx c with extent := none } { (s.writeCtx c { s.readCtx c with extent := none }).readCtx c with prev := none, next := none } hc nx).trans
              (if_neg hnxc)
          by_cases hjnx : j = nx
          · have hstep : (((s.writeCtx c { s.readCtx c with extent := none }).writeCtx c { (s.writeCtx c { s.readCtx c with extent := none }).readCtx c with prev := none, next := none }).writeCtx nx { ((s.writeCtx c { s.readCtx c with extent := none }).writeCtx c { (s.writeCtx c { s.readCtx c with extent := none }).readCtx c with prev := none, next := none }).readCtx nx with prev := none }).readCtx j
                = { s.readCtx nx with prev := none } := by
              rw [hl1, if_pos (And.intro hjnx hlen2), hznx]
            exact hstep.trans (by rw [if_pos hjnx])
          · have hstep : (((s.writeCtx c { s.readCtx c with extent := none }).writeCtx c { (s.writeCtx c { s.readCtx c with extent := none }).readCtx c with prev := none, next := none }).writeCtx nx { ((s.writeCtx c { s.readCtx c with extent := none }).writeCtx c { (s.writeCtx c { s.readCtx c with extent := none }).readCtx c with prev := none, next := none }).readCtx nx with prev := none }).readCtx j
                = ((s.writeCtx c { s.readCtx c with extent := none }).writeCtx c { (s.writeCtx c { s.readCtx c with extent := none }).readCtx c with prev := none, next := none }).readCtx j := by
              rw [hl1, if_neg (fun hh => hjnx hh.1)]
            have hstep2 : ((s.writeCtx c { s.readCtx c with extent := none }).writeCtx c { (s.writeCtx c { s.readCtx c with extent := none }).readCtx c with prev := none, next := none }).readCtx j =
                if j = c then AllocContext.mk none none none else s.readCtx j :=
              (readCtx_writeCtx2 s c { s.readCtx c with extent := none } { (s.writeCtx c { s.readCtx c with extent := none }).readCtx c with prev := none, next := none } hc j).trans
                (by rw [hvc])
            exact (hstep.trans hstep2).trans (by rw [if_neg hjnx])
        · exact congrArg (fun b => mapSet s.holders b nx) he02
    | cons a u0t =>
      obtain ⟨u, pprev, hu0⟩ := exists_concat (a :: u0t) (by simp)
      rw [hu0] at hr hokK hhead hprevh hlink hchnd hchmem hmem
      have hprevc : (s.readCtx c).prev = some pprev :=
        linked_prev_at s u pprev c w hlink
      have hnextc : (s.readCtx c).next = w.head? :=
        linked_next_at s (u ++ [pprev]) c w hlink
      have hp0 : ((s.writeCtx c { s.readCtx c with extent := none }).readCtx c).prev = some pprev := by
        rw [hc0]
        exact hprevc
      have hn0 : ((s.writeCtx c { s.readCtx c with extent := none }).readCtx c).next = w.head? := by
        rw [hc0]
        exact hnextc
      have hppmem : pprev ∈ (u ++ [pprev]) ++ c :: w :=
        List.mem_append.mpr (Or.inl (List.mem_append.mpr
          (Or.inr (List.mem_cons_self _ _))))
      have hppbd : pprev < s.ctxs.length := hr.bounds pprev
        ((mem_flatten_middle_iff C1 C2 _ pprev).mpr (Or.inr (Or.inl hppmem)))
      have hnd1 := List.nodup_append.mp hchnd
      have hppnc : ¬ pprev = c := fun hh =>
        hnd1.2.2 (List.mem_append.mpr (Or.inr (List.mem_cons_self _ _)))
          (by rw [hh]; exact List.mem_cons_self _ _)
      have hcnw : c ∉ w := (List.nodup_cons.mp hnd1.2.1).1
      have hppnw : pprev ∉ w := fun hh =>
        hnd1.2.2 (List.mem_append.mpr (Or.inr (List.mem_cons_self _ _)))
          (List.mem_cons_of_mem _ hh)
      have hW2pp : ((s.writeCtx c { s.readCtx c with extent := none }).writeCtx c { (s.writeCtx c { s.readCtx c with extent := none }).readCtx c with prev := none, next := none }).readCtx pprev = s.readCtx pprev :=
        (readCtx_writeCtx2 s c { s.readCtx c with extent := none } { (s.writeCtx c { s.readCtx c with extent := none }).readCtx c with prev := none, next := none } hc pprev).trans
          (if_neg hppnc)
      have hW2c : ∀ j, ((s.writeCtx c { s.readCtx c with extent := none }).writeCtx c { (s.writeCtx c { s.readCtx c with extent := none }).readCtx c with prev := none, next := none }).readCtx j =
          if j = c then AllocContext.mk none none none else s.readCtx j := fun j =>
        (readCtx_writeCtx2 s c { s.readCtx c with extent := none } { (s.writeCtx c { s.readCtx c with extent := none }).readCtx c with prev := none, next := none } hc j).trans
          (by rw [hvc])
      cases w with
      | nil =>
        rw [remove_holder_some _ _ c pprev (List.nil : List Nat).head? hp0 hn0]
        refine ⟨release_tree_ids s.extents e hids, C1 ++ ((u ++ [pprev]) ++ []) :: C2,
          putChain_mid s _ c pprev u [] C1 C2 H1 H2 p hr hhold hf1 hf2 hokK
            ?_ ?_ ?_ ?_⟩
        · exact (writeCtx_ctxs_length ((s.writeCtx c { s.readCtx c with extent := none }).writeCtx c { (s.writeCtx c { s.readCtx c with extent := none }).readCtx c with prev := none, next := none }) pprev
            { ((s.writeCtx c { s.readCtx c with extent := none }).writeCtx c { (s.writeCtx c { s.readCtx c with extent := none }).readCtx c with prev := none, next := none }).readCtx pprev with next := (List.nil : List Nat).head? }).trans hW2len
        · exact release_pool_eq s.extents e
        · intro j
          have hl1 := readCtx_writeCtx ((s.writeCtx c { s.readCtx c with extent := none }).writeCtx c { (s.writeCtx c { s.readCtx c with extent := none }).readCtx c with prev := none, next := none }) pprev j
            { ((s.writeCtx c { s.readCtx c with extent := none }).writeCtx c { (s.writeCtx c { s.readCtx c with extent := none }).readCtx c with prev := none, next := none }).readCtx pprev with next := (List.nil : List Nat).head? }
          have hlen2 : pprev < ((s.writeCtx c { s.readCtx c with extent := none }).writeCtx c { (s.writeCtx c { s.readCtx c with extent := none }).readCtx c with prev := none, next := none }).ctxs.length := by
            rw [hW2len]
            exact hppbd
          rw [if_neg (show ¬ ((List.nil : List Nat).head? = some j) from by simp)]
          by_cases hjpp : j = pprev
          · have hstep : (((s.writeCtx c { s.readCtx c with extent := none }).writeCtx c { (s.writeCtx c { s.readCtx c with extent := none }).readCtx c with prev := none, next := none }).writeCtx pprev
                { ((s.writeCtx c { s.readCtx c with extent := none }).writeCtx c { (s.writeCtx c { s.readCtx c with extent := none }).readCtx c with prev := none, next := none }).readCtx pprev with next := (List.nil : List Nat).head? }).readCtx j
                = { s.readCtx pprev with next := (List.nil : List Nat).head? } := by
              rw [hl1, if_pos (And.intro hjpp hlen2), hW2pp]
            exact hstep.trans (by rw [if_pos hjpp])
          · have hstep : (((s.writeCtx c { s.readCtx c with extent := none }).writeCtx c { (s.writeCtx c { s.readCtx c with extent := none }).readCtx c with prev := none, next := none }).writeCtx pprev
                { ((s.writeCtx c { s.readCtx c with extent := none }).writeCtx c { (s.writeCtx c { s.readCtx c with extent := none }).readCtx c with prev := none, next := none }).readCtx pprev with next := (List.nil : List Nat).head? }).readCtx j
                = ((s.writeCtx c { s.readCtx c with extent := none }).writeCtx c { (s.writeCtx c { s.readCtx c with extent := none }).readCtx c with prev := none, next := none }).readCtx j := by
              rw [hl1, if_neg (fun hh => hjpp hh.1)]
            exact (hstep.trans (hW2c j)).trans (by rw [if_neg hjpp])
        · rfl
      | cons nx wp =>
        rw [remove_holder_some _ _ c pprev (nx :: wp).head? hp0 hn0]
        have hnxmem : nx ∈ (u ++ [pprev]) ++ c :: nx :: wp :=
          List.mem_append.mpr (Or.inr (List.mem_cons_of_mem _
            (List.mem_cons_self _ _)))
        have hnxbd : nx < s.ctxs.length := hr.bounds nx
          ((mem_flatten_middle_iff C1 C2 _ nx).mpr (Or.inr (Or.inl hnxmem)))
        have hnxc : ¬ nx = c := fun hh => hcnw (hh ▸ List.mem_cons_self nx wp)
        have hnxpp : ¬ nx = pprev := fun hh =>
          hppnw (hh ▸ List.mem_cons_self nx wp)
        have hs1len : (((s.writeCtx c { s.readCtx c with extent := none }).writeCtx c { (s.writeCtx c { s.readCtx c with extent := none }).readCtx c with prev := none, next := none }).writeCtx pprev
            { ((s.writeCtx c { s.readCtx c with extent := none }).writeCtx c { (s.writeCtx c { s.readCtx c with extent := none }).readCtx c with prev := none, next := none }).readCtx pprev with next := (nx :: wp).head? }).ctxs.length
            = s.ctxs.length :=
          (writeCtx_ctxs_length ((s.writeCtx c { s.readCtx c with extent := none }).writeCtx c { (s.writeCtx c { s.readCtx c with extent := none }).readCtx c with prev := none, next := none }) pprev
            { ((s.writeCtx c { s.readCtx c with extent := none }).writeCtx c { (s.writeCtx c { s.readCtx c with extent := none }).readCtx c with prev := none, next := none }).readCtx pprev with next := (nx :: wp).head? }).trans hW2len
        have hs1nx : (((s.writeCtx c { s.readCtx c with extent := none }).writeCtx c { (s.writeCtx c { s.readCtx c with extent := none }).readCtx c with prev := none, next := none }).writeCtx pprev
            { ((s.writeCtx c { s.readCtx c with extent := none }).writeCtx c { (s.writeCtx c { s.readCtx c with extent := none }).readCtx c with prev := none, next := none }).readCtx pprev with next := (nx :: wp).head? }).readCtx nx
            = s.readCtx nx := by
          rw [readCtx_writeCtx, if_neg (fun hh => hnxpp hh.1), hW2c nx,
            if_neg hnxc]
        have hs1j : ∀ jj, ¬ jj = nx → (((s.writeCtx c { s.readCtx c with extent := none }).writeCtx c { (s.writeCtx c { s.readCtx c with extent := none }).readCtx c with prev := none, next := none }).writeCtx pprev
            { ((s.writeCtx c { s.readCtx c with extent := none }).writeCtx c { (s.writeCtx c { s.readCtx c with extent := none }).readCtx c with prev := none, next := none }).readCtx pprev with next := (nx :: wp).head? }).readCtx jj =
              if jj = pprev then { s.readCtx pprev with next := (nx :: wp).head? }
              else if jj = c then AllocContext.mk none none none
              else s.readCtx jj := by
          intro jj hjj
          rw [readCtx_writeCtx]
          by_cases hjpp : jj = pprev
          · rw [if_pos (And.intro hjpp (by rw [hW2len]; exact hppbd)), hW2pp,
              if_pos hjpp]
          · rw [if_neg (fun hh => hjpp hh.1), hW2c jj, if_neg hjpp]
        refine ⟨release_tree_ids s.extents e hids,
          C1 ++ ((u ++ [pprev]) ++ nx :: wp) :: C2,
          putChain_mid s _ c pprev u (nx :: wp) C1 C2 H1 H2 p hr hhold hf1 hf2 hokK
            ?_ ?_ ?_ ?_⟩
        · exact (writeCtx_ctxs_length
              (((s.writeCtx c { s.readCtx c with extent := none }).writeCtx c { (s.writeCtx c { s.readCtx c with extent := none }).readCtx c with prev := none, next := none }).writeCtx pprev { ((s.writeCtx c { s.readCtx c with extent := none }).writeCtx c { (s.writeCtx c { s.readCtx c with extent := none }).readCtx c with prev := none, next := none }).readCtx pprev with next := (nx :: wp).head? }) nx
              { (((s.writeCtx c { s.readCtx c with extent := none }).writeCtx c { (s.writeCtx c { s.readCtx c with extent := none }).readCtx c with prev := none, next := none }).writeCtx pprev
                  { ((s.writeCtx c { s.readCtx c with extent := none }).writeCtx c { (s.writeCtx c { s.readCtx c with extent := none }).readCtx c with prev := none, next := none }).readCtx pprev with next := (nx :: wp).head? }).readCtx nx with
                prev := some pprev }).trans hs1len
        · exact release_pool_eq s.extents e
        · intro j
          have hl1 := readCtx_writeCtx
            (((s.writeCtx c { s.readCtx c with extent := none }).writeCtx c { (s.writeCtx c { s.readCtx c with extent := none }).readCtx c with prev := none, next := none }).writeCtx pprev { ((s.writeCtx c { s.readCtx c with extent := none }).writeCtx c { (s.writeCtx c { s.readCtx c with extent := none }).readCtx c with prev := none, next := none }).readCtx pprev with next := (nx :: wp).head? }) nx j
            { (((s.writeCtx c { s.readCtx c with extent := none }).writeCtx c { (s.writeCtx c { s.readCtx c with extent := none }).readCtx c with prev := none, next := none }).writeCtx pprev
                { ((s.writeCtx c { s.readCtx c with extent := none }).writeCtx c { (s.writeCtx c { s.readCtx c with extent := none }).readCtx c with prev := none, next := none }).readCtx pprev with next := (nx :: wp).head? }).readCtx nx with
              prev := some pprev }
          by_cases hjnx : j = nx
          · have hstep : ((((s.writeCtx c { s.readCtx c with extent := none }).writeCtx c { (s.writeCtx c { s.readCtx c with extent := none }).readCtx c with prev := none, next := none }).writeCtx pprev
                { ((s.writeCtx c { s.readCtx c with extent := none }).writeCtx c { (s.writeCtx c { s.readCtx c with extent := none }).readCtx c with prev := none, next := none }).readCtx pprev with next := (nx :: wp).head? }).writeCtx nx
                { (((s.writeCtx c { s.readCtx c with extent := none }).writeCtx c { (s.writeCtx c { s.readCtx c with extent := none }).readCtx c with prev := none, next := none }).writeCtx pprev
                    { ((s.writeCtx c { s.readCtx c with extent := none }).writeCtx c { (s.writeCtx c { s.readCtx c with extent := none }).readCtx c with prev := none, next := none }).readCtx pprev with next := (nx :: wp).head? }).readCtx nx with
                  prev := some pprev }).readCtx j
                = { s.readCtx nx with prev := some pprev } := by
              rw [hl1, if_pos (And.intro hjnx (by rw [hs1len]; exact hnxbd)), hs1nx]
            refine hstep.trans ?_
            rw [if_pos (show (nx :: wp).head? = some j from by simp [hjnx]), hjnx]
          · have hstep : ((((s.writeCtx c { s.readCtx c with extent := none }).writeCtx c { (s.writeCtx c { s.readCtx c with extent := none }).readCtx c with prev := none, next := none }).writeCtx pprev
                { ((s.writeCtx c { s.readCtx c with extent := none }).writeCtx c { (s.writeCtx c { s.readCtx c with extent := none }).readCtx c with prev := none, next := none }).readCtx pprev with next := (nx :: wp).head? }).writeCtx nx
                { (((s.writeCtx c { s.readCtx c with extent := none }).writeCtx c { (s.writeCtx c { s.readCtx c with extent := none }).readCtx c with prev := none, next := none }).writeCtx pprev
                    { ((s.writeCtx c { s.readCtx c with extent := none }).writeCtx c { (s.writeCtx c { s.readCtx c with extent := none }).readCtx c with prev := none, next := none }).readCtx pprev with next := (nx :: wp).head? }).readCtx nx with
                  prev := some pprev }).readCtx j
                = (((s.writeCtx c { s.readCtx c with extent := none }).writeCtx c { (s.writeCtx c { s.readCtx c with extent := none }).readCtx c with prev := none, next := none }).writeCtx pprev
                    { ((s.writeCtx c { s.readCtx c with extent := none }).writeCtx c { (s.writeCtx c { s.readCtx c with extent := none }).readCtx c with prev := none, next := none }).readCtx pprev with next := (nx :: wp).head? }).readCtx j := by
              rw [hl1, if_neg (fun hh => hjnx hh.1)]
            refine (hstep.trans (hs1j j hjnx)).trans ?_
            rw [if_neg (show ¬ ((nx :: wp).head? = some j) from
              fun hh => hjnx (Option.some.inj hh).symm)]
        · rfl

end ExtentAlloc

namespace ExtentAlloc

/-! ### Pool growth, cursor writes and the `alloc` step states -/

theorem treeIdsOK_congr_len (t1 t2 : Tree) (hn : t2.nodes = t1.nodes)
    (he : t2.extents.length = t1.extents.length) (h : TreeIdsOK t1) :
    TreeIdsOK t2 := by
  intro i e hh hread
  rw [he]
  apply h i e hh
  have hrr : t1.read_node i = t2.read_node i := by
    rw [Tree.read_node, Tree.read_node, hn]
  rw [hrr, hread]

theorem setExtent_len (t : Tree) (e : Nat) (x : Extent) :
    (t.setExtent e x).extents.length = t.extents.length := by
  simp [Tree.setExtent]

theorem setExtent_begin (t : Tree) (e : Nat) (x : Extent)
    (hx : x.begin = (t.readExtent e).begin) :
    ∀ ep, ((t.setExtent e x).readExtent ep).begin = (t.readExtent ep).begin := by
  intro ep
  by_cases hpe : ep = e
  · subst hpe
    by_cases hlt : ep < t.extents.length
    · rw [readExtent_setExtent_self t ep x hlt, hx]
    · rw [show t.setExtent ep x = t from by
        unfold Tree.setExtent
        rw [List.set_eq_of_length_le (by omega)]]
  · rw [readExtent_setExtent_ne t e ep x hpe]

theorem chainRep_pool_extend (s sp : Allocator) (chains : List (List Nat))
    (hctxs : sp.ctxs = s.ctxs) (hh : sp.holders = s.holders)
    (hlen : s.extents.extents.length ≤ sp.extents.extents.length)
    (hbeg : ∀ e, e < s.extents.extents.length →
      (sp.extents.readExtent e).begin = (s.extents.readExtent e).begin)
    (hr : ChainRep s chains) : ChainRep sp chains := by
  have hread : ∀ j, sp.readCtx j = s.readCtx j := fun j => by
    rw [Allocator.readCtx, Allocator.readCtx, hctxs]
  have hclen : sp.ctxs.length = s.ctxs.length := by rw [hctxs]
  refine ⟨?_, hr.nodupJ, ?_, ?_, ?_, ?_, ?_⟩
  · rw [hh]
    refine forall2_imp_mem hr.pairs (fun q hq chq hchq hok => ?_)
    exact ChainOK_congr_lt s sp q chq (fun j _ => hread j) hbeg
      (fun j _ e he => hr.extBound j e he) hok
  · intro i hi
    rw [hclen]
    exact hr.bounds i hi
  · intro i hlt hext
    rw [hread i] at hext
    exact hr.complete i (by rw [hclen] at hlt; exact hlt) hext
  · rw [hh]
    exact hr.keysNodup
  · intro i hmem
    rw [hread i]
    exact hr.nonMember i hmem
  · intro i e hext
    rw [hread i] at hext
    exact lt_of_lt_of_le (hr.extBound i e hext) hlen

theorem allocInv_set_cursor (s : Allocator) (e b2 : Nat) (h : AllocInv s) :
    AllocInv { s with extents := (s.extents.setExtent e
      (Extent.mk (s.extents.readExtent e).begin (s.extents.readExtent e).end_ b2)) } := by
  obtain ⟨hids, chains, hr⟩ := h
  refine ⟨?_, chains, ?_⟩
  · exact treeIdsOK_congr_len s.extents _ rfl (setExtent_len _ _ _) hids
  · refine chainRep_pool_extend s _ chains rfl rfl (le_of_eq (setExtent_len _ _ _).symm)
      ?_ hr
    intro ep _
    exact setExtent_begin s.extents e
      (Extent.mk (s.extents.readExtent e).begin (s.extents.readExtent e).end_ b2)
      rfl ep

theorem add_holder_of_none (s : Allocator) (eb c : Nat)
    (hfind : mapFind s.holders eb = none) :
    s.add_holder eb c = { s with holders := mapSet s.holders eb c } := by
  unfold Allocator.add_holder
  rw [hfind]

theorem add_holder_of_some (s : Allocator) (eb c hd : Nat)
    (hfind : mapFind s.holders eb = some hd) :
    s.add_holder eb c =
      { (s.writeCtx c { s.readCtx c with next := some hd }).writeCtx hd
          { (s.writeCtx c { s.readCtx c with next := some hd }).readCtx hd with
            prev := some c } with
        holders := mapSet s.holders eb c } := by
  unfold Allocator.add_holder
  rw [hfind]
  rfl

theorem ensure_extent_of_borrow (s : Allocator) (c e : Nat)
    (hext : (s.readCtx c).extent = none)
    (hbr : (s.extents.borrow).2 = some e) :
    s.ensure_extent c =
      ((({ s with extents := (s.extents.borrow).1 } : Allocator).writeCtx c
          { ({ s with extents := (s.extents.borrow).1 } : Allocator).readCtx c with
            extent := some e }).add_holder
        (((({ s with extents := (s.extents.borrow).1 } : Allocator).writeCtx c
            { ({ s with extents := (s.extents.borrow).1 } : Allocator).readCtx c with
              extent := some e }).extents.readExtent e).begin) c, some e) := by
  unfold Allocator.ensure_extent
  rw [hext]
  simp only [hbr]

theorem reset_contexts_of_find (s : Allocator) (eb hd : Nat)
    (hfind : mapFind s.holders eb = some hd) :
    s.reset_contexts eb =
      resetChain { s with holders := mapRemove s.holders eb }
        (s.ctxs.length + 1) hd := by
  unfold Allocator.reset_contexts
  rw [hfind]

end ExtentAlloc

namespace ExtentAlloc

/-! ### The chain representation through `add_holder` on a fresh context -/

theorem chainRep_add_holder (s1 : Allocator) (chains : List (List Nat)) (c e : Nat)
    (hr : ChainRep s1 chains)
    (hc : c < s1.ctxs.length)
    (hext : (s1.readCtx c).extent = none)
    (hebd : e < s1.extents.extents.length) :
    ∃ chains2, ChainRep ((s1.writeCtx c { s1.readCtx c with extent := some e }).add_holder (((s1.writeCtx c { s1.readCtx c with extent := some e }).extents.readExtent e).begin) c) chains2 := by
  have hfresh : c ∉ chains.flatten := by
    intro hmemc
    obtain ⟨q, hq, chq, hchq, hok, hcq⟩ := forall2_flatten_mem hr.pairs c hmemc
    obtain ⟨e1, he1, _⟩ := hok.2.2.2.2 c hcq
    rw [hext] at he1
    exact absurd he1 (by simp)
  have hclear := hr.nonMember c hfresh
  have hs2read : ∀ j, (s1.writeCtx c { s1.readCtx c with extent := some e }).readCtx j =
      if j = c then { s1.readCtx c with extent := some e } else s1.readCtx j := by
    intro j
    rw [readCtx_writeCtx]
    by_cases hjc : j = c
    · rw [if_pos (And.intro hjc hc), if_pos hjc]
    · rw [if_neg (fun hh => hjc hh.1), if_neg hjc]
  cases hfind : mapFind s1.holders (((s1.writeCtx c { s1.readCtx c with extent := some e }).extents.readExtent e).begin) with
  | none =>
    rw [add_holder_of_none (s1.writeCtx c { s1.readCtx c with extent := some e }) (((s1.writeCtx c { s1.readCtx c with extent := some e }).extents.readExtent e).begin) c hfind]
    have hkeys := mapFind_none_keys s1.holders (((s1.writeCtx c { s1.readCtx c with extent := some e }).extents.readExtent e).begin) hfind
    have hGh2 : mapSet s1.holders (((s1.writeCtx c { s1.readCtx c with extent := some e }).extents.readExtent e).begin) c = s1.holders ++ [((((s1.writeCtx c { s1.readCtx c with extent := some e }).extents.readExtent e).begin), c)] :=
      mapSet_absent s1.holders (((s1.writeCtx c { s1.readCtx c with extent := some e }).extents.readExtent e).begin) c hkeys
    refine ⟨chains ++ [[c]], ?_, ?_, ?_, ?_, ?_, ?_, ?_⟩
    · show List.Forall₂ (ChainOK { (s1.writeCtx c { s1.readCtx c with extent := some e }) with holders := mapSet (s1.writeCtx c { s1.readCtx c with extent := some e }).holders (((s1.writeCtx c { s1.readCtx c with extent := some e }).extents.readExtent e).begin) c })
        (mapSet s1.holders (((s1.writeCtx c { s1.readCtx c with extent := some e }).extents.readExtent e).begin) c) (chains ++ [[c]])
      rw [hGh2]
      refine forall2_append ?_ (List.Forall₂.cons ?_ List.Forall₂.nil)
      · refine forall2_imp_mem hr.pairs (fun q hq chq hchq hok => ?_)
        refine ChainOK_congr s1 _ q chq (fun j hj => ?_) (fun ep => rfl) hok
        have hjc : ¬ j = c := fun hh =>
          hfresh (hh ▸ List.mem_flatten.mpr ⟨chq, hchq, hj⟩)
        show (s1.writeCtx c { s1.readCtx c with extent := some e }).readCtx j = s1.readCtx j
        rw [hs2read j, if_neg hjc]
      · refine ⟨by simp, rfl, ?_, ?_, ?_⟩
        · show ((s1.writeCtx c { s1.readCtx c with extent := some e }).readCtx (([c] : List Nat).headD 0)).prev = none
          rw [show (([c] : List Nat).headD 0) = c from rfl, hs2read c, if_pos rfl]
          exact hclear.1
        · show ((s1.writeCtx c { s1.readCtx c with extent := some e }).readCtx c).next = none
          rw [hs2read c, if_pos rfl]
          exact hclear.2
        · intro i hi
          have hic : i = c := by simpa using hi
          rw [hic]
          refine ⟨e, ?_, rfl⟩
          show ((s1.writeCtx c { s1.readCtx c with extent := some e }).readCtx c).extent = some e
          rw [hs2read c, if_pos rfl]
    · simp only [List.flatten_append, List.flatten_cons, List.flatten_nil,
        List.append_nil]
      rw [List.nodup_append]
      refine ⟨hr.nodupJ, List.nodup_singleton c, ?_⟩
      intro a ha hb
      rw [show a = c from by simpa using hb] at ha
      exact hfresh ha
    · intro i hi
      simp only [List.flatten_append, List.flatten_cons, List.flatten_nil,
        List.append_nil] at hi
      show i < (s1.writeCtx c { s1.readCtx c with extent := some e }).ctxs.length
      rw [writeCtx_ctxs_length]
      rcases List.mem_append.mp hi with h1 | h1
      · exact hr.bounds i h1
      · rw [show i = c from by simpa using h1]
        exact hc
    · intro i hlt hext2
      simp only [List.flatten_append, List.flatten_cons, List.flatten_nil,
        List.append_nil]
      by_cases hic : i = c
      · exact List.mem_append.mpr (Or.inr (by rw [hic]; exact List.mem_cons_self _ _))
      · refine List.mem_append.mpr (Or.inl ?_)
        have hss : (s1.writeCtx c { s1.readCtx c with extent := some e }).readCtx i = s1.readCtx i := by
          rw [hs2read i, if_neg hic]
        have hext3 : ((s1.readCtx i).extent).isSome = true := by
          rw [← hss]
          exact hext2
        refine hr.complete i ?_ hext3
        have hlt2 : i < (s1.writeCtx c { s1.readCtx c with extent := some e }).ctxs.length := hlt
        rw [writeCtx_ctxs_length] at hlt2
        exact hlt2
    · show ((mapSet s1.holders (((s1.writeCtx c { s1.readCtx c with extent := some e }).extents.readExtent e).begin) c).map Prod.fst).Nodup
      rw [hGh2, List.map_append, List.nodup_append]
      refine ⟨hr.keysNodup, by simp, ?_⟩
      intro a ha hb
      have hae : a = (((s1.writeCtx c { s1.readCtx c with extent := some e }).extents.readExtent e).begin) := by simpa using hb
      obtain ⟨q, hq, hqa⟩ := List.mem_map.mp ha
      exact hkeys q hq (by rw [hqa, hae])
    · intro i hmem
      simp only [List.flatten_append, List.flatten_cons, List.flatten_nil,
        List.append_nil] at hmem
      have hic : ¬ i = c := fun hh =>
        hmem (List.mem_append.mpr (Or.inr (by rw [hh]; exact List.mem_cons_self _ _)))
      have hss : (s1.writeCtx c { s1.readCtx c with extent := some e }).readCtx i = s1.readCtx i := by
        rw [hs2read i, if_neg hic]
      show ((s1.writeCtx c { s1.readCtx c with extent := some e }).readCtx i).prev = none ∧ ((s1.writeCtx c { s1.readCtx c with extent := some e }).readCtx i).next = none
      rw [hss]
      exact hr.nonMember i (fun hh => hmem (List.mem_append.mpr (Or.inl hh)))
    · intro i e1 hext2
      show e1 < s1.extents.extents.length
      by_cases hic : i = c
      · have hss : (s1.writeCtx c { s1.readCtx c with extent := some e }).readCtx i = { s1.readCtx c with extent := some e } := by
          rw [hs2read i, if_pos hic]
        have hext3 : ({ s1.readCtx c with extent := some e } : AllocContext).extent
            = some e1 := by
          rw [← hss]
          exact hext2
        have he1 : e = e1 := Option.some.inj hext3
        rw [← he1]
        exact hebd
      · have hss : (s1.writeCtx c { s1.readCtx c with extent := some e }).readCtx i = s1.readCtx i := by
          rw [hs2read i, if_neg hic]
        have hext3 : (s1.readCtx i).extent = some e1 := by
          rw [← hss]
          exact hext2
        exact hr.extBound i e1 hext3
  | some h0 =>
    obtain ⟨H1, H2, hhold, hk1⟩ := mapFind_some_decomp s1.holders (((s1.writeCtx c { s1.readCtx c with extent := some e }).extents.readExtent e).begin) h0 hfind
    have hp2 := hr.pairs
    rw [hhold] at hp2
    obtain ⟨C1, ch, C2, hceq, hf1, hok, hf2⟩ :=
      forall2_append_decomp H1 ((((s1.writeCtx c { s1.readCtx c with extent := some e }).extents.readExtent e).begin), h0) H2 chains hp2
    subst hceq
    have hk2 := (keys_ne_of_nodup H1 (((s1.writeCtx c { s1.readCtx c with extent := some e }).extents.readExtent e).begin) h0 H2 (by
      have hkn := hr.keysNodup
      rw [hhold] at hkn
      exact hkn)).2
    obtain ⟨hne, hhead, hprevh, hlink, hmem⟩ := hok
    cases ch with
    | nil => exact absurd rfl hne
    | cons hd0 cht =>
    have hh0 : h0 = hd0 := hhead
    subst hh0
    rw [add_holder_of_some (s1.writeCtx c { s1.readCtx c with extent := some e }) (((s1.writeCtx c { s1.readCtx c with extent := some e }).extents.readExtent e).begin) c h0 hfind]
    have hh0mem : h0 ∈ (C1 ++ (h0 :: cht) :: C2).flatten :=
      (mem_flatten_middle_iff C1 C2 _ h0).mpr
        (Or.inr (Or.inl (List.mem_cons_self _ _)))
    have hcneh0 : ¬ c = h0 := fun hh => hfresh (hh ▸ hh0mem)
    have hh0bd : h0 < s1.ctxs.length := hr.bounds h0 hh0mem
    have hchnd : (h0 :: cht).Nodup := nodup_of_mem_flatten hr.nodupJ
      (List.mem_append.mpr (Or.inr (List.mem_cons_self _ _)))
    have hflat_old : (C1 ++ (h0 :: cht) :: C2).flatten =
        C1.flatten ++ ((h0 :: cht) ++ C2.flatten) := by
      rw [List.flatten_append, List.flatten_cons]
    have hflat_new : (C1 ++ (c :: h0 :: cht) :: C2).flatten =
        C1.flatten ++ c :: ((h0 :: cht) ++ C2.flatten) := by
      rw [List.flatten_append, List.flatten_cons]
      rfl
    have hv1 : ({ (s1.writeCtx c { s1.readCtx c with extent := some e }).readCtx c with next := some h0 } : AllocContext) =
        { { s1.readCtx c with extent := some e } with next := some h0 } := by
      rw [hs2read c, if_pos rfl]
    have hW1 : ∀ jj, ((s1.writeCtx c { s1.readCtx c with extent := some e }).writeCtx c { (s1.writeCtx c { s1.readCtx c with extent := some e }).readCtx c with next := some h0 }).readCtx jj =
        if jj = c then { (s1.writeCtx c { s1.readCtx c with extent := some e }).readCtx c with next := some h0 } else s1.readCtx jj := fun jj =>
      readCtx_writeCtx2 s1 c { s1.readCtx c with extent := some e } { (s1.writeCtx c { s1.readCtx c with extent := some e }).readCtx c with next := some h0 } hc jj
    have hW1len : ((s1.writeCtx c { s1.readCtx c with extent := some e }).writeCtx c { (s1.writeCtx c { s1.readCtx c with extent := some e }).readCtx c with next := some h0 }).ctxs.length = s1.ctxs.length :=
      (writeCtx_ctxs_length (s1.writeCtx c { s1.readCtx c with extent := some e }) c { (s1.writeCtx c { s1.readCtx c with extent := some e }).readCtx c with next := some h0 }).trans (writeCtx_ctxs_length s1 c _)
    have hV2 : ({ ((s1.writeCtx c { s1.readCtx c with extent := some e }).writeCtx c { (s1.writeCtx c { s1.readCtx c with extent := some e }).readCtx c with next := some h0 }).readCtx h0 with prev := some c } : AllocContext) = { s1.readCtx h0 with prev := some c } := by
      rw [hW1 h0, if_neg (fun hh => hcneh0 hh.symm)]
    have hGn : ∀ j, (((s1.writeCtx c { s1.readCtx c with extent := some e }).writeCtx c { (s1.writeCtx c { s1.readCtx c with extent := some e }).readCtx c with next := some h0 }).writeCtx h0 { ((s1.writeCtx c { s1.readCtx c with extent := some e }).writeCtx c { (s1.writeCtx c { s1.readCtx c with extent := some e }).readCtx c with next := some h0 }).readCtx h0 with prev := some c }).readCtx j =
        if j = h0 then { s1.readCtx h0 with prev := some c }
        else if j = c then { { s1.readCtx c with extent := some e } with
          next := some h0 }
        else s1.readCtx j := by
      intro j
      rw [readCtx_writeCtx]
      by_cases hjh0 : j = h0
      · rw [if_pos (And.intro hjh0 (by rw [hW1len]; exact hh0bd)), hV2, if_pos hjh0]
      · rw [if_neg (fun hh => hjh0 hh.1), hW1 j, if_neg hjh0]
        by_cases hjc : j = c
        · rw [if_pos hjc, if_pos hjc, hv1]
        · rw [if_neg hjc, if_neg hjc]
    have hGh2 : mapSet s1.holders (((s1.writeCtx c { s1.readCtx c with extent := some e }).extents.readExtent e).begin) c = H1 ++ ((((s1.writeCtx c { s1.readCtx c with extent := some e }).extents.readExtent e).begin), c) :: H2 := by
      rw [hhold]
      exact mapSet_append H1 (((s1.writeCtx c { s1.readCtx c with extent := some e }).extents.readExtent e).begin) h0 c H2 hk1 hk2
    have hne_mid := nodup_three_disjoint (by
      rw [← hflat_old]
      exact hr.nodupJ)
    refine ⟨C1 ++ (c :: h0 :: cht) :: C2, ?_, ?_, ?_, ?_, ?_, ?_, ?_⟩
    · show List.Forall₂ (ChainOK { ((s1.writeCtx c { s1.readCtx c with extent := some e }).writeCtx c { (s1.writeCtx c { s1.readCtx c with extent := some e }).readCtx c with next := some h0 }).writeCtx h0 { ((s1.writeCtx c { s1.readCtx c with extent := some e }).writeCtx c { (s1.writeCtx c { s1.readCtx c with extent := some e }).readCtx c with next := some h0 }).readCtx h0 with prev := some c } with holders := mapSet (s1.writeCtx c { s1.readCtx c with extent := some e }).holders (((s1.writeCtx c { s1.readCtx c with extent := some e }).extents.readExtent e).begin) c })
        (mapSet s1.holders (((s1.writeCtx c { s1.readCtx c with extent := some e }).extents.readExtent e).begin) c) (C1 ++ (c :: h0 :: cht) :: C2)
      rw [hGh2]
      refine forall2_append ?_ (List.Forall₂.cons ?_ ?_)
      · refine forall2_imp_mem hf1 (fun q hq chq hchq hok2 => ?_)
        refine ChainOK_congr s1 _ q chq (fun j hj => ?_) (fun ep => rfl) hok2
        have hjm : j ∈ C1.flatten := List.mem_flatten.mpr ⟨chq, hchq, hj⟩
        have hjc : ¬ j = c := by
          intro hh
          exact hfresh (hh ▸ (mem_flatten_middle_iff C1 C2 _ j).mpr (Or.inl hjm))
        have hjh0 : ¬ j = h0 :=
          hne_mid j (Or.inl hjm) h0 (List.mem_cons_self _ _)
        show (((s1.writeCtx c { s1.readCtx c with extent := some e }).writeCtx c { (s1.writeCtx c { s1.readCtx c with extent := some e }).readCtx c with next := some h0 }).writeCtx h0 { ((s1.writeCtx c { s1.readCtx c with extent := some e }).writeCtx c { (s1.writeCtx c { s1.readCtx c with extent := some e }).readCtx c with next := some h0 }).readCtx h0 with prev := some c }).readCtx j = s1.readCtx j
        rw [hGn j, if_neg hjh0, if_neg hjc]
      · refine ⟨by simp, rfl, ?_, ?_, ?_⟩
        · show ((((s1.writeCtx c { s1.readCtx c with extent := some e }).writeCtx c { (s1.writeCtx c { s1.readCtx c with extent := some e }).readCtx c with next := some h0 }).writeCtx h0 { ((s1.writeCtx c { s1.readCtx c with extent := some e }).writeCtx c { (s1.writeCtx c { s1.readCtx c with extent := some e }).readCtx c with next := some h0 }).readCtx h0 with prev := some c }).readCtx ((c :: h0 :: cht).headD 0)).prev = none
          rw [show ((c :: h0 :: cht).headD 0) = c from rfl, hGn c,
            if_neg hcneh0, if_pos rfl]
          exact hclear.1
        · refine ⟨?_, ?_, ?_⟩
          · show ((((s1.writeCtx c { s1.readCtx c with extent := some e }).writeCtx c { (s1.writeCtx c { s1.readCtx c with extent := some e }).readCtx c with next := some h0 }).writeCtx h0 { ((s1.writeCtx c { s1.readCtx c with extent := some e }).writeCtx c { (s1.writeCtx c { s1.readCtx c with extent := some e }).readCtx c with next := some h0 }).readCtx h0 with prev := some c }).readCtx c).next = some h0
            rw [hGn c, if_neg hcneh0, if_pos rfl]
          · show ((((s1.writeCtx c { s1.readCtx c with extent := some e }).writeCtx c { (s1.writeCtx c { s1.readCtx c with extent := some e }).readCtx c with next := some h0 }).writeCtx h0 { ((s1.writeCtx c { s1.readCtx c with extent := some e }).writeCtx c { (s1.writeCtx c { s1.readCtx c with extent := some e }).readCtx c with next := some h0 }).readCtx h0 with prev := some c }).readCtx h0).prev = some c
            rw [hGn h0, if_pos rfl]
          · refine linked_tail_congr s1 _ h0 cht ?_ ?_ hlink
            · intro j hj
              show ((((s1.writeCtx c { s1.readCtx c with extent := some e }).writeCtx c { (s1.writeCtx c { s1.readCtx c with extent := some e }).readCtx c with next := some h0 }).writeCtx h0 { ((s1.writeCtx c { s1.readCtx c with extent := some e }).writeCtx c { (s1.writeCtx c { s1.readCtx c with extent := some e }).readCtx c with next := some h0 }).readCtx h0 with prev := some c }).readCtx j).next = (s1.readCtx j).next
              rw [hGn j]
              by_cases hjh0 : j = h0
              · rw [if_pos hjh0, hjh0]
              · have hjc : ¬ j = c := by
                  intro hh
                  exact hfresh (hh ▸ (mem_flatten_middle_iff C1 C2 _ j).mpr
                    (Or.inr (Or.inl hj)))
                rw [if_neg hjh0, if_neg hjc]
            · intro j hj
              show ((((s1.writeCtx c { s1.readCtx c with extent := some e }).writeCtx c { (s1.writeCtx c { s1.readCtx c with extent := some e }).readCtx c with next := some h0 }).writeCtx h0 { ((s1.writeCtx c { s1.readCtx c with extent := some e }).writeCtx c { (s1.writeCtx c { s1.readCtx c with extent := some e }).readCtx c with next := some h0 }).readCtx h0 with prev := some c }).readCtx j).prev = (s1.readCtx j).prev
              have hjh0 : ¬ j = h0 := fun hh =>
                (List.nodup_cons.mp hchnd).1 (hh ▸ hj)
              have hjc : ¬ j = c := by
                intro hh
                exact hfresh (hh ▸ (mem_flatten_middle_iff C1 C2 _ j).mpr
                  (Or.inr (Or.inl (List.mem_cons_of_mem _ hj))))
              rw [hGn j, if_neg hjh0, if_neg hjc]
        · intro i hi
          rcases List.mem_cons.mp hi with hic | hitail
          · rw [hic]
            refine ⟨e, ?_, rfl⟩
            show ((((s1.writeCtx c { s1.readCtx c with extent := some e }).writeCtx c { (s1.writeCtx c { s1.readCtx c with extent := some e }).readCtx c with next := some h0 }).writeCtx h0 { ((s1.writeCtx c { s1.readCtx c with extent := some e }).writeCtx c { (s1.writeCtx c { s1.readCtx c with extent := some e }).readCtx c with next := some h0 }).readCtx h0 with prev := some c }).readCtx c).extent = some e
            rw [hGn c, if_neg hcneh0, if_pos rfl]
          · obtain ⟨e1, he1, he2⟩ := hmem i hitail
            refine ⟨e1, ?_, ?_⟩
            · show ((((s1.writeCtx c { s1.readCtx c with extent := some e }).writeCtx c { (s1.writeCtx c { s1.readCtx c with extent := some e }).readCtx c with next := some h0 }).writeCtx h0 { ((s1.writeCtx c { s1.readCtx c with extent := some e }).writeCtx c { (s1.writeCtx c { s1.readCtx c with extent := some e }).readCtx c with next := some h0 }).readCtx h0 with prev := some c }).readCtx i).extent = some e1
              rw [hGn i]
              by_cases hih0 : i = h0
              · rw [if_pos hih0]
                show (s1.readCtx h0).extent = some e1
                rw [← hih0]
                exact he1
              · have hic : ¬ i = c := by
                  intro hh
                  exact hfresh (hh ▸ (mem_flatten_middle_iff C1 C2 _ i).mpr
                    (Or.inr (Or.inl hitail)))
                rw [if_neg hih0, if_neg hic]
                exact he1
            · exact he2
      · refine forall2_imp_mem hf2 (fun q hq chq hchq hok2 => ?_)
        refine ChainOK_congr s1 _ q chq (fun j hj => ?_) (fun ep => rfl) hok2
        have hjm : j ∈ C2.flatten := List.mem_flatten.mpr ⟨chq, hchq, hj⟩
        have hjc : ¬ j = c := by
          intro hh
          exact hfresh (hh ▸ (mem_flatten_middle_iff C1 C2 _ j).mpr
            (Or.inr (Or.inr hjm)))
        have hjh0 : ¬ j = h0 :=
          hne_mid j (Or.inr hjm) h0 (List.mem_cons_self _ _)
        show (((s1.writeCtx c { s1.readCtx c with extent := some e }).writeCtx c { (s1.writeCtx c { s1.readCtx c with extent := some e }).readCtx c with next := some h0 }).writeCtx h0 { ((s1.writeCtx c { s1.readCtx c with extent := some e }).writeCtx c { (s1.writeCtx c { s1.readCtx c with extent := some e }).readCtx c with next := some h0 }).readCtx h0 with prev := some c }).readCtx j = s1.readCtx j
        rw [hGn j, if_neg hjh0, if_neg hjc]
    · rw [hflat_new]
      refine (List.nodup_middle.trans List.nodup_cons).mpr ⟨?_, ?_⟩
      · intro hcm
        apply hfresh
        rw [hflat_old]
        exact hcm
      · rw [← hflat_old]
        exact hr.nodupJ
    · intro i hi
      show i < (((s1.writeCtx c { s1.readCtx c with extent := some e }).writeCtx c { (s1.writeCtx c { s1.readCtx c with extent := some e }).readCtx c with next := some h0 }).writeCtx h0 { ((s1.writeCtx c { s1.readCtx c with extent := some e }).writeCtx c { (s1.writeCtx c { s1.readCtx c with extent := some e }).readCtx c with next := some h0 }).readCtx h0 with prev := some c }).ctxs.length
      rw [(writeCtx_ctxs_length ((s1.writeCtx c { s1.readCtx c with extent := some e }).writeCtx c { (s1.writeCtx c { s1.readCtx c with extent := some e }).readCtx c with next := some h0 }) h0 { ((s1.writeCtx c { s1.readCtx c with extent := some e }).writeCtx c { (s1.writeCtx c { s1.readCtx c with extent := some e }).readCtx c with next := some h0 }).readCtx h0 with prev := some c }).trans hW1len]
      rw [hflat_new] at hi
      rcases List.mem_append.mp hi with h1 | h1
      · exact hr.bounds i (by rw [hflat_old]; exact List.mem_append.mpr (Or.inl h1))
      · rcases List.mem_cons.mp h1 with h2 | h2
        · rw [h2]
          exact hc
        · exact hr.bounds i (by rw [hflat_old]; exact List.mem_append.mpr (Or.inr h2))
    · intro i hlt hext2
      rw [hflat_new]
      have hlt2 : i < (((s1.writeCtx c { s1.readCtx c with extent := some e }).writeCtx c { (s1.writeCtx c { s1.readCtx c with extent := some e }).readCtx c with next := some h0 }).writeCtx h0 { ((s1.writeCtx c { s1.readCtx c with extent := some e }).writeCtx c { (s1.writeCtx c { s1.readCtx c with extent := some e }).readCtx c with next := some h0 }).readCtx h0 with prev := some c }).ctxs.length := hlt
      rw [(writeCtx_ctxs_length ((s1.writeCtx c { s1.readCtx c with extent := some e }).writeCtx c { (s1.writeCtx c { s1.readCtx c with extent := some e }).readCtx c with next := some h0 }) h0 { ((s1.writeCtx c { s1.readCtx c with extent := some e }).writeCtx c { (s1.writeCtx c { s1.readCtx c with extent := some e }).readCtx c with next := some h0 }).readCtx h0 with prev := some c }).trans hW1len] at hlt2
      by_cases hih0 : i = h0
      · exact List.mem_append.mpr (Or.inr (List.mem_cons_of_mem _
          (by rw [hih0]; exact List.mem_append.mpr (Or.inl (List.mem_cons_self _ _)))))
      · by_cases hic : i = c
        · exact List.mem_append.mpr (Or.inr (by rw [hic]; exact List.mem_cons_self _ _))
        · have hro : (((s1.writeCtx c { s1.readCtx c with extent := some e }).writeCtx c { (s1.writeCtx c { s1.readCtx c with extent := some e }).readCtx c with next := some h0 }).writeCtx h0 { ((s1.writeCtx c { s1.readCtx c with extent := some e }).writeCtx c { (s1.writeCtx c { s1.readCtx c with extent := some e }).readCtx c with next := some h0 }).readCtx h0 with prev := some c }).readCtx i = s1.readCtx i := by
            rw [hGn i, if_neg hih0, if_neg hic]
          have hext3 : ((s1.readCtx i).extent).isSome = true := by
            rw [← hro]
            exact hext2
          have hmm := hr.complete i hlt2 hext3
          rw [hflat_old] at hmm
          rcases List.mem_append.mp hmm with h1 | h1
          · exact List.mem_append.mpr (Or.inl h1)
          · exact List.mem_append.mpr (Or.inr (List.mem_cons_of_mem _ h1))
    · show ((mapSet s1.holders (((s1.writeCtx c { s1.readCtx c with extent := some e }).extents.readExtent e).begin) c).map Prod.fst).Nodup
      rw [hGh2]
      have hkn := hr.keysNodup
      rw [hhold] at hkn
      rw [List.map_append, List.map_cons] at hkn ⊢
      exact hkn
    · intro i hmem2
      rw [hflat_new] at hmem2
      have hic : ¬ i = c := fun hh =>
        hmem2 (by rw [hh]; exact List.mem_append.mpr (Or.inr (List.mem_cons_self _ _)))
      have hih0 : ¬ i = h0 := fun hh =>
        hmem2 (List.mem_append.mpr (Or.inr (List.mem_cons_of_mem _
          (by rw [hh]; exact List.mem_append.mpr (Or.inl (List.mem_cons_self _ _))))))
      have hro : (((s1.writeCtx c { s1.readCtx c with extent := some e }).writeCtx c { (s1.writeCtx c { s1.readCtx c with extent := some e }).readCtx c with next := some h0 }).writeCtx h0 { ((s1.writeCtx c { s1.readCtx c with extent := some e }).writeCtx c { (s1.writeCtx c { s1.readCtx c with extent := some e }).readCtx c with next := some h0 }).readCtx h0 with prev := some c }).readCtx i = s1.readCtx i := by
        rw [hGn i, if_neg hih0, if_neg hic]
      show ((((s1.writeCtx c { s1.readCtx c with extent := some e }).writeCtx c { (s1.writeCtx c { s1.readCtx c with extent := some e }).readCtx c with next := some h0 }).writeCtx h0 { ((s1.writeCtx c { s1.readCtx c with extent := some e }).writeCtx c { (s1.writeCtx c { s1.readCtx c with extent := some e }).readCtx c with next := some h0 }).readCtx h0 with prev := some c }).readCtx i).prev = none ∧
        ((((s1.writeCtx c { s1.readCtx c with extent := some e }).writeCtx c { (s1.writeCtx c { s1.readCtx c with extent := some e }).readCtx c with next := some h0 }).writeCtx h0 { ((s1.writeCtx c { s1.readCtx c with extent := some e }).writeCtx c { (s1.writeCtx c { s1.readCtx c with extent := some e }).readCtx c with next := some h0 }).readCtx h0 with prev := some c }).readCtx i).next = none
      rw [hro]
      refine hr.nonMember i ?_
      intro hold
      rw [hflat_old] at hold
      rcases List.mem_append.mp hold with h1 | h1
      · exact hmem2 (List.mem_append.mpr (Or.inl h1))
      · exact hmem2 (List.mem_append.mpr (Or.inr (List.mem_cons_of_mem _ h1)))
    · intro i e1 hext2
      show e1 < s1.extents.extents.length
      by_cases hih0 : i = h0
      · have hro : (((s1.writeCtx c { s1.readCtx c with extent := some e }).writeCtx c { (s1.writeCtx c { s1.readCtx c with extent := some e }).readCtx c with next := some h0 }).writeCtx h0 { ((s1.writeCtx c { s1.readCtx c with extent := some e }).writeCtx c { (s1.writeCtx c { s1.readCtx c with extent := some e }).readCtx c with next := some h0 }).readCtx h0 with prev := some c }).readCtx i =
            { s1.readCtx h0 with prev := some c } := by
          rw [hGn i, if_pos hih0]
        have hext3 : (s1.readCtx h0).extent = some e1 := by
          have hx : ((((s1.writeCtx c { s1.readCtx c with extent := some e }).writeCtx c { (s1.writeCtx c { s1.readCtx c with extent := some e }).readCtx c with next := some h0 }).writeCtx h0 { ((s1.writeCtx c { s1.readCtx c with extent := some e }).writeCtx c { (s1.writeCtx c { s1.readCtx c with extent := some e }).readCtx c with next := some h0 }).readCtx h0 with prev := some c }).readCtx i).extent = some e1 := hext2
          rw [hro] at hx
          exact hx
        exact hr.extBound h0 e1 hext3
      · by_cases hic : i = c
        · have hro : (((s1.writeCtx c { s1.readCtx c with extent := some e }).writeCtx c { (s1.writeCtx c { s1.readCtx c with extent := some e }).readCtx c with next := some h0 }).writeCtx h0 { ((s1.writeCtx c { s1.readCtx c with extent := some e }).writeCtx c { (s1.writeCtx c { s1.readCtx c with extent := some e }).readCtx c with next := some h0 }).readCtx h0 with prev := some c }).readCtx i =
              { { s1.readCtx c with extent := some e } with next := some h0 } := by
            rw [hGn i, if_neg hih0, if_pos hic]
          have hext3 : ({ { s1.readCtx c with extent := some e } with
              next := some h0 } : AllocContext).extent = some e1 := by
            have hx : ((((s1.writeCtx c { s1.readCtx c with extent := some e }).writeCtx c { (s1.writeCtx c { s1.readCtx c with extent := some e }).readCtx c with next := some h0 }).writeCtx h0 { ((s1.writeCtx c { s1.readCtx c with extent := some e }).writeCtx c { (s1.writeCtx c { s1.readCtx c with extent := some e }).readCtx c with next := some h0 }).readCtx h0 with prev := some c }).readCtx i).extent = some e1 := hext2
            rw [hro] at hx
            exact hx
          have he1 : e = e1 := Option.some.inj hext3
          rw [← he1]
          exact hebd
        · have hro : (((s1.writeCtx c { s1.readCtx c with extent := some e }).writeCtx c { (s1.writeCtx c { s1.readCtx c with extent := some e }).readCtx c with next := some h0 }).writeCtx h0 { ((s1.writeCtx c { s1.readCtx c with extent := some e }).writeCtx c { (s1.writeCtx c { s1.readCtx c with extent := some e }).readCtx c with next := some h0 }).readCtx h0 with prev := some c }).readCtx i = s1.readCtx i := by
            rw [hGn i, if_neg hih0, if_neg hic]
          have hext3 : (s1.readCtx i).extent = some e1 := by
            have hx : ((((s1.writeCtx c { s1.readCtx c with extent := some e }).writeCtx c { (s1.writeCtx c { s1.readCtx c with extent := some e }).readCtx c with next := some h0 }).writeCtx h0 { ((s1.writeCtx c { s1.readCtx c with extent := some e }).writeCtx c { (s1.writeCtx c { s1.readCtx c with extent := some e }).readCtx c with next := some h0 }).readCtx h0 with prev := some c }).readCtx i).extent = some e1 := hext2
            rw [hro] at hx
            exact hx
          exact hr.extBound i e1 hext3

end ExtentAlloc

namespace ExtentAlloc

/-! ### The invariant through `ensure_extent` -/

theorem allocInv_ensure {s s1 : Allocator} {c : Nat} {o : Option Nat}
    (hc : c < s.ctxs.length) (h : AllocInv s)
    (hen : s.ensure_extent c = (s1, o)) :
    AllocInv s1 ∧ s1.ctxs.length = s.ctxs.length := by
  obtain ⟨hids, chains, hr⟩ := h
  cases hext : (s.readCtx c).extent with
  | some ep =>
    rw [ensure_extent_of_some s c ep hext] at hen
    have hs1 : s1 = s := (congrArg Prod.fst hen).symm
    subst hs1
    exact ⟨⟨hids, chains, hr⟩, rfl⟩
  | none =>
    cases hbr : (s.extents.borrow).2 with
    | none =>
      rw [ensure_extent_of_nospace s c hext hbr] at hen
      have hs1 : s1 = { s with extents := (s.extents.borrow).1 } :=
        (congrArg Prod.fst hen).symm
      subst hs1
      obtain ⟨hids2, hle, hbeg, _⟩ := borrow_tree_pool s.extents hids
      exact ⟨⟨hids2, chains, chainRep_pool_extend s _ chains rfl rfl hle hbeg hr⟩, rfl⟩
    | some e =>
      rw [ensure_extent_of_borrow s c e hext hbr] at hen
      have hs1 := (congrArg Prod.fst hen).symm
      subst hs1
      obtain ⟨hids2, hle, hbeg, hbnd⟩ := borrow_tree_pool s.extents hids
      have hrB : ChainRep ({ s with extents := (s.extents.borrow).1 } : Allocator)
          chains := chainRep_pool_extend s _ chains rfl rfl hle hbeg hr
      obtain ⟨chains2, hrep2⟩ := chainRep_add_holder
        ({ s with extents := (s.extents.borrow).1 } : Allocator) chains c e hrB hc
        hext (hbnd e hbr)
      refine ⟨⟨?_, chains2, hrep2⟩, ?_⟩
      · rw [add_holder_extents]
        exact hids2
      · exact (add_holder_ctxs_length _ _ c).trans (writeCtx_ctxs_length _ c _)

/-! ### Deleting a whole cleared chain from the representation -/

theorem chainRep_remove_chain_all (s sp : Allocator)
    (C1 C2 : List (List Nat)) (H1 H2 : List (Nat × Nat)) (p : Nat × Nat)
    (ch : List Nat)
    (hr : ChainRep s (C1 ++ ch :: C2))
    (hhold : s.holders = H1 ++ p :: H2)
    (hf1 : List.Forall₂ (ChainOK s) H1 C1)
    (hf2 : List.Forall₂ (ChainOK s) H2 C2)
    (hlen : sp.ctxs.length = s.ctxs.length)
    (hpool : sp.extents.extents = s.extents.extents)
    (hothers : ∀ j, j ∈ C1.flatten ∨ j ∈ C2.flatten → sp.readCtx j = s.readCtx j)
    (hoff : ∀ j, j ∉ (C1 ++ ch :: C2).flatten → sp.readCtx j = s.readCtx j)
    (hclear : ∀ j ∈ ch, sp.readCtx j = AllocContext.new)
    (hnew : sp.holders = H1 ++ H2) :
    ChainRep sp (C1 ++ C2) := by
  have hbeg : ∀ e, (sp.extents.readExtent e).begin = (s.extents.readExtent e).begin :=
    fun e => by simp [Tree.readExtent, hpool]
  have hmemold : ∀ j, j ∈ (C1 ++ C2).flatten → j ∈ (C1 ++ ch :: C2).flatten := by
    intro j hj
    rw [List.flatten_append] at hj
    rcases List.mem_append.mp hj with h1 | h1
    · exact (mem_flatten_middle_iff C1 C2 ch j).mpr (Or.inl h1)
    · exact (mem_flatten_middle_iff C1 C2 ch j).mpr (Or.inr (Or.inr h1))
  have hcongr1 : List.Forall₂ (ChainOK sp) H1 C1 := by
    refine forall2_imp_mem hf1 (fun q hq chq hchq hok => ?_)
    refine ChainOK_congr s sp q chq (fun j hj => ?_) hbeg hok
    exact hothers j (Or.inl (List.mem_flatten.mpr ⟨chq, hchq, hj⟩))
  have hcongr2 : List.Forall₂ (ChainOK sp) H2 C2 := by
    refine forall2_imp_mem hf2 (fun q hq chq hchq hok => ?_)
    refine ChainOK_congr s sp q chq (fun j hj => ?_) hbeg hok
    exact hothers j (Or.inr (List.mem_flatten.mpr ⟨chq, hchq, hj⟩))
  have hnodup : (C1 ++ C2).flatten.Nodup := by
    refine hr.nodupJ.sublist ?_
    rw [List.flatten_append, List.flatten_append, List.flatten_cons]
    exact List.Sublist.append_left (List.sublist_append_right _ _) C1.flatten
  refine ⟨?_, hnodup, ?_, ?_, ?_, ?_, ?_⟩
  · rw [hnew]
    exact forall2_append hcongr1 hcongr2
  · intro i hi
    rw [hlen]
    exact hr.bounds i (hmemold i hi)
  · intro i hlt hext
    by_cases hich : i ∈ ch
    · rw [hclear i hich] at hext
      simp [AllocContext.new] at hext
    · by_cases hold : i ∈ (C1 ++ ch :: C2).flatten
      · rcases (mem_flatten_middle_iff C1 C2 ch i).mp hold with h1 | h1 | h1
        · rw [List.flatten_append]
          exact List.mem_append.mpr (Or.inl h1)
        · exact absurd h1 hich
        · rw [List.flatten_append]
          exact List.mem_append.mpr (Or.inr h1)
      · rw [hoff i hold] at hext
        exact absurd (hr.complete i (by rw [hlen] at hlt; exact hlt) hext) hold
  · have hkeys : sp.holders.map Prod.fst =
        (H1.map Prod.fst) ++ (H2.map Prod.fst) := by
      rw [hnew, List.map_append]
    rw [hkeys]
    have hkn := hr.keysNodup
    rw [hhold, List.map_append, List.map_cons] at hkn
    exact nodup_middle_remove hkn
  · intro i hmem
    by_cases hich : i ∈ ch
    · rw [hclear i hich]
      exact ⟨rfl, rfl⟩
    · have hioff : i ∉ (C1 ++ ch :: C2).flatten := by
        intro hold
        rcases (mem_flatten_middle_iff C1 C2 ch i).mp hold with h1 | h1 | h1
        · exact hmem (by rw [List.flatten_append]; exact List.mem_append.mpr (Or.inl h1))
        · exact hich h1
        · exact hmem (by rw [List.flatten_append]; exact List.mem_append.mpr (Or.inr h1))
      rw [hoff i hioff]
      exact hr.nonMember i hioff
  · intro i e hext
    rw [show sp.extents.extents.length = s.extents.extents.length from by rw [hpool]]
    by_cases hich : i ∈ ch
    · rw [hclear i hich] at hext
      exact absurd hext (by simp [AllocContext.new])
    · by_cases hold : i ∈ (C1 ++ ch :: C2).flatten
      · rcases (mem_flatten_middle_iff C1 C2 ch i).mp hold with h1 | h1 | h1
        · rw [hothers i (Or.inl h1)] at hext
          exact hr.extBound i e hext
        · exact absurd h1 hich
        · rw [hothers i (Or.inr h1)] at hext
          exact hr.extBound i e hext
      · rw [hoff i hold] at hext
        exact hr.extBound i e hext

/-! ### One-step forms of `reset_and_release` -/

theorem reset_and_release_of_none (s : Allocator) (c : Nat)
    (hext : (s.readCtx c).extent = none) : s.reset_and_release c = s := by
  unfold Allocator.reset_and_release
  rw [hext]

theorem reset_and_release_of_some (s : Allocator) (c e : Nat)
    (hext : (s.readCtx c).extent = some e) :
    s.reset_and_release c =
      { s.reset_contexts ((s.extents.readExtent e).begin) with
        extents :=
          ((s.reset_contexts ((s.extents.readExtent e).begin)).extents.release e) } := by
  unfold Allocator.reset_and_release
  rw [hext]

end ExtentAlloc

namespace ExtentAlloc

/-! ### The invariant through `reset_and_release` and `alloc` -/

theorem allocInv_reset_and_release (s : Allocator) (c : Nat)
    (hc : c < s.ctxs.length) (h : AllocInv s) :
    AllocInv (s.reset_and_release c) ∧
      (s.reset_and_release c).ctxs.length = s.ctxs.length := by
  obtain ⟨hids, chains, hr⟩ := h
  cases hext : (s.readCtx c).extent with
  | none =>
    rw [reset_and_release_of_none s c hext]
    exact ⟨⟨hids, chains, hr⟩, rfl⟩
  | some e =>
    have hcmem : c ∈ chains.flatten := hr.complete c hc (by rw [hext]; rfl)
    obtain ⟨ch, hchmem, hcch⟩ := List.mem_flatten.mp hcmem
    obtain ⟨C1, C2, hchains⟩ := List.append_of_mem hchmem
    subst hchains
    obtain ⟨H1, p, H2, hhold, hf1, hok, hf2⟩ :=
      forall2_append_decomp_right C1 s.holders ch C2 hr.pairs
    obtain ⟨hne, hhead, hprevh, hlink, hmem⟩ := hok
    obtain ⟨e0, he01, he02⟩ := hmem c hcch
    rw [hext] at he01
    have he0eq : e0 = e := (Option.some.inj he01).symm
    rw [he0eq] at he02
    have hchnd : ch.Nodup := nodup_of_mem_flatten hr.nodupJ hchmem
    have hchbd : ∀ i ∈ ch, i < s.ctxs.length := fun i hi =>
      hr.bounds i (List.mem_flatten.mpr ⟨ch, hchmem, hi⟩)
    have hndkeys : ((H1 ++ (p.1, p.2) :: H2).map Prod.fst).Nodup := by
      have hkn := hr.keysNodup
      rw [hhold] at hkn
      exact hkn
    obtain ⟨hk1, hk2⟩ := keys_ne_of_nodup H1 p.1 p.2 H2 hndkeys
    have hfind : mapFind s.holders ((s.extents.readExtent e).begin) = some p.2 := by
      rw [he02, hhold]
      exact mapFind_append_cons H1 p.1 p.2 H2 hk1
    rw [reset_and_release_of_some s c e hext, reset_contexts_of_find s _ p.2 hfind]
    have hwalk : chainWalk
        ({ s with holders := (mapRemove s.holders
          ((s.extents.readExtent e).begin)) } : Allocator)
        (s.ctxs.length + 1) p.2 = ch := by
      have hw1 : chainWalk
          ({ s with holders := (mapRemove s.holders
            ((s.extents.readExtent e).begin)) } : Allocator)
          (s.ctxs.length + 1) p.2 =
          chainWalk s (s.ctxs.length + 1) p.2 :=
        chainWalk_congr _ s _ p.2 (fun j _ => rfl)
      rw [hw1]
      exact chainWalk_of_linked s ch (s.ctxs.length + 1) hlink
        (by have := length_le_of_nodup_lt ch s.ctxs.length hchnd hchbd; omega)
        p.2 hhead.symm hne
    have hRread : ∀ j,
        (resetChain ({ s with holders := (mapRemove s.holders
            ((s.extents.readExtent e).begin)) } : Allocator)
          (s.ctxs.length + 1) p.2).readCtx j =
        if j ∈ ch then AllocContext.new else s.readCtx j := by
      intro j
      have hx := resetChain_clear (s.ctxs.length + 1)
        ({ s with holders := (mapRemove s.holders
          ((s.extents.readExtent e).begin)) } : Allocator) p.2
        (by rw [hwalk]; exact hchnd) j
      rw [hwalk] at hx
      exact hx
    have hRext : (resetChain ({ s with holders := (mapRemove s.holders
        ((s.extents.readExtent e).begin)) } : Allocator)
        (s.ctxs.length + 1) p.2).extents = s.extents :=
      resetChain_extents _ _ _
    have hRlen : (resetChain ({ s with holders := (mapRemove s.holders
        ((s.extents.readExtent e).begin)) } : Allocator)
        (s.ctxs.length + 1) p.2).ctxs.length = s.ctxs.length :=
      resetChain_ctxs_length _ _ _
    have hGh : mapRemove s.holders ((s.extents.readExtent e).begin) = H1 ++ H2 := by
      rw [he02, hhold]
      exact mapRemove_append H1 p.1 p.2 H2 hk1 hk2
    have hne_mid := nodup_three_disjoint (flatten_middle_nodup hr.nodupJ)
    refine ⟨⟨?_, C1 ++ C2, ?_⟩, ?_⟩
    · exact release_tree_ids _ e (by rw [hRext]; exact hids)
    · refine chainRep_remove_chain_all s _ C1 C2 H1 H2 p ch hr hhold hf1 hf2
        hRlen ((release_pool_eq _ e).trans (congrArg Tree.extents hRext))
        ?_ ?_ ?_ ?_
      · intro j hj
        have hjch : j ∉ ch := fun hh => hne_mid j hj j hh rfl
        exact (hRread j).trans (by rw [if_neg hjch])
      · intro j hj
        have hjch : j ∉ ch := fun hh =>
          hj ((mem_flatten_middle_iff C1 C2 ch j).mpr (Or.inr (Or.inl hh)))
        exact (hRread j).trans (by rw [if_neg hjch])
      · intro j hj
        exact (hRread j).trans (by rw [if_pos hj])
      · exact (resetChain_holders _ _ _).trans hGh
    · exact hRlen

theorem allocInv_alloc {ε : Type} (oracle : Nat → Nat → Except ε (Option Nat)) :
    ∀ (fuel : Nat) (s : Allocator) (c : Nat), c < s.ctxs.length → AllocInv s →
      AllocInv (Allocator.alloc oracle fuel s c).1 := by
  intro fuel
  induction fuel with
  | zero => intro s c _ h; exact h
  | succ fuel ih =>
    intro s c hc h
    cases hen : s.ensure_extent c with
    | mk s1 o =>
      obtain ⟨h1, hlen1⟩ := allocInv_ensure hc h hen
      have hc1 : c < s1.ctxs.length := by rw [hlen1]; exact hc
      cases o with
      | none =>
        rw [alloc_step_nospace oracle fuel s s1 c hen]
        exact h1
      | some e =>
        cases hor : oracle (s1.extents.readExtent e).cursor
            (s1.extents.readExtent e).end_ with
        | error err =>
          rw [alloc_step_err oracle fuel s s1 c e err hen hor]
          exact h1
        | ok ob =>
          cases ob with
          | some b =>
            rw [alloc_step_some oracle fuel s s1 c e b hen hor]
            by_cases hfull : b + 1 = (s1.extents.readExtent e).end_
            · rw [if_pos hfull]
              exact (allocInv_reset_and_release
                ({ s1 with extents := (s1.extents.setExtent e
                  (Extent.mk (s1.extents.readExtent e).begin
                    (s1.extents.readExtent e).end_ (b + 1))) } : Allocator)
                c hc1 (allocInv_set_cursor s1 e (b + 1) h1)).1
            · rw [if_neg hfull]
              exact allocInv_set_cursor s1 e (b + 1) h1
          | none =>
            rw [alloc_step_none oracle fuel s s1 c e hen hor]
            have hstep := allocInv_reset_and_release
              ({ s1 with extents := (s1.extents.setExtent e
                (Extent.mk (s1.extents.readExtent e).begin
                  (s1.extents.readExtent e).end_
                  (s1.extents.readExtent e).end_)) } : Allocator) c hc1
              (allocInv_set_cursor s1 e (s1.extents.readExtent e).end_ h1)
            refine ih _ c ?_ hstep.1
            rw [hstep.2]
            exact hc1

end ExtentAlloc

namespace ExtentAlloc

/-! ### Claim C9 -/

theorem allocInv_applyOp {ε : Type} (s : Allocator) (op : Op ε) (h : AllocInv s) :
    AllocInv (applyOp s op) := by
  cases op with
  | get_context => exact allocInv_get_context s h
  | put_context c =>
    show AllocInv (if c < s.ctxs.length then s.put_context c else s)
    by_cases hc : c < s.ctxs.length
    · rw [if_pos hc]
      exact allocInv_put_context s c hc h
    · rw [if_neg hc]
      exact h
  | alloc c fuel oracle =>
    show AllocInv (if c < s.ctxs.length then (Allocator.alloc oracle fuel s c).1 else s)
    by_cases hc : c < s.ctxs.length
    · rw [if_pos hc]
      exact allocInv_alloc oracle fuel s c hc h
    · rw [if_neg hc]
      exact h
  | reset => exact allocInv_reset s h
  | resize n => exact allocInv_resize s n h

theorem allocInv_applyOps {ε : Type} :
    ∀ (ops : List (Op ε)) (s : Allocator), AllocInv s → AllocInv (applyOps s ops) := by
  intro ops
  induction ops with
  | nil => intro s h; exact h
  | cons op rest ih =>
    intro s h
    exact ih (applyOp s op) (allocInv_applyOp s op h)

/-- Claim C9: after any sequence of public allocator operations
(`get_context`, `alloc`, `put_context`, `reset`, `resize`) starting from
`Allocator::new`, the holders map is a forest of well-formed doubly-linked
lists: whenever a context's `next` points to another context, that
context's `prev` points back, and the head context registered in the map
for each chain has `prev == None`. -/
theorem chain_integrity_invariant {ε : Type} (nr_blocks nr_nodes : Nat)
    (ops : List (Op ε)) :
    ChainIntegrity (applyOps (Allocator.new nr_blocks nr_nodes) ops) := by
  obtain ⟨_, chains, hr⟩ := allocInv_applyOps ops (Allocator.new nr_blocks nr_nodes)
    (allocInv_new nr_blocks nr_nodes)
  exact chainRep_integrity _ chains hr

end ExtentAlloc
